import Mathlib

/-!
Verification of the entity-component storage engine specification and of
several peripheral components of this repository (color interpolation,
visibility toggling, capsule mesh generation).

The entity storage and migration engine described by the specification is
not part of the excerpted sources (only its benchmarks are), so it is
modelled here directly from the specification's words (sections 3-7):
entity allocator with generations and a freelist, archetypes identified by
component sets, columnar table rows with swap-remove, per-component sparse
sets, a location index updated as the last step of every migration, and
change-tick stamped cells.  Machine integers are modelled as `Nat`
(overflow is irrelevant at the sizes the specification discusses), and
component payloads are modelled as `Nat` values ("byte-for-byte unchanged"
becomes equality of stored values and ticks).
-/

/-! ## Generic list helpers -/

/-- Replace the element at position `n` by `f` applied to it; out-of-range
indices leave the list unchanged. -/
def listModify {α : Type} (f : α → α) : Nat → List α → List α
  | _, [] => []
  | 0, a :: l => f a :: l
  | n + 1, a :: l => a :: listModify f n l

/-- Remove the element at position `r` by moving the last element into its
place and dropping the last position (the swap-remove of the spec,
section 3 "Table"). -/
def swapRemove {α : Type} (l : List α) (r : Nat) : List α :=
  match l.getLast? with
  | none => l
  | some x => (l.set r x).dropLast

/-- Index of the first element satisfying `p`. -/
def findIdxA {α : Type} (p : α → Bool) : List α → Option Nat
  | [] => none
  | a :: l => if p a then some 0 else (findIdxA p l).map (· + 1)

/-- Run a sequence of in-place writes (index, value drawn from `f`) over an
array modelled as a list. -/
def applyWrites {α : Type} (f : Nat → α) (ws : List Nat) (arr : List α) : List α :=
  ws.foldl (fun a i => a.set i (f i)) arr

instance {ε α : Type} [DecidableEq ε] [DecidableEq α] : DecidableEq (Except ε α) :=
  fun a b => match a, b with
  | .error e1, .error e2 =>
    if h : e1 = e2 then .isTrue (by rw [h]) else .isFalse (by intro hq; cases hq; exact h rfl)
  | .ok a1, .ok a2 =>
    if h : a1 = a2 then .isTrue (by rw [h]) else .isFalse (by intro hq; cases hq; exact h rfl)
  | .error _, .ok _ => .isFalse (by intro hq; cases hq)
  | .ok _, .error _ => .isFalse (by intro hq; cases hq)

/-! ## Visibility (src/crates/bevy_render/src/view/visibility/mod.rs) -/

namespace Vis

/-- The three-valued visibility component from the source. -/
inductive Visibility
  | Inherited
  | Hidden
  | Visible
deriving DecidableEq

/-- Toggles between Inherited and Visible; Hidden is unaffected
(source lines 61-67). -/
def Visibility.toggle_inherited_visible : Visibility → Visibility
  | .Inherited => .Visible
  | .Visible => .Inherited
  | v => v

/-- Toggles between Inherited and Hidden; Visible is unaffected
(source lines 71-77). -/
def Visibility.toggle_inherited_hidden : Visibility → Visibility
  | .Inherited => .Hidden
  | .Hidden => .Inherited
  | v => v

/-- Toggles between Visible and Hidden; Inherited is unaffected
(source lines 81-87). -/
def Visibility.toggle_visible_hidden : Visibility → Visibility
  | .Visible => .Hidden
  | .Hidden => .Visible
  | v => v

end Vis

/-! ## Color range (src/crates/bevy_color/src/color_range.rs)

Floating-point factors are modelled as rationals; the clamping logic of
the source uses only order comparisons, which the rational model captures
exactly.  The Mix trait is modelled as an arbitrary mixing function. -/

namespace ColorR

/-- Rust's clamp on ordered values: if below the lower bound return the
lower bound, if above the upper bound return the upper bound, else the
value itself. -/
def clampQ (x lo hi : ℚ) : ℚ := if x < lo then lo else if hi < x then hi else x

/-- The `at` method of `ColorRange` for `Range<T>` (source lines 16-20):
mix the start and end colors at the factor clamped to [0, 1], for an
arbitrary Mix implementation `mix`. -/
def rangeAt {α : Type} (mix : α → α → ℚ → α) (start stop : α) (factor : ℚ) : α :=
  mix start stop (clampQ factor 0 1)

/-- One channel of the linear-interpolation Mix implementations of the
source (used as a concrete Mix instance). -/
def mixLerp (s e t : ℚ) : ℚ := s + (e - s) * t

end ColorR

/-! ## Capsule mesh builder (src/crates/bevy_mesh/src/primitives/dim3/capsule.rs)

The claim under scrutiny concerns array lengths and index bounds, which
depend only on the integer parameters `rings`, `longitudes`, `latitudes`.
These are `u32` in the source, and every offset, length and stored index
is computed in `u32`, which wraps modulo `2^32` in release builds and
panics on overflow in debug builds.  The definitions carrying the source
names below therefore compute in `Nat` with an explicit `% 2^32` at every
`u32` addition, subtraction and multiplication, so their values are the
release-build values, and a place where the wrapped value differs from the
wrap-free one is exactly an overflow (a debug-build panic).  The `...Exact`
definitions are the wrap-free values of the same quantities, used to
organise the proofs; the `..._eq` lemmas show the two families coincide
when the parameters are small enough that no intermediate reaches `2^32`,
and the counterexample shows they genuinely diverge for large parameters.
The floating-point vertex payloads never influence lengths or indices and
are kept abstract; the index buffer and the sequence of vertex-array write
positions are transcribed literally from the source loops. -/

namespace Capsule

/-- Wrap-free value of the source line 110 quantity `half_latitudes`. -/
def half_latitudesExact (latitudes : Nat) : Nat := latitudes / 2

/-- Wrap-free value of the source line 118. -/
def vert_offset_north_hemisphereExact (longitudes : Nat) : Nat := longitudes

/-- Wrap-free value of the source lines 119-120. -/
def vert_offset_north_equatorExact (longitudes latitudes : Nat) : Nat :=
  vert_offset_north_hemisphereExact longitudes + (longitudes + 1) * (half_latitudesExact latitudes - 1)

/-- Wrap-free value of the source line 121. -/
def vert_offset_cylinderExact (longitudes latitudes : Nat) : Nat :=
  vert_offset_north_equatorExact longitudes latitudes + (longitudes + 1)

/-- Wrap-free value of the source lines 122-126. -/
def vert_offset_south_equatorExact (rings longitudes latitudes : Nat) : Nat :=
  if 0 < rings then vert_offset_cylinderExact longitudes latitudes + (longitudes + 1) * rings
  else vert_offset_cylinderExact longitudes latitudes

/-- Wrap-free value of the source line 127. -/
def vert_offset_south_hemisphereExact (rings longitudes latitudes : Nat) : Nat :=
  vert_offset_south_equatorExact rings longitudes latitudes + (longitudes + 1)

/-- Wrap-free value of the source lines 128-129. -/
def vert_offset_south_polarExact (rings longitudes latitudes : Nat) : Nat :=
  vert_offset_south_hemisphereExact rings longitudes latitudes +
    (longitudes + 1) * (half_latitudesExact latitudes - 2)

/-- Wrap-free value of the source line 130. -/
def vert_offset_south_capExact (rings longitudes latitudes : Nat) : Nat :=
  vert_offset_south_polarExact rings longitudes latitudes + (longitudes + 1)

/-- Wrap-free value of the source line 133: total number of vertices. -/
def vert_lenExact (rings longitudes latitudes : Nat) : Nat :=
  vert_offset_south_capExact rings longitudes latitudes + longitudes

/-- Wrap-free value of the source lines 302-309: triangle-buffer segment offsets. -/
def tri_offset_north_hemisphereExact (longitudes : Nat) : Nat := longitudes * 3

/-- Wrap-free value of the source line 307. -/
def tri_offset_cylinderExact (longitudes latitudes : Nat) : Nat :=
  tri_offset_north_hemisphereExact longitudes +
    (half_latitudesExact latitudes - 1) * (longitudes * 6)

/-- Wrap-free value of the source line 308. -/
def tri_offset_south_hemisphereExact (rings longitudes latitudes : Nat) : Nat :=
  tri_offset_cylinderExact longitudes latitudes + (rings + 1) * (longitudes * 6)

/-- Wrap-free value of the source line 309. -/
def tri_offset_south_capExact (rings longitudes latitudes : Nat) : Nat :=
  tri_offset_south_hemisphereExact rings longitudes latitudes +
    (half_latitudesExact latitudes - 1) * (longitudes * 6)

/-- Wrap-free value of the source line 311: length of the triangle index buffer. -/
def fs_lenExact (rings longitudes latitudes : Nat) : Nat :=
  tri_offset_south_capExact rings longitudes latitudes + longitudes * 3

/-- Wrap-free values of the north polar cap triangles (source lines
318-323, positions 0..3*longitudes). -/
def northCapTrisExact (longitudes : Nat) : List Nat :=
  (List.range longitudes).flatMap fun i =>
    [i, vert_offset_north_hemisphereExact longitudes + i,
     vert_offset_north_hemisphereExact longitudes + i + 1]

/-- Wrap-free values of one quad (two triangles) of a latitude strip, in
the vertex order the source writes for hemispheres and cylinder (lines
357-363 etc.): given the base index of the current latitude row and of the
next one, and the longitude `j`. -/
def quadTrisExact (cur nxt j : Nat) : List Nat :=
  [cur + j, nxt + j + 1, cur + j + 1, cur + j, nxt + j, nxt + j + 1]

/-- Wrap-free values of the north hemisphere triangles (source lines
340-363). -/
def northHemiTrisExact (longitudes latitudes : Nat) : List Nat :=
  (List.range (half_latitudesExact latitudes - 1)).flatMap fun i =>
    (List.range longitudes).flatMap fun j =>
      quadTrisExact (vert_offset_north_hemisphereExact longitudes + i * (longitudes + 1))
        (vert_offset_north_hemisphereExact longitudes + i * (longitudes + 1) + (longitudes + 1)) j

/-- Wrap-free values of the cylinder triangles (source lines 388-415);
note the loop runs over `rings + 1` latitude strips. -/
def cylinderTrisExact (rings longitudes latitudes : Nat) : List Nat :=
  (List.range (rings + 1)).flatMap fun i =>
    (List.range longitudes).flatMap fun j =>
      quadTrisExact (vert_offset_north_equatorExact longitudes latitudes + i * (longitudes + 1))
        (vert_offset_north_equatorExact longitudes latitudes + i * (longitudes + 1) + (longitudes + 1)) j

/-- Wrap-free values of the south hemisphere triangles (source lines
340-377): latitude rows start at the south equator. -/
def southHemiTrisExact (rings longitudes latitudes : Nat) : List Nat :=
  (List.range (half_latitudesExact latitudes - 1)).flatMap fun i =>
    (List.range longitudes).flatMap fun j =>
      quadTrisExact (vert_offset_south_equatorExact rings longitudes latitudes + i * (longitudes + 1))
        (vert_offset_south_equatorExact rings longitudes latitudes + i * (longitudes + 1) + (longitudes + 1)) j

/-- Wrap-free values of the south polar cap triangles (source lines
324-327). -/
def southCapTrisExact (rings longitudes latitudes : Nat) : List Nat :=
  (List.range longitudes).flatMap fun i =>
    [vert_offset_south_capExact rings longitudes latitudes + i,
     vert_offset_south_polarExact rings longitudes latitudes + i + 1,
     vert_offset_south_polarExact rings longitudes latitudes + i]

/-- Wrap-free values of the full triangle index buffer, as the
concatenation of its five contiguous segments in position order. -/
def capsuleTrianglesExact (rings longitudes latitudes : Nat) : List Nat :=
  northCapTrisExact longitudes ++ northHemiTrisExact longitudes latitudes ++
    cylinderTrisExact rings longitudes latitudes ++ southHemiTrisExact rings longitudes latitudes ++
    southCapTrisExact rings longitudes latitudes

/-- Wrap-free values of the sequence of vertex-array indices written by
the builder, in source order: the polar loop (lines 156-174), the
equatorial loop (lines 177-201), the hemisphere loop (lines 204-265), and
the cylinder loop (lines 268-296, writing `rings * (longitudes + 1)`
consecutive slots from `vert_offset_cylinderExact`). -/
def vertexWriteIndicesExact (rings longitudes latitudes : Nat) : List Nat :=
  ((List.range longitudes).flatMap fun j =>
    [j, vert_offset_south_capExact rings longitudes latitudes + j]) ++
  ((List.range (longitudes + 1)).flatMap fun j =>
    [vert_offset_north_equatorExact longitudes latitudes + j,
     vert_offset_south_equatorExact rings longitudes latitudes + j]) ++
  ((List.range (half_latitudesExact latitudes - 1)).flatMap fun i =>
    (List.range (longitudes + 1)).flatMap fun j =>
      [vert_offset_north_hemisphereExact longitudes + i * (longitudes + 1) + j,
       vert_offset_south_hemisphereExact rings longitudes latitudes + i * (longitudes + 1) + j]) ++
  (if 0 < rings then
    (List.range (rings * (longitudes + 1))).map
      (fun k => vert_offset_cylinderExact longitudes latitudes + k)
  else [])

/-- The modulus of `u32` arithmetic. -/
def u32Mod : Nat := 4294967296

/-- `u32` addition: wraps modulo `2^32` in release builds (a wrapped
result, one that differs from `a + b`, is an overflow panic in debug
builds). -/
def add32 (a b : Nat) : Nat := (a + b) % u32Mod

/-- `u32` multiplication, wrapping modulo `2^32`. -/
def mul32 (a b : Nat) : Nat := a * b % u32Mod

/-- `u32` subtraction, wrapping modulo `2^32`: for `a, b < 2^32` this is
the release-build value of `a - b`. -/
def sub32 (a b : Nat) : Nat := (a + (u32Mod - b % u32Mod)) % u32Mod

/-- Source line 110: `half_latitudes = latitudes / 2` (`u32` division
never wraps). -/
def half_latitudes (latitudes : Nat) : Nat := latitudes / 2

/-- Source line 111: `half_latitudes - 1` in `u32`. -/
def half_latitudes_n1 (latitudes : Nat) : Nat := sub32 (half_latitudes latitudes) 1

/-- Source line 112: `half_latitudes - 2` in `u32`. -/
def half_latitudes_n2 (latitudes : Nat) : Nat := sub32 (half_latitudes latitudes) 2

/-- Source line 113: `rings + 1` in `u32`. -/
def rings_p1 (rings : Nat) : Nat := add32 rings 1

/-- Source line 114: `longitudes + 1` in `u32`. -/
def longitudes_p1 (longitudes : Nat) : Nat := add32 longitudes 1

/-- Source line 118. -/
def vert_offset_north_hemisphere (longitudes : Nat) : Nat := longitudes

/-- Source lines 119-120, in `u32`. -/
def vert_offset_north_equator (longitudes latitudes : Nat) : Nat :=
  add32 (vert_offset_north_hemisphere longitudes)
    (mul32 (longitudes_p1 longitudes) (half_latitudes_n1 latitudes))

/-- Source line 121, in `u32`. -/
def vert_offset_cylinder (longitudes latitudes : Nat) : Nat :=
  add32 (vert_offset_north_equator longitudes latitudes) (longitudes_p1 longitudes)

/-- Source lines 122-126, in `u32`. -/
def vert_offset_south_equator (rings longitudes latitudes : Nat) : Nat :=
  if 0 < rings then
    add32 (vert_offset_cylinder longitudes latitudes)
      (mul32 (longitudes_p1 longitudes) rings)
  else vert_offset_cylinder longitudes latitudes

/-- Source line 127, in `u32`. -/
def vert_offset_south_hemisphere (rings longitudes latitudes : Nat) : Nat :=
  add32 (vert_offset_south_equator rings longitudes latitudes) (longitudes_p1 longitudes)

/-- Source lines 128-129, in `u32`. -/
def vert_offset_south_polar (rings longitudes latitudes : Nat) : Nat :=
  add32 (vert_offset_south_hemisphere rings longitudes latitudes)
    (mul32 (longitudes_p1 longitudes) (half_latitudes_n2 latitudes))

/-- Source line 130, in `u32`. -/
def vert_offset_south_cap (rings longitudes latitudes : Nat) : Nat :=
  add32 (vert_offset_south_polar rings longitudes latitudes) (longitudes_p1 longitudes)

/-- Source line 133: the `u32` sum `vert_offset_south_cap + longitudes` is
computed first and then cast to `usize`; the cast keeps the wrapped
value. -/
def vert_len (rings longitudes latitudes : Nat) : Nat :=
  add32 (vert_offset_south_cap rings longitudes latitudes) longitudes

/-- Source line 302: `longitudes * 3` in `u32`. -/
def longitudes3 (longitudes : Nat) : Nat := mul32 longitudes 3

/-- Source line 303: `longitudes * 6` in `u32`. -/
def longitudes6 (longitudes : Nat) : Nat := mul32 longitudes 6

/-- Source line 304: `half_latitudes_n1 * longitudes6` in `u32`. -/
def hemisphere_longitudes (longitudes latitudes : Nat) : Nat :=
  mul32 (half_latitudes_n1 latitudes) (longitudes6 longitudes)

/-- Source line 306. -/
def tri_offset_north_hemisphere (longitudes : Nat) : Nat := longitudes3 longitudes

/-- Source line 307, in `u32`. -/
def tri_offset_cylinder (longitudes latitudes : Nat) : Nat :=
  add32 (tri_offset_north_hemisphere longitudes) (hemisphere_longitudes longitudes latitudes)

/-- Source line 308, in `u32`. -/
def tri_offset_south_hemisphere (rings longitudes latitudes : Nat) : Nat :=
  add32 (tri_offset_cylinder longitudes latitudes)
    (mul32 (rings_p1 rings) (longitudes6 longitudes))

/-- Source line 309, in `u32`. -/
def tri_offset_south_cap (rings longitudes latitudes : Nat) : Nat :=
  add32 (tri_offset_south_hemisphere rings longitudes latitudes)
    (hemisphere_longitudes longitudes latitudes)

/-- Source line 311: length of the triangle index buffer, a `u32` sum cast
to `usize` at the allocation. -/
def fs_len (rings longitudes latitudes : Nat) : Nat :=
  add32 (tri_offset_south_cap rings longitudes latitudes) (longitudes3 longitudes)

/-- North polar cap triangles (source lines 318-323, positions
`0..3*longitudes`): the stored index values are `u32` sums. -/
def northCapTris (longitudes : Nat) : List Nat :=
  (List.range longitudes).flatMap fun i =>
    [i, add32 (vert_offset_north_hemisphere longitudes) i,
     add32 (add32 (vert_offset_north_hemisphere longitudes) i) 1]

/-- One quad (two triangles) of a latitude strip in `u32` arithmetic, in
the vertex order the source writes for hemispheres and cylinder (lines
357-363 etc.): given the `u32` base index of the current latitude row and
of the next one, and the longitude `j`. -/
def quadTris (cur nxt j : Nat) : List Nat :=
  [add32 cur j, add32 (add32 nxt j) 1, add32 (add32 cur j) 1,
   add32 cur j, add32 nxt j, add32 (add32 nxt j) 1]

/-- North hemisphere triangles (source lines 340-363): the outer loop runs
`i` over `0..half_latitudes_n1` as a `u32` counter, and every stored index
is a `u32` computation. -/
def northHemiTris (longitudes latitudes : Nat) : List Nat :=
  (List.range (half_latitudes_n1 latitudes)).flatMap fun i =>
    (List.range longitudes).flatMap fun j =>
      quadTris (add32 (vert_offset_north_hemisphere longitudes)
          (mul32 i (longitudes_p1 longitudes)))
        (add32 (add32 (vert_offset_north_hemisphere longitudes)
          (mul32 i (longitudes_p1 longitudes))) (longitudes_p1 longitudes)) j

/-- Cylinder triangles (source lines 388-415): the loop runs `i` over
`0..rings_p1` with `rings_p1` the `u32` value of `rings + 1`. -/
def cylinderTris (rings longitudes latitudes : Nat) : List Nat :=
  (List.range (rings_p1 rings)).flatMap fun i =>
    (List.range longitudes).flatMap fun j =>
      quadTris (add32 (vert_offset_north_equator longitudes latitudes)
          (mul32 i (longitudes_p1 longitudes)))
        (add32 (add32 (vert_offset_north_equator longitudes latitudes)
          (mul32 i (longitudes_p1 longitudes))) (longitudes_p1 longitudes)) j

/-- South hemisphere triangles (source lines 340-377): latitude rows start
at the south equator. -/
def southHemiTris (rings longitudes latitudes : Nat) : List Nat :=
  (List.range (half_latitudes_n1 latitudes)).flatMap fun i =>
    (List.range longitudes).flatMap fun j =>
      quadTris (add32 (vert_offset_south_equator rings longitudes latitudes)
          (mul32 i (longitudes_p1 longitudes)))
        (add32 (add32 (vert_offset_south_equator rings longitudes latitudes)
          (mul32 i (longitudes_p1 longitudes))) (longitudes_p1 longitudes)) j

/-- South polar cap triangles (source lines 324-327), `u32` sums. -/
def southCapTris (rings longitudes latitudes : Nat) : List Nat :=
  (List.range longitudes).flatMap fun i =>
    [add32 (vert_offset_south_cap rings longitudes latitudes) i,
     add32 (add32 (vert_offset_south_polar rings longitudes latitudes) i) 1,
     add32 (vert_offset_south_polar rings longitudes latitudes) i]

/-- The full U32 triangle index buffer as the concatenation of its five
segments in position order.  The write positions `k`, `m` are `usize`
counters seeded from the `tri_offset_*` values; when no `u32` computation
wraps (as under the hypotheses of the C10 theorem) those offsets are
exactly the cumulative segment lengths, so this concatenation is the
buffer's contents. -/
def capsuleTriangles (rings longitudes latitudes : Nat) : List Nat :=
  northCapTris longitudes ++ northHemiTris longitudes latitudes ++
    cylinderTris rings longitudes latitudes ++ southHemiTris rings longitudes latitudes ++
    southCapTris rings longitudes latitudes

/-- The sequence of vertex-array indices written by the builder, in source
order: the polar loop (lines 156-174), the equatorial loop (lines 177-201),
the hemisphere loop (lines 204-265), and the cylinder loop (lines 268-296,
writing `(rings_p1 - 1) * longitudes_p1` consecutive `usize` slots from
`vert_offset_cylinder`).  Each `vert_...` base is a `u32` value; the final
`+ j` additions are `usize` (64-bit, they cannot wrap at these
magnitudes).  The position, normal and UV arrays are written at exactly
the same indices. -/
def vertexWriteIndices (rings longitudes latitudes : Nat) : List Nat :=
  ((List.range longitudes).flatMap fun j =>
    [j, vert_offset_south_cap rings longitudes latitudes + j]) ++
  ((List.range (longitudes_p1 longitudes)).flatMap fun j =>
    [vert_offset_north_equator longitudes latitudes + j,
     vert_offset_south_equator rings longitudes latitudes + j]) ++
  ((List.range (half_latitudes_n1 latitudes)).flatMap fun i =>
    (List.range (longitudes_p1 longitudes)).flatMap fun j =>
      [add32 (vert_offset_north_hemisphere longitudes)
          (mul32 i (longitudes_p1 longitudes)) + j,
       add32 (vert_offset_south_hemisphere rings longitudes latitudes)
          (mul32 i (longitudes_p1 longitudes)) + j]) ++
  (if 0 < rings then
    (List.range ((rings_p1 rings - 1) * longitudes_p1 longitudes)).map
      (fun k => vert_offset_cylinder longitudes latitudes + k)
  else [])

end Capsule

/-! ## Entity-component storage engine, modelled from the spec

The engine itself is not part of the excerpted sources (only benchmarks
that exercise it are), so every definition in this namespace is modelled
from the specification text, sections 3-7. -/

namespace Ecs

/-- Modelled from the spec (section 3, ComponentId): the storage-strategy
tag carried by every registered component type. -/
inductive Strategy
  | table
  | sparseSet
deriving DecidableEq

/-- Modelled from the spec (section 3, EntityId): index plus generation;
stale handles are detected by a generation mismatch. -/
structure EntityId where
  index : Nat
  generation : Nat
deriving DecidableEq

/-- Modelled from the spec (section 3, Change ticks): one storage slot of a
table column: the component id, its value (a machine word standing for the
component's bytes), and the two change-detection counters. -/
structure Cell where
  comp : Nat
  value : Nat
  added : Nat
  changed : Nat
deriving DecidableEq

/-- Modelled from the spec (section 3, Table): one row of a table, holding
the owning entity's index and one cell per table-stored component of the
archetype.  The source's columnar layout (one array per component, rows
aligned by position) is represented row-wise; a column is the projection of
all rows onto one component, so "all columns have equal length" holds by
construction and swap-removing a row acts on every column at once. -/
structure TableRow where
  entity : Nat
  cells : List Cell
deriving DecidableEq

/-- Modelled from the spec (section 3, Archetype): identified by its
ComponentSet; owns the table rows for its table-stored components.  Sparse
components live in the shared sparse-set storage.  The lazily-memoized edge
maps are a cache whose observable behavior is the compSet arithmetic
performed by the transition functions, so they are not materialized. -/
structure Archetype where
  compSet : Finset Nat
  rows : List TableRow
deriving DecidableEq

/-- Modelled from the spec (section 3, Sparse-Set entry): one dense-array
entry of a per-component sparse set.  The sparse index array is represented
implicitly (an entity's slot is its position in the dense array). -/
structure SEntry where
  entity : Nat
  value : Nat
  added : Nat
  changed : Nat
deriving DecidableEq

/-- Modelled from the spec (sections 3 and 4.2): the allocator's per-index
record (current generation) merged with the Entity Location Index entry
(archetype id and row, `none` when the entity is dead). -/
structure EntityRec where
  gen : Nat
  loc : Option (Nat × Nat)
deriving DecidableEq

/-- Modelled from the spec (section 2): the world: the component registry
(a stable strategy assignment, fixed at initialization per section 4.1's
idempotent registration), the allocator state (records and freelist), the
archetype arena, the shared sparse-set storage keyed by component id, and
the global change tick the core reads to stamp writes. -/
structure World where
  strategy : Nat → Strategy
  ents : List EntityRec
  freelist : List Nat
  archetypes : List Archetype
  sparse : List (Nat × List SEntry)
  tick : Nat

/-- Modelled from the spec (section 7): the recoverable error kinds of the
boundary operations. -/
inductive EcsError
  | entityNotFound
  | invalidEntity
deriving DecidableEq

/-- The archetype with the empty component set and no rows. -/
def emptyArch : Archetype := { compSet := ∅, rows := [] }

/-- Default table row used with `List.getD`. -/
def defaultRow : TableRow := { entity := 0, cells := [] }

/-- Default entity record used with `List.getD`. -/
def defaultRec : EntityRec := { gen := 0, loc := none }

/-- Modelled from the spec (section 4.4 / 3): the table-stored subset of a
component set, per the registry's strategy tags. -/
def World.tableCompsOf (w : World) (s : Finset Nat) : Finset Nat :=
  s.filter (fun c => w.strategy c = Strategy.table)

/-- Modelled from the spec (sections 4.2 and 7): resolve an EntityId to its
(archetype, row) location: `entityNotFound` for a never-allocated or dead
index, `invalidEntity` for a stale generation. -/
def World.resolve (w : World) (e : EntityId) : Except EcsError (Nat × Nat) :=
  match w.ents.get? e.index with
  | none => .error .entityNotFound
  | some er =>
    if er.gen ≠ e.generation then .error .invalidEntity
    else match er.loc with
      | none => .error .entityNotFound
      | some l => .ok l

/-- Modelled from the spec (section 4.3): `get_or_create(component_set)`:
look the set up among the existing archetypes, appending a fresh archetype
with an empty table on first use; archetypes are never deleted. -/
def World.getOrCreate (w : World) (s : Finset Nat) : World × Nat :=
  match findIdxA (fun a => a.compSet = s) w.archetypes with
  | some i => (w, i)
  | none => ({ w with archetypes := w.archetypes ++ [{ compSet := s, rows := [] }] },
             w.archetypes.length)

/-- Update the Location Index entry of entity index `i`. -/
def World.setLoc (w : World) (i : Nat) (l : Option (Nat × Nat)) : World :=
  { w with ents := listModify (fun er => { er with loc := l }) i w.ents }

/-- Replace the rows of archetype `a`. -/
def World.setRows (w : World) (a : Nat) (rows : List TableRow) : World :=
  { w with archetypes := listModify (fun ar => { ar with rows := rows }) a w.archetypes }

/-- Modelled from the spec (section 4.4): `swap_remove_row`: remove row `r`
of archetype `a` by moving the last row into its place, and correct the
Location Index entry of the relocated entity (the explicit relocation
notification of section 9). -/
def World.removeRow (w : World) (a r : Nat) : World :=
  match w.archetypes.get? a with
  | none => w
  | some arch =>
    let w1 := w.setRows a (swapRemove arch.rows r)
    if r + 1 = arch.rows.length then w1
    else match arch.rows.getLast? with
      | none => w1
      | some last => w1.setLoc last.entity (some (a, r))

/-- Modelled from the spec (section 4.6): the shared tail of a migration:
allocate a new row holding `newCells` in target archetype `t`, swap-remove
the old row `(a, r)` (fixing up any relocated entity), and, as the last
action, point the Location Index entry of the migrating entity `eIdx` at
the new location. -/
def World.migrate (w : World) (eIdx a r t : Nat) (newCells : List Cell) : World :=
  match w.archetypes.get? t with
  | none => w
  | some tarch =>
    let w1 := w.setRows t (tarch.rows ++ [{ entity := eIdx, cells := newCells }])
    let w2 := w1.removeRow a r
    w2.setLoc eIdx (some (t, tarch.rows.length))

/-- Modelled from the spec (section 4.5): `get(entity)` on the sparse set
of component `c`. -/
def World.ssGet (w : World) (c i : Nat) : Option SEntry :=
  match w.sparse.find? (fun p => p.1 = c) with
  | none => none
  | some p => p.2.find? (fun en => en.entity = i)

/-- Apply `f` to the dense array of component `c`'s sparse set, creating
the set on first use. -/
def ssEntriesModify (f : List SEntry → List SEntry) (c : Nat) :
    List (Nat × List SEntry) → List (Nat × List SEntry)
  | [] => [(c, f [])]
  | p :: ps => if p.1 = c then (p.1, f p.2) :: ps else p :: ssEntriesModify f c ps

/-- Modelled from the spec (section 4.5): `remove(entity)` on one dense
array: swap-remove the entity's entry (the implicit sparse index of every
relocated element is its new dense position). -/
def removeEntryList (es : List SEntry) (i : Nat) : List SEntry :=
  match findIdxA (fun en => en.entity = i) es with
  | none => es
  | some r => swapRemove es r

/-- Modelled from the spec (section 4.6): `insert_component`: resolve the
entity (step 1); overwrite in place without migration when the component is
already present (step 2), stamping the changed tick; otherwise transition
to `target = current set plus the component` (step 3) and migrate, writing
a sparse entry (step 4) or a fresh table cell (step 5). -/
def World.insertComponent (w : World) (e : EntityId) (c v : Nat) :
    Except EcsError World := do
  let (a, r) ← w.resolve e
  let arch := w.archetypes.getD a emptyArch
  if c ∈ arch.compSet then
    if w.strategy c = Strategy.table then
      let overwriteCell := fun (cl : Cell) =>
        if cl.comp = c then { cl with value := v, changed := w.tick } else cl
      let overwriteRow := fun (row : TableRow) => { row with cells := row.cells.map overwriteCell }
      .ok (w.setRows a (listModify overwriteRow r arch.rows))
    else
      let overwriteEntry := fun (en : SEntry) =>
        if en.entity = e.index then { en with value := v, changed := w.tick } else en
      let sparse1 := ssEntriesModify (fun es => es.map overwriteEntry) c w.sparse
      .ok { w with sparse := sparse1 }
  else
    let (w1, t) := w.getOrCreate (insert c arch.compSet)
    let oldCells := (arch.rows.getD r defaultRow).cells
    if w.strategy c = Strategy.table then
      let newCell : Cell := { comp := c, value := v, added := w.tick, changed := w.tick }
      .ok (w1.migrate e.index a r t (oldCells ++ [newCell]))
    else
      let newEntry : SEntry := { entity := e.index, value := v, added := w.tick, changed := w.tick }
      let sparse1 := ssEntriesModify (fun es => es ++ [newEntry]) c w1.sparse
      let w2 := { w1 with sparse := sparse1 }
      .ok (w2.migrate e.index a r t oldCells)

/-- Modelled from the spec (section 4.6): `remove_component`: the mirror of
insertion: resolve, return `none` without any change when the component is
absent, otherwise extract the value (from the table cell or the sparse
set), migrate the remaining table row to `target = current set minus the
component`, and return the extracted value. -/
def World.removeComponent (w : World) (e : EntityId) (c : Nat) :
    Except EcsError (World × Option Nat) := do
  let (a, r) ← w.resolve e
  let arch := w.archetypes.getD a emptyArch
  if c ∈ arch.compSet then
    let (w1, t) := w.getOrCreate (arch.compSet.erase c)
    let oldCells := (arch.rows.getD r defaultRow).cells
    if w.strategy c = Strategy.table then
      let value := (oldCells.find? (fun cl => cl.comp = c)).map Cell.value
      .ok (w1.migrate e.index a r t (oldCells.filter (fun cl => cl.comp ≠ c)), value)
    else
      let value := (w.ssGet c e.index).map SEntry.value
      let sparse1 := ssEntriesModify (fun es => removeEntryList es e.index) c w1.sparse
      let w2 := { w1 with sparse := sparse1 }
      .ok (w2.migrate e.index a r t oldCells, value)
  else
    .ok (w, none)

/-- Modelled from the spec (sections 3 and 4.2): `despawn`: resolve, run
the removal of every sparse entry of the entity, swap-remove its table row
(fixing up the relocated entity), clear its Location Index entry, increment
the stored generation so stale handles become detectable, and push the
index onto the freelist. -/
def World.despawn (w : World) (e : EntityId) : Except EcsError World := do
  let (a, r) ← w.resolve e
  let sparse1 := w.sparse.map (fun (p : Nat × List SEntry) => (p.1, removeEntryList p.2 e.index))
  let w1 := { w with sparse := sparse1 }
  let w2 := w1.removeRow a r
  let w3 := w2.setLoc e.index none
  let w4 := { w3 with ents := listModify (fun er => { er with gen := er.gen + 1 }) e.index w3.ents }
  .ok { w4 with freelist := e.index :: w4.freelist }

/-- Modelled from the spec (section 4.2): `allocate`: pop a recycled index
from the freelist (its generation was already bumped when it was freed) or
mint a fresh index at generation 0. -/
def World.allocate (w : World) : World × EntityId :=
  match w.freelist with
  | i :: rest =>
    ({ w with freelist := rest }, { index := i, generation := (w.ents.getD i defaultRec).gen })
  | [] =>
    ({ w with ents := w.ents ++ [defaultRec] }, { index := w.ents.length, generation := 0 })

/-- Modelled from the spec (section 3, Lifecycle): an entity is created by
the allocator and simultaneously inserted into the archetype with the empty
ComponentSet. -/
def World.spawnEmpty (w : World) : World × EntityId :=
  let (w1, e) := w.allocate
  let (w2, a0) := w1.getOrCreate ∅
  let arch := w2.archetypes.getD a0 emptyArch
  let w3 := w2.setRows a0 (arch.rows ++ [{ entity := e.index, cells := [] }])
  (w3.setLoc e.index (some (a0, arch.rows.length)), e)

/-- Modelled from the spec (section 6): `spawn(initial_components)`: create
an empty entity, then insert each initial component in turn. -/
def World.spawn (w : World) (comps : List (Nat × Nat)) : World × EntityId :=
  let (w1, e) := w.spawnEmpty
  (comps.foldl (fun wa p =>
    match wa.insertComponent e p.1 p.2 with
    | .ok w' => w'
    | .error _ => wa) w1, e)

/-- Modelled from the spec (section 6): the external scheduler advances the
global tick once per processing cycle. -/
def World.advanceTick (w : World) : World := { w with tick := w.tick + 1 }

/-- Is the entity index live (allocated, with a Location Index entry)? -/
def World.isLive (w : World) (i : Nat) : Bool :=
  match w.ents.get? i with
  | some er => er.loc.isSome
  | none => false

/-- The table cells stored at entity index `i`'s location. -/
def World.rowCellsAt (w : World) (i : Nat) : List Cell :=
  match w.ents.get? i with
  | some er =>
    match er.loc with
    | some (a, r) => ((w.archetypes.getD a emptyArch).rows.getD r defaultRow).cells
    | none => []
  | none => []

/-- Modelled from the spec (section 6, `get_component`): the stored value
and change ticks of component `c` on entity index `i`, read from the table
column or the sparse set according to the registered strategy. -/
def World.getCellInfo (w : World) (i c : Nat) : Option (Nat × Nat × Nat) :=
  if w.strategy c = Strategy.table then
    ((w.rowCellsAt i).find? (fun cl => cl.comp = c)).map (fun cl => (cl.value, cl.added, cl.changed))
  else
    (w.ssGet c i).map (fun en => (en.value, en.added, en.changed))

/-- The stored value of component `c` on entity index `i`. -/
def World.getValue (w : World) (i c : Nat) : Option Nat :=
  (w.getCellInfo i c).map (fun x => x.1)

/-- The component ids of the sparse sets holding an entry for entity `i`. -/
def World.sparseCompsOf (w : World) (i : Nat) : Finset Nat :=
  ((w.sparse.map Prod.fst).toFinset).filter (fun c => (w.ssGet c i).isSome)

/-- The set of component types actually stored for entity index `i`: the
components of its table row plus the sparse sets holding an entry for it. -/
def World.storedComps (w : World) (i : Nat) : Finset Nat :=
  ((w.rowCellsAt i).map Cell.comp).toFinset ∪ w.sparseCompsOf i

/-- Modelled from the spec (section 4.7): `matches(archetype)` is a pure
function of the archetype's ComponentSet: required present, excluded
absent. -/
def matchesQ (req exc : Finset Nat) (a : Archetype) : Bool :=
  decide (req ⊆ a.compSet ∧ Disjoint exc a.compSet)

/-- Modelled from the spec (section 4.7): query iteration: walk the rows of
every matching archetype and yield the entities. -/
def World.queryEntities (w : World) (req exc : Finset Nat) : List Nat :=
  (w.archetypes.filter (fun a => matchesQ req exc a)).flatMap
    (fun a => a.rows.map TableRow.entity)

/-- Modelled from the spec (sections 3 and 4.7): query iteration with a
"changed since tick" filter on required component `c`: entities whose
stored changed-tick does not exceed `since` are skipped. -/
def World.queryChanged (w : World) (req exc : Finset Nat) (c since : Nat) : List Nat :=
  (w.queryEntities req exc).filter (fun i =>
    match w.getCellInfo i c with
    | some info => decide (since < info.2.2)
    | none => false)

/-- The number of live entities. -/
def World.liveCount (w : World) : Nat :=
  (w.ents.filter (fun er => er.loc.isSome)).length

/-- The initial world: a registry fixed by `strategy`, no entities, no
archetypes, tick 0. -/
def World.init (strategy : Nat → Strategy) : World :=
  { strategy := strategy, ents := [], freelist := [], archetypes := [], sparse := [], tick := 0 }

/-- The boundary operations of section 6, as a trace alphabet. -/
inductive Op
  | spawnOp (comps : List (Nat × Nat))
  | insertOp (e : EntityId) (c v : Nat)
  | removeOp (e : EntityId) (c : Nat)
  | despawnOp (e : EntityId)
  | tickOp

/-- Apply one operation to the world; failing operations leave the world
unchanged (the caller received the error instead of a new world). -/
def applyOp (w : World) : Op → World
  | .spawnOp comps => (w.spawn comps).1
  | .insertOp e c v =>
    match w.insertComponent e c v with
    | .ok w' => w'
    | .error _ => w
  | .removeOp e c =>
    match w.removeComponent e c with
    | .ok p => p.1
    | .error _ => w
  | .despawnOp e =>
    match w.despawn e with
    | .ok w' => w'
    | .error _ => w
  | .tickOp => w.advanceTick

/-- Run a trace of operations from the initial world. -/
def runOps (strategy : Nat → Strategy) (ops : List Op) : World :=
  ops.foldl applyOp (World.init strategy)

/-- Modelled from the spec (testable property, section 8): the reference
bookkeeping for one entity: its generation and, while live, the set of
component types ever inserted minus those removed. -/
structure ARec where
  gen : Nat
  comps : Option (Finset Nat)
deriving DecidableEq

/-- Modelled from the spec (section 8): the reference world: nothing but
per-entity component sets, the generations, and the freelist. -/
structure AWorld where
  ents : List ARec
  freelist : List Nat
deriving DecidableEq

/-- Default reference record used with `List.getD`. -/
def defaultARec : ARec := { gen := 0, comps := none }

/-- Validity of a handle against the reference world. -/
def AWorld.validA (aw : AWorld) (e : EntityId) : Bool :=
  match aw.ents.get? e.index with
  | some ar => ar.gen = e.generation && ar.comps.isSome
  | none => false

/-- Modelled from the spec (section 8): apply one operation to the
reference world: spawn sets the component set to the initial keys, insert
unions in a component, remove erases it, despawn clears the set, bumps the
generation and recycles the index. -/
def applyAOp (aw : AWorld) : Op → AWorld
  | .spawnOp comps =>
    let s : Finset Nat := (comps.map Prod.fst).toFinset
    match aw.freelist with
    | i :: rest =>
      { ents := listModify (fun ar => { ar with comps := some s }) i aw.ents,
        freelist := rest }
    | [] => { ents := aw.ents ++ [{ gen := 0, comps := some s }], freelist := [] }
  | .insertOp e c _ =>
    if aw.validA e then
      let addC := fun (ar : ARec) => { ar with comps := ar.comps.map (fun s => insert c s) }
      { aw with ents := listModify addC e.index aw.ents }
    else aw
  | .removeOp e c =>
    if aw.validA e then
      let delC := fun (ar : ARec) => { ar with comps := ar.comps.map (fun s => s.erase c) }
      { aw with ents := listModify delC e.index aw.ents }
    else aw
  | .despawnOp e =>
    if aw.validA e then
      { ents := listModify (fun ar => { gen := ar.gen + 1, comps := none }) e.index aw.ents,
        freelist := e.index :: aw.freelist }
    else aw
  | .tickOp => aw

/-- Run a trace of operations on the reference world. -/
def runAOps (ops : List Op) : AWorld :=
  ops.foldl applyAOp { ents := [], freelist := [] }

/-- The reference component set of entity index `i` (empty when dead). -/
def AWorld.compsAt (aw : AWorld) (i : Nat) : Finset Nat :=
  ((aw.ents.getD i defaultARec).comps).getD ∅

/-- The Location Index entry of entity index `i`. -/
def World.locOf (w : World) (i : Nat) : Option (Nat × Nat) :=
  (w.ents.get? i).bind (fun er => er.loc)

/-! ### Structural invariants (spec sections 3 and 4.6) -/

/-- A table row is well formed for component set `s`: its cells list each
table-stored component of `s` exactly once. -/
def rowOK (w : World) (s : Finset Nat) (row : TableRow) : Prop :=
  (row.cells.map Cell.comp).Nodup ∧ (row.cells.map Cell.comp).toFinset = w.tableCompsOf s

/-- Every row of every archetype is well formed (the "all columns have
equal length" invariant of section 3, in row form). -/
def World.archRowsOK (w : World) : Prop :=
  ∀ arch ∈ w.archetypes, ∀ row ∈ arch.rows, rowOK w arch.compSet row

/-- The Location Index resolves every live entity to a slot that holds that
entity (spec section 3, Entity Location Index invariant). -/
def World.locFwd (w : World) : Prop :=
  ∀ i er, w.ents.get? i = some er → ∀ a r, er.loc = some (a, r) →
    ∃ arch, w.archetypes.get? a = some arch ∧
      ∃ row, arch.rows.get? r = some row ∧ row.entity = i

/-- Every stored row belongs to a live entity whose Location Index entry
points back at it (rows and the index form a bijection). -/
def World.locBwd (w : World) : Prop :=
  ∀ a arch, w.archetypes.get? a = some arch → ∀ r row, arch.rows.get? r = some row →
    ∃ er, w.ents.get? row.entity = some er ∧ er.loc = some (a, r)

/-- Sparse-set storage is keyed once per component id, and only for
components registered with the sparse strategy. -/
def World.sparseKeysOK (w : World) : Prop :=
  (w.sparse.map Prod.fst).Nodup ∧ ∀ p ∈ w.sparse, w.strategy p.1 = Strategy.sparseSet

/-- Each dense array holds at most one entry per entity, and every entry
belongs to a live entity whose archetype's ComponentSet contains the
component. -/
def World.sparseEntriesOK (w : World) : Prop :=
  ∀ p ∈ w.sparse, (p.2.map SEntry.entity).Nodup ∧
    ∀ en ∈ p.2, ∃ er, w.ents.get? en.entity = some er ∧
      ∃ a r, er.loc = some (a, r) ∧
        ∃ arch, w.archetypes.get? a = some arch ∧ p.1 ∈ arch.compSet

/-- Conversely, every sparse component of a live entity's archetype has an
entry for that entity. -/
def World.sparseCompleteOK (w : World) : Prop :=
  ∀ i er, w.ents.get? i = some er → ∀ a r, er.loc = some (a, r) →
    ∀ arch, w.archetypes.get? a = some arch →
      ∀ c ∈ arch.compSet, w.strategy c = Strategy.sparseSet → (w.ssGet c i).isSome = true

/-- The freelist holds distinct dead indices (spec section 4.2). -/
def World.freelistOK (w : World) : Prop :=
  w.freelist.Nodup ∧ ∀ i ∈ w.freelist, ∃ er, w.ents.get? i = some er ∧ er.loc = none

/-- The structural invariant of the store. -/
def World.WF (w : World) : Prop :=
  w.archRowsOK ∧ w.locFwd ∧ w.locBwd ∧ w.sparseKeysOK ∧ w.sparseEntriesOK ∧
    w.sparseCompleteOK ∧ w.freelistOK

/-- What a mutation of one entity leaves untouched: the registry, the tick,
the freelist, the allocator records (lengths, generations, liveness), and
the stored component values and component sets of every other entity. -/
def FrameOK (w w' : World) (eIdx : Nat) : Prop :=
  w'.strategy = w.strategy ∧ w'.tick = w.tick ∧ w'.freelist = w.freelist ∧
  w'.ents.length = w.ents.length ∧
  (∀ j, (w'.ents.get? j).map EntityRec.gen = (w.ents.get? j).map EntityRec.gen) ∧
  (∀ j, w'.isLive j = w.isLive j) ∧
  (∀ j, j ≠ eIdx → ∀ c', w'.getCellInfo j c' = w.getCellInfo j c') ∧
  (∀ j, j ≠ eIdx → w'.storedComps j = w.storedComps j)

/-- The simulation relation between the store and the reference world of
spec section 8: structural well-formedness plus agreement of the entity
count, the generations, liveness, the component set of every live entity,
and the freelist. -/
def simRel (w : World) (aw : AWorld) : Prop :=
  w.WF ∧
  w.ents.length = aw.ents.length ∧
  (∀ i, (w.ents.get? i).map EntityRec.gen = (aw.ents.get? i).map ARec.gen) ∧
  (∀ i, w.isLive i = true ↔ ∃ ar, aw.ents.get? i = some ar ∧ ar.comps.isSome = true) ∧
  (∀ i ar s, aw.ents.get? i = some ar → ar.comps = some s → w.storedComps i = s) ∧
  w.freelist = aw.freelist

/-- Modelled from the spec: the registry of the benchmark scenario of
section 8 / the add_remove benches: component 0 (A) table-backed,
component 1 (B) sparse-set-backed. -/
def stratAB : Nat → Strategy := fun c => if c = 1 then Strategy.sparseSet else Strategy.table

/-- Phase 1 of the scenario: spawn `n` entities, each with only component A. -/
def spawnPhase (n : Nat) : List Op := List.replicate n (Op.spawnOp [(0, 7)])

/-- Phase 2: insert component B (value 9) on entity indexes `0..n`. -/
def insertBPhase (n : Nat) : List Op :=
  (List.range n).map (fun i => Op.insertOp { index := i, generation := 0 } 1 9)

/-- Phase 3: remove component B from entity indexes `0..n`. -/
def removeBPhase (n : Nat) : List Op :=
  (List.range n).map (fun i => Op.removeOp { index := i, generation := 0 } 1)

end Ecs

/-! ## Capsule lemmas -/

namespace Capsule

theorem vert_len_expand (rings longitudes latitudes : Nat) :
    vert_lenExact rings longitudes latitudes =
      longitudes + (longitudes + 1) * (latitudes / 2 - 1) + (longitudes + 1) +
        (longitudes + 1) * rings + (longitudes + 1) +
        (longitudes + 1) * (latitudes / 2 - 2) + (longitudes + 1) + longitudes := by
  unfold vert_lenExact vert_offset_south_capExact vert_offset_south_polarExact vert_offset_south_hemisphereExact
    vert_offset_south_equatorExact vert_offset_cylinderExact vert_offset_north_equatorExact
    vert_offset_north_hemisphereExact half_latitudesExact
  split
  · omega
  · rename_i h
    have hr : rings = 0 := by omega
    subst hr
    simp

theorem hl_sub_expand (longitudes latitudes : Nat) (h : 4 ≤ latitudes) :
    (longitudes + 1) * (latitudes / 2 - 1) =
      (longitudes + 1) * (latitudes / 2 - 2) + (longitudes + 1) := by
  have h2 : latitudes / 2 - 1 = (latitudes / 2 - 2) + 1 := by omega
  rw [h2, Nat.mul_succ]

theorem strip_le (longitudes i n : Nat) (h : i + 1 ≤ n) :
    i * (longitudes + 1) + (longitudes + 1) ≤ (longitudes + 1) * n := by
  have h1 : (i + 1) * (longitudes + 1) ≤ n * (longitudes + 1) :=
    Nat.mul_le_mul_right _ h
  rw [Nat.succ_mul, Nat.mul_comm n] at h1
  exact h1

theorem northCapTris_bound (rings longitudes latitudes : Nat) (hlat : 4 ≤ latitudes) :
    ∀ x ∈ northCapTrisExact longitudes, x < vert_lenExact rings longitudes latitudes := by
  intro x hx
  simp only [northCapTrisExact, vert_offset_north_hemisphereExact, List.mem_flatMap,
    List.mem_range, List.mem_cons, List.not_mem_nil, or_false] at hx
  obtain ⟨i, hi, hx⟩ := hx
  rw [vert_len_expand]
  have h1 := hl_sub_expand longitudes latitudes hlat
  rcases hx with rfl | rfl | rfl <;> omega

theorem southCapTris_bound (rings longitudes latitudes : Nat) (hlat : 4 ≤ latitudes) :
    ∀ x ∈ southCapTrisExact rings longitudes latitudes,
      x < vert_lenExact rings longitudes latitudes := by
  intro x hx
  simp only [southCapTrisExact, vert_offset_south_capExact, vert_offset_south_polarExact,
    vert_offset_south_hemisphereExact, vert_offset_south_equatorExact, vert_offset_cylinderExact,
    vert_offset_north_equatorExact, vert_offset_north_hemisphereExact, half_latitudesExact,
    List.mem_flatMap, List.mem_range, List.mem_cons, List.not_mem_nil, or_false] at hx
  obtain ⟨i, hi, hx⟩ := hx
  rw [vert_len_expand]
  split at hx
  · rcases hx with rfl | rfl | rfl <;> omega
  · rename_i h
    have hr : rings = 0 := by omega
    subst hr
    simp only [Nat.mul_zero] at hx ⊢
    rcases hx with rfl | rfl | rfl <;> omega

theorem quadTris_shape (cur nxt j x : Nat) (hx : x ∈ quadTrisExact cur nxt j) :
    x = cur + j ∨ x = nxt + j + 1 ∨ x = cur + j + 1 ∨ x = nxt + j := by
  simp only [quadTrisExact, List.mem_cons, List.not_mem_nil, or_false] at hx
  tauto

theorem northHemiTris_bound (rings longitudes latitudes : Nat) (hlat : 4 ≤ latitudes) :
    ∀ x ∈ northHemiTrisExact longitudes latitudes,
      x < vert_lenExact rings longitudes latitudes := by
  intro x hx
  simp only [northHemiTrisExact, vert_offset_north_hemisphereExact, half_latitudesExact,
    List.mem_flatMap, List.mem_range] at hx
  obtain ⟨i, hi, j, hj, hx⟩ := hx
  have hx' := quadTris_shape _ _ _ _ hx
  rw [vert_len_expand]
  have h1 := hl_sub_expand longitudes latitudes hlat
  have h2 := strip_le longitudes i (latitudes / 2 - 1) (by omega)
  rcases hx' with rfl | rfl | rfl | rfl <;> omega

theorem southHemiTris_bound (rings longitudes latitudes : Nat) (hlat : 4 ≤ latitudes) :
    ∀ x ∈ southHemiTrisExact rings longitudes latitudes,
      x < vert_lenExact rings longitudes latitudes := by
  intro x hx
  simp only [southHemiTrisExact, vert_offset_south_equatorExact, vert_offset_cylinderExact,
    vert_offset_north_equatorExact, vert_offset_north_hemisphereExact, half_latitudesExact,
    List.mem_flatMap, List.mem_range] at hx
  obtain ⟨i, hi, j, hj, hx⟩ := hx
  rw [vert_len_expand]
  have h1 := hl_sub_expand longitudes latitudes hlat
  have h2 := strip_le longitudes i (latitudes / 2 - 1) (by omega)
  have h3 := hl_sub_expand longitudes latitudes hlat
  split at hx
  · have hx' := quadTris_shape _ _ _ _ hx
    rcases hx' with rfl | rfl | rfl | rfl <;>
      · have h4 : i * (longitudes + 1) + (longitudes + 1) ≤
          (longitudes + 1) * (latitudes / 2 - 2) + (longitudes + 1) := by omega
        omega
  · rename_i h
    have hr : rings = 0 := by omega
    subst hr
    simp only [Nat.mul_zero] at hx ⊢
    have hx' := quadTris_shape _ _ _ _ hx
    rcases hx' with rfl | rfl | rfl | rfl <;> omega

theorem cylinderTris_bound (rings longitudes latitudes : Nat) (hlat : 4 ≤ latitudes) :
    ∀ x ∈ cylinderTrisExact rings longitudes latitudes,
      x < vert_lenExact rings longitudes latitudes := by
  intro x hx
  simp only [cylinderTrisExact, vert_offset_north_equatorExact, vert_offset_north_hemisphereExact,
    half_latitudesExact, List.mem_flatMap, List.mem_range] at hx
  obtain ⟨i, hi, j, hj, hx⟩ := hx
  have hx' := quadTris_shape _ _ _ _ hx
  rw [vert_len_expand]
  have h1 := hl_sub_expand longitudes latitudes hlat
  have h2 := strip_le longitudes i (rings + 1) (by omega)
  have h3 : (longitudes + 1) * (rings + 1) = (longitudes + 1) * rings + (longitudes + 1) :=
    Nat.mul_succ _ _
  rcases hx' with rfl | rfl | rfl | rfl <;> omega

theorem capsuleTriangles_bound (rings longitudes latitudes : Nat) (hlat : 4 ≤ latitudes) :
    ∀ x ∈ capsuleTrianglesExact rings longitudes latitudes,
      x < vert_lenExact rings longitudes latitudes := by
  intro x hx
  simp only [capsuleTrianglesExact, List.mem_append] at hx
  rcases hx with ((((hx | hx) | hx) | hx) | hx)
  · exact northCapTris_bound rings longitudes latitudes hlat x hx
  · exact northHemiTris_bound rings longitudes latitudes hlat x hx
  · exact cylinderTris_bound rings longitudes latitudes hlat x hx
  · exact southHemiTris_bound rings longitudes latitudes hlat x hx
  · exact southCapTris_bound rings longitudes latitudes hlat x hx

theorem length_flatMap_const {α : Type} (n c : Nat) (f : Nat → List α)
    (h : ∀ i, (f i).length = c) : ((List.range n).flatMap f).length = n * c := by
  induction n with
  | zero => simp
  | succ n ih =>
    rw [List.range_succ]
    simp only [List.flatMap_append, List.flatMap_cons, List.flatMap_nil,
      List.length_append, List.append_nil, ih, h, Nat.succ_mul]

theorem capsuleTriangles_length (rings longitudes latitudes : Nat) :
    (capsuleTrianglesExact rings longitudes latitudes).length =
      fs_lenExact rings longitudes latitudes := by
  have hnc : (northCapTrisExact longitudes).length = longitudes * 3 :=
    length_flatMap_const _ _ _ (fun _ => rfl)
  have hsc : (southCapTrisExact rings longitudes latitudes).length = longitudes * 3 :=
    length_flatMap_const _ _ _ (fun _ => rfl)
  have hnh : (northHemiTrisExact longitudes latitudes).length =
      (half_latitudesExact latitudes - 1) * (longitudes * 6) :=
    length_flatMap_const _ _ _ (fun _ => length_flatMap_const _ _ _ (fun _ => rfl))
  have hsh : (southHemiTrisExact rings longitudes latitudes).length =
      (half_latitudesExact latitudes - 1) * (longitudes * 6) :=
    length_flatMap_const _ _ _ (fun _ => length_flatMap_const _ _ _ (fun _ => rfl))
  have hcy : (cylinderTrisExact rings longitudes latitudes).length =
      (rings + 1) * (longitudes * 6) :=
    length_flatMap_const _ _ _ (fun _ => length_flatMap_const _ _ _ (fun _ => rfl))
  simp only [capsuleTrianglesExact, List.length_append, hnc, hnh, hcy, hsh, hsc]
  unfold fs_lenExact tri_offset_south_capExact tri_offset_south_hemisphereExact tri_offset_cylinderExact
    tri_offset_north_hemisphereExact
  omega

theorem vertexWriteIndices_bound (rings longitudes latitudes : Nat)
    (hlat : 4 ≤ latitudes) :
    ∀ x ∈ vertexWriteIndicesExact rings longitudes latitudes,
      x < vert_lenExact rings longitudes latitudes := by
  intro x hx
  simp only [vertexWriteIndicesExact, List.mem_append] at hx
  have h1 := hl_sub_expand longitudes latitudes hlat
  rcases hx with ((hx | hx) | hx) | hx
  · simp only [vert_offset_south_capExact, vert_offset_south_polarExact,
      vert_offset_south_hemisphereExact, vert_offset_south_equatorExact, vert_offset_cylinderExact,
      vert_offset_north_equatorExact, vert_offset_north_hemisphereExact, half_latitudesExact,
      List.mem_flatMap, List.mem_range, List.mem_cons, List.not_mem_nil, or_false] at hx
    obtain ⟨j, hj, hx⟩ := hx
    rw [vert_len_expand]
    split at hx
    · rcases hx with rfl | rfl <;> omega
    · rename_i h
      have hr : rings = 0 := by omega
      subst hr
      simp only [Nat.mul_zero] at hx ⊢
      rcases hx with rfl | rfl <;> omega
  · simp only [vert_offset_south_equatorExact, vert_offset_cylinderExact,
      vert_offset_north_equatorExact, vert_offset_north_hemisphereExact, half_latitudesExact,
      List.mem_flatMap, List.mem_range, List.mem_cons, List.not_mem_nil, or_false] at hx
    obtain ⟨j, hj, hx⟩ := hx
    rw [vert_len_expand]
    split at hx
    · rcases hx with rfl | rfl <;> omega
    · rename_i h
      have hr : rings = 0 := by omega
      subst hr
      simp only [Nat.mul_zero] at hx ⊢
      rcases hx with rfl | rfl <;> omega
  · simp only [vert_offset_south_hemisphereExact, vert_offset_south_equatorExact,
      vert_offset_cylinderExact, vert_offset_north_equatorExact, vert_offset_north_hemisphereExact,
      half_latitudesExact, List.mem_flatMap, List.mem_range, List.mem_cons,
      List.not_mem_nil, or_false] at hx
    obtain ⟨i, hi, j, hj, hx⟩ := hx
    rw [vert_len_expand]
    have h2 := strip_le longitudes i (latitudes / 2 - 2 + 1) (by omega)
    have h3 : (longitudes + 1) * (latitudes / 2 - 2 + 1) =
        (longitudes + 1) * (latitudes / 2 - 2) + (longitudes + 1) := Nat.mul_succ _ _
    split at hx
    · rcases hx with rfl | rfl <;> omega
    · rename_i h
      have hr : rings = 0 := by omega
      subst hr
      simp only [Nat.mul_zero] at hx ⊢
      rcases hx with rfl | rfl <;> omega
  · split at hx
    · simp only [vert_offset_cylinderExact, vert_offset_north_equatorExact,
        vert_offset_north_hemisphereExact, half_latitudesExact, List.mem_map,
        List.mem_range] at hx
      obtain ⟨k, hk, rfl⟩ := hx
      rw [vert_len_expand]
      have h4 : rings * (longitudes + 1) = (longitudes + 1) * rings := Nat.mul_comm _ _
      omega
    · simp at hx

theorem add32_eq (a b : Nat) (h : a + b < 4294967296) : add32 a b = a + b := by
  unfold add32 u32Mod
  exact Nat.mod_eq_of_lt h

theorem mul32_eq (a b : Nat) (h : a * b < 4294967296) : mul32 a b = a * b := by
  unfold mul32 u32Mod
  exact Nat.mod_eq_of_lt h

theorem longitudes_p1_eq (longitudes : Nat) (h : longitudes ≤ 4096) :
    longitudes_p1 longitudes = longitudes + 1 :=
  add32_eq longitudes 1 (by omega)

theorem rings_p1_eq (rings : Nat) (h : rings ≤ 4096) :
    rings_p1 rings = rings + 1 :=
  add32_eq rings 1 (by omega)

theorem half_latitudes_n1_eq (latitudes : Nat) (h4 : 4 ≤ latitudes)
    (hlat2 : latitudes ≤ 4096) :
    half_latitudes_n1 latitudes = latitudes / 2 - 1 := by
  unfold half_latitudes_n1 half_latitudes sub32 u32Mod
  omega

theorem half_latitudes_n2_eq (latitudes : Nat) (h4 : 4 ≤ latitudes)
    (hlat2 : latitudes ≤ 4096) :
    half_latitudes_n2 latitudes = latitudes / 2 - 2 := by
  unfold half_latitudes_n2 half_latitudes sub32 u32Mod
  omega

theorem vone32_expand (longitudes latitudes : Nat) (h4 : 4 ≤ latitudes)
    (hlon : longitudes ≤ 4096) (hlat2 : latitudes ≤ 4096) :
    vert_offset_north_equator longitudes latitudes =
      longitudes + (longitudes + 1) * (latitudes / 2 - 1) := by
  have hm1 : (longitudes + 1) * (latitudes / 2 - 1) ≤ 4097 * 2047 :=
    Nat.mul_le_mul (by omega) (by omega)
  unfold vert_offset_north_equator vert_offset_north_hemisphere
  rw [longitudes_p1_eq longitudes hlon, half_latitudes_n1_eq latitudes h4 hlat2]
  unfold mul32 add32 u32Mod
  omega

theorem voc32_expand (longitudes latitudes : Nat) (h4 : 4 ≤ latitudes)
    (hlon : longitudes ≤ 4096) (hlat2 : latitudes ≤ 4096) :
    vert_offset_cylinder longitudes latitudes =
      longitudes + (longitudes + 1) * (latitudes / 2 - 1) + (longitudes + 1) := by
  have hm1 : (longitudes + 1) * (latitudes / 2 - 1) ≤ 4097 * 2047 :=
    Nat.mul_le_mul (by omega) (by omega)
  unfold vert_offset_cylinder
  rw [vone32_expand longitudes latitudes h4 hlon hlat2, longitudes_p1_eq longitudes hlon]
  unfold add32 u32Mod
  omega

theorem vose32_expand (rings longitudes latitudes : Nat) (h4 : 4 ≤ latitudes)
    (hr : rings ≤ 4096) (hlon : longitudes ≤ 4096) (hlat2 : latitudes ≤ 4096) :
    vert_offset_south_equator rings longitudes latitudes =
      longitudes + (longitudes + 1) * (latitudes / 2 - 1) + (longitudes + 1) +
        (longitudes + 1) * rings := by
  have hm1 : (longitudes + 1) * (latitudes / 2 - 1) ≤ 4097 * 2047 :=
    Nat.mul_le_mul (by omega) (by omega)
  have hm2 : (longitudes + 1) * rings ≤ 4097 * 4096 :=
    Nat.mul_le_mul (by omega) (by omega)
  unfold vert_offset_south_equator
  split
  · rw [voc32_expand longitudes latitudes h4 hlon hlat2, longitudes_p1_eq longitudes hlon]
    unfold mul32 add32 u32Mod
    omega
  · rename_i h
    have hr0 : rings = 0 := by omega
    subst hr0
    rw [voc32_expand longitudes latitudes h4 hlon hlat2]
    simp

theorem vosh32_expand (rings longitudes latitudes : Nat) (h4 : 4 ≤ latitudes)
    (hr : rings ≤ 4096) (hlon : longitudes ≤ 4096) (hlat2 : latitudes ≤ 4096) :
    vert_offset_south_hemisphere rings longitudes latitudes =
      longitudes + (longitudes + 1) * (latitudes / 2 - 1) + (longitudes + 1) +
        (longitudes + 1) * rings + (longitudes + 1) := by
  have hm1 : (longitudes + 1) * (latitudes / 2 - 1) ≤ 4097 * 2047 :=
    Nat.mul_le_mul (by omega) (by omega)
  have hm2 : (longitudes + 1) * rings ≤ 4097 * 4096 :=
    Nat.mul_le_mul (by omega) (by omega)
  unfold vert_offset_south_hemisphere
  rw [vose32_expand rings longitudes latitudes h4 hr hlon hlat2,
    longitudes_p1_eq longitudes hlon]
  unfold add32 u32Mod
  omega

theorem vosp32_expand (rings longitudes latitudes : Nat) (h4 : 4 ≤ latitudes)
    (hr : rings ≤ 4096) (hlon : longitudes ≤ 4096) (hlat2 : latitudes ≤ 4096) :
    vert_offset_south_polar rings longitudes latitudes =
      longitudes + (longitudes + 1) * (latitudes / 2 - 1) + (longitudes + 1) +
        (longitudes + 1) * rings + (longitudes + 1) +
        (longitudes + 1) * (latitudes / 2 - 2) := by
  have hm1 : (longitudes + 1) * (latitudes / 2 - 1) ≤ 4097 * 2047 :=
    Nat.mul_le_mul (by omega) (by omega)
  have hm2 : (longitudes + 1) * rings ≤ 4097 * 4096 :=
    Nat.mul_le_mul (by omega) (by omega)
  have hm3 : (longitudes + 1) * (latitudes / 2 - 2) ≤ 4097 * 2046 :=
    Nat.mul_le_mul (by omega) (by omega)
  unfold vert_offset_south_polar
  rw [vosh32_expand rings longitudes latitudes h4 hr hlon hlat2,
    longitudes_p1_eq longitudes hlon, half_latitudes_n2_eq latitudes h4 hlat2]
  unfold mul32 add32 u32Mod
  omega

theorem vosc32_expand (rings longitudes latitudes : Nat) (h4 : 4 ≤ latitudes)
    (hr : rings ≤ 4096) (hlon : longitudes ≤ 4096) (hlat2 : latitudes ≤ 4096) :
    vert_offset_south_cap rings longitudes latitudes =
      longitudes + (longitudes + 1) * (latitudes / 2 - 1) + (longitudes + 1) +
        (longitudes + 1) * rings + (longitudes + 1) +
        (longitudes + 1) * (latitudes / 2 - 2) + (longitudes + 1) := by
  have hm1 : (longitudes + 1) * (latitudes / 2 - 1) ≤ 4097 * 2047 :=
    Nat.mul_le_mul (by omega) (by omega)
  have hm2 : (longitudes + 1) * rings ≤ 4097 * 4096 :=
    Nat.mul_le_mul (by omega) (by omega)
  have hm3 : (longitudes + 1) * (latitudes / 2 - 2) ≤ 4097 * 2046 :=
    Nat.mul_le_mul (by omega) (by omega)
  unfold vert_offset_south_cap
  rw [vosp32_expand rings longitudes latitudes h4 hr hlon hlat2,
    longitudes_p1_eq longitudes hlon]
  unfold add32 u32Mod
  omega

theorem vert_len_eq (rings longitudes latitudes : Nat) (h4 : 4 ≤ latitudes)
    (hr : rings ≤ 4096) (hlon : longitudes ≤ 4096) (hlat2 : latitudes ≤ 4096) :
    vert_len rings longitudes latitudes = vert_lenExact rings longitudes latitudes := by
  have hm1 : (longitudes + 1) * (latitudes / 2 - 1) ≤ 4097 * 2047 :=
    Nat.mul_le_mul (by omega) (by omega)
  have hm2 : (longitudes + 1) * rings ≤ 4097 * 4096 :=
    Nat.mul_le_mul (by omega) (by omega)
  have hm3 : (longitudes + 1) * (latitudes / 2 - 2) ≤ 4097 * 2046 :=
    Nat.mul_le_mul (by omega) (by omega)
  unfold vert_len
  rw [vosc32_expand rings longitudes latitudes h4 hr hlon hlat2,
    vert_len_expand rings longitudes latitudes]
  unfold add32 u32Mod
  omega

theorem fs_len_eq (rings longitudes latitudes : Nat) (h4 : 4 ≤ latitudes)
    (hr : rings ≤ 4096) (hlon : longitudes ≤ 4096) (hlat2 : latitudes ≤ 4096) :
    fs_len rings longitudes latitudes = fs_lenExact rings longitudes latitudes := by
  have hm4 : (latitudes / 2 - 1) * (longitudes * 6) ≤ 2047 * 24576 :=
    Nat.mul_le_mul (by omega) (by omega)
  have hm5 : (rings + 1) * (longitudes * 6) ≤ 4097 * 24576 :=
    Nat.mul_le_mul (by omega) (by omega)
  have t1 : longitudes3 longitudes = longitudes * 3 := mul32_eq _ _ (by omega)
  have t2 : longitudes6 longitudes = longitudes * 6 := mul32_eq _ _ (by omega)
  have t3 : hemisphere_longitudes longitudes latitudes =
      (latitudes / 2 - 1) * (longitudes * 6) := by
    unfold hemisphere_longitudes
    rw [half_latitudes_n1_eq latitudes h4 hlat2, t2]
    exact mul32_eq _ _ (by omega)
  unfold fs_len tri_offset_south_cap tri_offset_south_hemisphere tri_offset_cylinder
    tri_offset_north_hemisphere
  rw [t1, t2, t3, rings_p1_eq rings hr]
  unfold fs_lenExact tri_offset_south_capExact tri_offset_south_hemisphereExact
    tri_offset_cylinderExact tri_offset_north_hemisphereExact half_latitudesExact
  unfold mul32 add32 u32Mod
  omega

theorem voneExact_expand (longitudes latitudes : Nat) :
    vert_offset_north_equatorExact longitudes latitudes =
      longitudes + (longitudes + 1) * (latitudes / 2 - 1) := rfl

theorem voseExact_expand (rings longitudes latitudes : Nat) :
    vert_offset_south_equatorExact rings longitudes latitudes =
      longitudes + (longitudes + 1) * (latitudes / 2 - 1) + (longitudes + 1) +
        (longitudes + 1) * rings := by
  unfold vert_offset_south_equatorExact vert_offset_cylinderExact
    vert_offset_north_equatorExact vert_offset_north_hemisphereExact half_latitudesExact
  split
  · rfl
  · rename_i h
    have hr0 : rings = 0 := by omega
    subst hr0
    simp

theorem voshExact_expand (rings longitudes latitudes : Nat) :
    vert_offset_south_hemisphereExact rings longitudes latitudes =
      longitudes + (longitudes + 1) * (latitudes / 2 - 1) + (longitudes + 1) +
        (longitudes + 1) * rings + (longitudes + 1) := by
  unfold vert_offset_south_hemisphereExact
  rw [voseExact_expand]

theorem vospExact_expand (rings longitudes latitudes : Nat) :
    vert_offset_south_polarExact rings longitudes latitudes =
      longitudes + (longitudes + 1) * (latitudes / 2 - 1) + (longitudes + 1) +
        (longitudes + 1) * rings + (longitudes + 1) +
        (longitudes + 1) * (latitudes / 2 - 2) := by
  unfold vert_offset_south_polarExact half_latitudesExact
  rw [voshExact_expand]

theorem voscExact_expand (rings longitudes latitudes : Nat) :
    vert_offset_south_capExact rings longitudes latitudes =
      longitudes + (longitudes + 1) * (latitudes / 2 - 1) + (longitudes + 1) +
        (longitudes + 1) * rings + (longitudes + 1) +
        (longitudes + 1) * (latitudes / 2 - 2) + (longitudes + 1) := by
  unfold vert_offset_south_capExact
  rw [vospExact_expand]

theorem flatMap_range_congr {α : Type} (n : Nat) (f g : Nat → List α) :
    (∀ i, i < n → f i = g i) →
    (List.range n).flatMap f = (List.range n).flatMap g := by
  induction n with
  | zero =>
    intro h
    rfl
  | succ n ih =>
    intro h
    rw [List.range_succ]
    simp only [List.flatMap_append, List.flatMap_cons, List.flatMap_nil, List.append_nil]
    rw [ih (fun i hi => h i (by omega)), h n (by omega)]

theorem northCapTris_eq (longitudes : Nat) (hlon : longitudes ≤ 4096) :
    northCapTris longitudes = northCapTrisExact longitudes := by
  unfold northCapTris northCapTrisExact vert_offset_north_hemisphere
    vert_offset_north_hemisphereExact
  refine flatMap_range_congr longitudes _ _ (fun i hi => ?_)
  unfold add32 u32Mod
  simp only [List.cons.injEq, and_true, true_and]
  all_goals omega

theorem northHemiTris_eq (longitudes latitudes : Nat) (h4 : 4 ≤ latitudes)
    (hlon : longitudes ≤ 4096) (hlat2 : latitudes ≤ 4096) :
    northHemiTris longitudes latitudes = northHemiTrisExact longitudes latitudes := by
  unfold northHemiTris northHemiTrisExact vert_offset_north_hemisphere
    vert_offset_north_hemisphereExact half_latitudesExact
  rw [half_latitudes_n1_eq latitudes h4 hlat2, longitudes_p1_eq longitudes hlon]
  refine flatMap_range_congr _ _ _ (fun i hi => ?_)
  refine flatMap_range_congr _ _ _ (fun j hj => ?_)
  have hm : i * (longitudes + 1) ≤ 2046 * 4097 :=
    Nat.mul_le_mul (by omega) (by omega)
  unfold quadTris quadTrisExact add32 mul32 u32Mod
  simp only [List.cons.injEq, and_true, true_and]
  all_goals omega

theorem cylinderTris_eq (rings longitudes latitudes : Nat) (h4 : 4 ≤ latitudes)
    (hr : rings ≤ 4096) (hlon : longitudes ≤ 4096) (hlat2 : latitudes ≤ 4096) :
    cylinderTris rings longitudes latitudes = cylinderTrisExact rings longitudes latitudes := by
  unfold cylinderTris cylinderTrisExact
  rw [rings_p1_eq rings hr, longitudes_p1_eq longitudes hlon,
    vone32_expand longitudes latitudes h4 hlon hlat2,
    voneExact_expand longitudes latitudes]
  refine flatMap_range_congr _ _ _ (fun i hi => ?_)
  refine flatMap_range_congr _ _ _ (fun j hj => ?_)
  have hm : i * (longitudes + 1) ≤ 4096 * 4097 :=
    Nat.mul_le_mul (by omega) (by omega)
  have hm1 : (longitudes + 1) * (latitudes / 2 - 1) ≤ 4097 * 2047 :=
    Nat.mul_le_mul (by omega) (by omega)
  unfold quadTris quadTrisExact add32 mul32 u32Mod
  simp only [List.cons.injEq, and_true, true_and]
  all_goals omega

theorem southHemiTris_eq (rings longitudes latitudes : Nat) (h4 : 4 ≤ latitudes)
    (hr : rings ≤ 4096) (hlon : longitudes ≤ 4096) (hlat2 : latitudes ≤ 4096) :
    southHemiTris rings longitudes latitudes = southHemiTrisExact rings longitudes latitudes := by
  unfold southHemiTris southHemiTrisExact half_latitudesExact
  rw [half_latitudes_n1_eq latitudes h4 hlat2, longitudes_p1_eq longitudes hlon,
    vose32_expand rings longitudes latitudes h4 hr hlon hlat2,
    voseExact_expand rings longitudes latitudes]
  refine flatMap_range_congr _ _ _ (fun i hi => ?_)
  refine flatMap_range_congr _ _ _ (fun j hj => ?_)
  have hm : i * (longitudes + 1) ≤ 2046 * 4097 :=
    Nat.mul_le_mul (by omega) (by omega)
  have hm1 : (longitudes + 1) * (latitudes / 2 - 1) ≤ 4097 * 2047 :=
    Nat.mul_le_mul (by omega) (by omega)
  have hm2 : (longitudes + 1) * rings ≤ 4097 * 4096 :=
    Nat.mul_le_mul (by omega) (by omega)
  unfold quadTris quadTrisExact add32 mul32 u32Mod
  simp only [List.cons.injEq, and_true, true_and]
  all_goals omega

theorem southCapTris_eq (rings longitudes latitudes : Nat) (h4 : 4 ≤ latitudes)
    (hr : rings ≤ 4096) (hlon : longitudes ≤ 4096) (hlat2 : latitudes ≤ 4096) :
    southCapTris rings longitudes latitudes = southCapTrisExact rings longitudes latitudes := by
  unfold southCapTris southCapTrisExact
  rw [vosc32_expand rings longitudes latitudes h4 hr hlon hlat2,
    voscExact_expand rings longitudes latitudes,
    vosp32_expand rings longitudes latitudes h4 hr hlon hlat2,
    vospExact_expand rings longitudes latitudes]
  refine flatMap_range_congr _ _ _ (fun i hi => ?_)
  have hm1 : (longitudes + 1) * (latitudes / 2 - 1) ≤ 4097 * 2047 :=
    Nat.mul_le_mul (by omega) (by omega)
  have hm2 : (longitudes + 1) * rings ≤ 4097 * 4096 :=
    Nat.mul_le_mul (by omega) (by omega)
  have hm3 : (longitudes + 1) * (latitudes / 2 - 2) ≤ 4097 * 2046 :=
    Nat.mul_le_mul (by omega) (by omega)
  unfold add32 u32Mod
  simp only [List.cons.injEq, and_true, true_and]
  all_goals omega

theorem capsuleTriangles_eq (rings longitudes latitudes : Nat) (h4 : 4 ≤ latitudes)
    (hr : rings ≤ 4096) (hlon : longitudes ≤ 4096) (hlat2 : latitudes ≤ 4096) :
    capsuleTriangles rings longitudes latitudes =
      capsuleTrianglesExact rings longitudes latitudes := by
  unfold capsuleTriangles capsuleTrianglesExact
  rw [northCapTris_eq longitudes hlon,
    northHemiTris_eq longitudes latitudes h4 hlon hlat2,
    cylinderTris_eq rings longitudes latitudes h4 hr hlon hlat2,
    southHemiTris_eq rings longitudes latitudes h4 hr hlon hlat2,
    southCapTris_eq rings longitudes latitudes h4 hr hlon hlat2]

theorem vertexWriteIndices_eq (rings longitudes latitudes : Nat) (h4 : 4 ≤ latitudes)
    (hr : rings ≤ 4096) (hlon : longitudes ≤ 4096) (hlat2 : latitudes ≤ 4096) :
    vertexWriteIndices rings longitudes latitudes =
      vertexWriteIndicesExact rings longitudes latitudes := by
  unfold vertexWriteIndices vertexWriteIndicesExact vert_offset_north_hemisphere
    vert_offset_north_hemisphereExact half_latitudesExact
  rw [longitudes_p1_eq longitudes hlon, rings_p1_eq rings hr,
    half_latitudes_n1_eq latitudes h4 hlat2,
    vosc32_expand rings longitudes latitudes h4 hr hlon hlat2,
    voscExact_expand rings longitudes latitudes,
    vone32_expand longitudes latitudes h4 hlon hlat2,
    voneExact_expand longitudes latitudes,
    vose32_expand rings longitudes latitudes h4 hr hlon hlat2,
    voseExact_expand rings longitudes latitudes,
    vosh32_expand rings longitudes latitudes h4 hr hlon hlat2,
    voshExact_expand rings longitudes latitudes,
    voc32_expand longitudes latitudes h4 hlon hlat2]
  simp only [Nat.add_sub_cancel]
  congr 1
  congr 1
  refine flatMap_range_congr _ _ _ (fun i hi => ?_)
  refine flatMap_range_congr _ _ _ (fun j hj => ?_)
  have hm : i * (longitudes + 1) ≤ 2046 * 4097 :=
    Nat.mul_le_mul (by omega) (by omega)
  have hm1 : (longitudes + 1) * (latitudes / 2 - 1) ≤ 4097 * 2047 :=
    Nat.mul_le_mul (by omega) (by omega)
  have hm2 : (longitudes + 1) * rings ≤ 4097 * 4096 :=
    Nat.mul_le_mul (by omega) (by omega)
  unfold add32 mul32 u32Mod
  simp only [List.cons.injEq, and_true, true_and]
  all_goals omega

theorem length_applyWrites {α : Type} (f : Nat → α) (ws : List Nat) (arr : List α) :
    (applyWrites f ws arr).length = arr.length := by
  induction ws generalizing arr with
  | nil => rfl
  | cons w ws ih =>
    show (applyWrites f ws (arr.set w (f w))).length = arr.length
    rw [ih, List.length_set]

end Capsule

/-! ## List toolkit lemmas -/

theorem length_listModify {α : Type} (f : α → α) (n : Nat) (l : List α) :
    (listModify f n l).length = l.length := by
  induction l generalizing n with
  | nil => cases n <;> rfl
  | cons a l ih =>
    cases n with
    | zero => rfl
    | succ n => simp [listModify, ih]

theorem get?_listModify {α : Type} (f : α → α) (n : Nat) (l : List α) (m : Nat) :
    (listModify f n l).get? m = if m = n then (l.get? m).map f else l.get? m := by
  induction l generalizing n m with
  | nil => simp [listModify]
  | cons a l ih =>
    cases n with
    | zero =>
      cases m with
      | zero => simp [listModify]
      | succ m => simp [listModify]
    | succ n =>
      cases m with
      | zero => simp [listModify]
      | succ m => simpa [listModify] using ih n m

theorem get?_listModify_ne {α : Type} (f : α → α) (n : Nat) (l : List α) (m : Nat)
    (h : m ≠ n) : (listModify f n l).get? m = l.get? m := by
  rw [get?_listModify, if_neg h]

theorem get?_listModify_self {α : Type} (f : α → α) (n : Nat) (l : List α) :
    (listModify f n l).get? n = (l.get? n).map f := by
  rw [get?_listModify, if_pos rfl]

theorem length_swapRemove {α : Type} (l : List α) (r : Nat) (hr : r < l.length) :
    (swapRemove l r).length = l.length - 1 := by
  have hne : l ≠ [] := by
    intro h
    subst h
    simp at hr
  obtain ⟨x, hx⟩ : ∃ x, l.getLast? = some x := by
    cases h : l.getLast? with
    | none => exact absurd (List.getLast?_eq_none_iff.mp h) hne
    | some x => exact ⟨x, rfl⟩
  simp [swapRemove, hx, List.length_dropLast, List.length_set]

theorem get?_swapRemove {α : Type} (l : List α) (r : Nat) (m : Nat)
    (hr : r < l.length) (hm : m < l.length - 1) :
    (swapRemove l r).get? m = if m = r then l.get? (l.length - 1) else l.get? m := by
  have hne : l ≠ [] := by
    intro h
    subst h
    simp at hr
  obtain ⟨x, hx⟩ : ∃ x, l.getLast? = some x := by
    cases h : l.getLast? with
    | none => exact absurd (List.getLast?_eq_none_iff.mp h) hne
    | some x => exact ⟨x, rfl⟩
  have hlast : l.get? (l.length - 1) = some x := by
    rw [← List.getLast?_eq_get?, hx]
  have hdrop : (l.set r x).dropLast = (l.set r x).take ((l.set r x).length - 1) :=
    (List.dropLast_eq_take _)
  have hm' : m < (l.set r x).length - 1 := by
    rw [List.length_set]
    exact hm
  have hsw : swapRemove l r = (l.set r x).dropLast := by
    unfold swapRemove
    rw [hx]
  rw [hsw, hdrop, List.get?_take hm', List.get?_set]
  by_cases hmr : m = r
  · subst hmr
    rw [if_pos rfl, if_pos rfl, hlast]
    have : l.get? m ≠ none := by
      rw [ne_eq, List.get?_eq_none]
      omega
    cases h : l.get? m with
    | none => exact absurd h this
    | some y => rfl
  · rw [if_neg (fun h => hmr h.symm), if_neg hmr]

theorem swapRemove_subset {α : Type} (l : List α) (r : Nat) :
    swapRemove l r ⊆ l := by
  intro y hy
  unfold swapRemove at hy
  cases hx : l.getLast? with
  | none => rwa [hx] at hy
  | some x =>
    rw [hx] at hy
    have h1 : y ∈ l.set r x := List.dropLast_subset _ hy
    rw [List.mem_iff_get?] at h1
    obtain ⟨n, hn⟩ := h1
    rw [List.get?_set] at hn
    by_cases hnr : r = n
    · subst hnr
      have hxl : x ∈ l := List.get?_mem (by rw [← List.getLast?_eq_get?, hx])
      cases h : l.get? r with
      | none => rw [h] at hn; simp at hn
      | some z =>
        rw [h] at hn
        simp at hn
        subst hn
        exact hxl
    · rw [if_neg hnr] at hn
      exact List.get?_mem hn

theorem findIdxA_eq_none_iff {α : Type} (p : α → Bool) (l : List α) :
    findIdxA p l = none ↔ ∀ x ∈ l, p x = false := by
  induction l with
  | nil => simp [findIdxA]
  | cons a l ih =>
    by_cases h : p a
    · simp [findIdxA, h]
    · simp only [findIdxA, if_neg h, Option.map_eq_none', ih, List.mem_cons]
      constructor
      · intro hall x hx
        rcases hx with rfl | hx
        · simpa using h
        · exact hall x hx
      · intro hall x hx
        exact hall x (Or.inr hx)

theorem findIdxA_eq_some {α : Type} (p : α → Bool) (l : List α) (n : Nat)
    (h : findIdxA p l = some n) : ∃ x, l.get? n = some x ∧ p x = true := by
  induction l generalizing n with
  | nil => simp [findIdxA] at h
  | cons a l ih =>
    by_cases ha : p a
    · simp only [findIdxA, if_pos ha, Option.some.injEq] at h
      subst h
      exact ⟨a, rfl, ha⟩
    · simp only [findIdxA, if_neg ha, Option.map_eq_some'] at h
      obtain ⟨m, hm, rfl⟩ := h
      obtain ⟨x, hx, hpx⟩ := ih m hm
      exact ⟨x, hx, hpx⟩

theorem getD_of_get? {α : Type} {l : List α} {i : Nat} {x : α} (h : l.get? i = some x)
    (d : α) : l.getD i d = x := by
  rw [List.getD_eq_get?, h]
  rfl

theorem find?_key_eq_some {α : Type} (key : α → Nat) (l : List α)
    (hn : (l.map key).Nodup) {x : α} (hx : x ∈ l) {k : Nat} (hk : key x = k) :
    l.find? (fun y => key y = k) = some x := by
  induction l with
  | nil => simp at hx
  | cons a l ih =>
    simp only [List.map_cons, List.nodup_cons, List.mem_map] at hn
    by_cases ha : key a = k
    · have hxa : x = a := by
        rcases List.mem_cons.mp hx with rfl | hxl
        · rfl
        · exact absurd ⟨x, hxl, by rw [hk, ha]⟩ hn.1
      subst hxa
      exact List.find?_cons_of_pos _ (by simpa using ha)
    · have hxl : x ∈ l := by
        rcases List.mem_cons.mp hx with rfl | hxl
        · exact absurd hk ha
        · exact hxl
      rw [List.find?_cons_of_neg _ (by simpa using ha)]
      exact ih hn.2 hxl

theorem find?_key_mem {α : Type} (key : α → Nat) (l : List α) {x : α} {k : Nat}
    (h : l.find? (fun y => key y = k) = some x) : x ∈ l ∧ key x = k := by
  refine ⟨List.mem_of_find?_eq_some h, ?_⟩
  have := List.find?_some h
  simpa using this

/-! ## Ecs primitive lemmas -/

namespace Ecs

theorem setLoc_ents_get? (w : World) (i : Nat) (l : Option (Nat × Nat)) (j : Nat) :
    (w.setLoc i l).ents.get? j =
      if j = i then (w.ents.get? j).map (fun er => { er with loc := l })
      else w.ents.get? j :=
  get?_listModify _ _ _ _

theorem setLoc_fields (w : World) (i : Nat) (l : Option (Nat × Nat)) :
    (w.setLoc i l).archetypes = w.archetypes ∧ (w.setLoc i l).sparse = w.sparse ∧
      (w.setLoc i l).freelist = w.freelist ∧ (w.setLoc i l).tick = w.tick ∧
      (w.setLoc i l).strategy = w.strategy :=
  ⟨rfl, rfl, rfl, rfl, rfl⟩

theorem setLoc_ents_length (w : World) (i : Nat) (l : Option (Nat × Nat)) :
    (w.setLoc i l).ents.length = w.ents.length :=
  length_listModify _ _ _

theorem setRows_arch_get? (w : World) (a : Nat) (rows : List TableRow) (b : Nat) :
    (w.setRows a rows).archetypes.get? b =
      if b = a then (w.archetypes.get? b).map (fun ar => { ar with rows := rows })
      else w.archetypes.get? b :=
  get?_listModify _ _ _ _

theorem setRows_fields (w : World) (a : Nat) (rows : List TableRow) :
    (w.setRows a rows).ents = w.ents ∧ (w.setRows a rows).sparse = w.sparse ∧
      (w.setRows a rows).freelist = w.freelist ∧ (w.setRows a rows).tick = w.tick ∧
      (w.setRows a rows).strategy = w.strategy :=
  ⟨rfl, rfl, rfl, rfl, rfl⟩

theorem resolve_ok_iff (w : World) (e : EntityId) (l : Nat × Nat) :
    w.resolve e = .ok l ↔
      ∃ er, w.ents.get? e.index = some er ∧ er.gen = e.generation ∧ er.loc = some l := by
  unfold World.resolve
  cases h : w.ents.get? e.index with
  | none => simp
  | some er =>
    by_cases hg : er.gen = e.generation
    · simp only [hg, ne_eq, not_true_eq_false, if_neg, ite_false]
      cases hl : er.loc with
      | none => simp [hl]
      | some l' => simp [hl, hg, eq_comm]
    · simp [hg]

theorem resolve_stale (w : World) (e : EntityId) (er : EntityRec)
    (h : w.ents.get? e.index = some er) (hg : er.gen ≠ e.generation) :
    w.resolve e = .error .invalidEntity := by
  unfold World.resolve
  rw [h]
  simp [hg]

theorem getOrCreate_fields (w : World) (s : Finset Nat) :
    (w.getOrCreate s).1.ents = w.ents ∧ (w.getOrCreate s).1.sparse = w.sparse ∧
      (w.getOrCreate s).1.freelist = w.freelist ∧ (w.getOrCreate s).1.tick = w.tick ∧
      (w.getOrCreate s).1.strategy = w.strategy := by
  unfold World.getOrCreate
  cases findIdxA (fun a => a.compSet = s) w.archetypes <;> exact ⟨rfl, rfl, rfl, rfl, rfl⟩

theorem getOrCreate_get?_lt (w : World) (s : Finset Nat) (b : Nat)
    (hb : b < w.archetypes.length) :
    (w.getOrCreate s).1.archetypes.get? b = w.archetypes.get? b := by
  unfold World.getOrCreate
  cases findIdxA (fun a => a.compSet = s) w.archetypes with
  | none => exact List.get?_append hb
  | some i => rfl

theorem getOrCreate_get?_inv (w : World) (s : Finset Nat) (b : Nat) (arch' : Archetype)
    (h : (w.getOrCreate s).1.archetypes.get? b = some arch') :
    w.archetypes.get? b = some arch' ∨
      (arch' = { compSet := s, rows := [] } ∧ w.archetypes.get? b = none) := by
  unfold World.getOrCreate at h
  cases hf : findIdxA (fun a => a.compSet = s) w.archetypes with
  | some i =>
    rw [hf] at h
    exact Or.inl h
  | none =>
    rw [hf] at h
    simp only at h
    by_cases hb : b < w.archetypes.length
    · rw [List.get?_append hb] at h
      exact Or.inl h
    · rw [List.get?_append_right (by omega)] at h
      have hnone : w.archetypes.get? b = none := by
        rw [List.get?_eq_none]
        omega
      cases hbe : b - w.archetypes.length with
      | zero =>
        rw [hbe] at h
        simp at h
        exact Or.inr ⟨h.symm, hnone⟩
      | succ n =>
        rw [hbe] at h
        simp at h

theorem getOrCreate_target (w : World) (s : Finset Nat) :
    ∃ tarch, (w.getOrCreate s).1.archetypes.get? (w.getOrCreate s).2 = some tarch ∧
      tarch.compSet = s ∧
      (tarch.rows = [] ∨ w.archetypes.get? (w.getOrCreate s).2 = some tarch) := by
  unfold World.getOrCreate
  cases hf : findIdxA (fun a => a.compSet = s) w.archetypes with
  | some i =>
    obtain ⟨x, hx, hpx⟩ := findIdxA_eq_some _ _ _ hf
    simp only
    exact ⟨x, hx, by simpa using hpx, Or.inr hx⟩
  | none =>
    simp only
    refine ⟨{ compSet := s, rows := [] }, ?_, rfl, Or.inl rfl⟩
    exact List.get?_concat_length _ _

theorem getOrCreate_length_le (w : World) (s : Finset Nat) :
    w.archetypes.length ≤ (w.getOrCreate s).1.archetypes.length := by
  unfold World.getOrCreate
  cases findIdxA (fun a => a.compSet = s) w.archetypes with
  | some i => exact Nat.le_refl _
  | none => simp

theorem isLive_iff (w : World) (i : Nat) :
    w.isLive i = true ↔ ∃ er, w.ents.get? i = some er ∧ ∃ l, er.loc = some l := by
  unfold World.isLive
  cases h : w.ents.get? i with
  | none => simp
  | some er =>
    cases hl : er.loc with
    | none => simp [hl]
    | some l =>
      constructor
      · intro _
        exact ⟨er, rfl, l, hl⟩
      · intro _
        simp [hl]

theorem rowCellsAt_eq (w : World) (i a r : Nat) (er : EntityRec) (arch : Archetype)
    (row : TableRow) (h1 : w.ents.get? i = some er) (h2 : er.loc = some (a, r))
    (h3 : w.archetypes.get? a = some arch) (h4 : arch.rows.get? r = some row) :
    w.rowCellsAt i = row.cells := by
  simp only [World.rowCellsAt, h1, h2, getD_of_get? h3, getD_of_get? h4]

theorem rowCellsAt_dead (w : World) (i : Nat) (er : EntityRec)
    (h1 : w.ents.get? i = some er) (h2 : er.loc = none) :
    w.rowCellsAt i = [] := by
  simp only [World.rowCellsAt, h1, h2]

theorem ssGet_eq_entry (w : World) (c i : Nat) (hkeys : (w.sparse.map Prod.fst).Nodup)
    (p : Nat × List SEntry) (hp : p ∈ w.sparse) (hpc : p.1 = c)
    (hnd : (p.2.map SEntry.entity).Nodup)
    (en : SEntry) (hen : en ∈ p.2) (hei : en.entity = i) :
    w.ssGet c i = some en := by
  unfold World.ssGet
  rw [find?_key_eq_some Prod.fst w.sparse hkeys hp hpc]
  exact find?_key_eq_some SEntry.entity p.2 hnd hen hei

end Ecs

namespace Ecs

theorem migrate_spec (w : World) (eIdx a r t : Nat) (newCells : List Cell)
    (tarch arch : Archetype) (row : TableRow)
    (ht : w.archetypes.get? t = some tarch) (ha : w.archetypes.get? a = some arch)
    (hat : a ≠ t) (hrow : arch.rows.get? r = some row) :
    (w.migrate eIdx a r t newCells).sparse = w.sparse ∧
    (w.migrate eIdx a r t newCells).freelist = w.freelist ∧
    (w.migrate eIdx a r t newCells).tick = w.tick ∧
    (w.migrate eIdx a r t newCells).strategy = w.strategy ∧
    (w.migrate eIdx a r t newCells).ents.length = w.ents.length ∧
    ((w.migrate eIdx a r t newCells).ents.get? eIdx =
      (w.ents.get? eIdx).map (fun er => { er with loc := some (t, tarch.rows.length) })) ∧
    (∀ j, j ≠ eIdx →
      (r + 1 = arch.rows.length → (w.migrate eIdx a r t newCells).ents.get? j = w.ents.get? j) ∧
      (∀ lastRow, r + 1 ≠ arch.rows.length →
        arch.rows.get? (arch.rows.length - 1) = some lastRow →
        (w.migrate eIdx a r t newCells).ents.get? j =
          if j = lastRow.entity then
            (w.ents.get? j).map (fun er => { er with loc := some (a, r) })
          else w.ents.get? j)) ∧
    ((w.migrate eIdx a r t newCells).archetypes.get? t =
      some { tarch with rows := tarch.rows ++ [{ entity := eIdx, cells := newCells }] }) ∧
    ((w.migrate eIdx a r t newCells).archetypes.get? a =
      some { arch with rows := swapRemove arch.rows r }) ∧
    (∀ b, b ≠ a → b ≠ t →
      (w.migrate eIdx a r t newCells).archetypes.get? b = w.archetypes.get? b) ∧
    (w.migrate eIdx a r t newCells).archetypes.length = w.archetypes.length := by
  have hrlt : r < arch.rows.length := by
    obtain ⟨h, _⟩ := List.get?_eq_some.mp hrow
    exact h
  have hW1a : (w.setRows t (tarch.rows ++ [{ entity := eIdx, cells := newCells }])).archetypes.get? a
      = some arch := by
    rw [setRows_arch_get?, if_neg hat, ha]
  have hmig : w.migrate eIdx a r t newCells =
      ((w.setRows t (tarch.rows ++ [{ entity := eIdx, cells := newCells }])).removeRow a r).setLoc
        eIdx (some (t, tarch.rows.length)) := by
    unfold World.migrate
    rw [ht]
  by_cases hlast : r + 1 = arch.rows.length
  · -- the migrated row is the last row: no relocation
    have hrr : (w.setRows t (tarch.rows ++ [{ entity := eIdx, cells := newCells }])).removeRow a r =
        (w.setRows t (tarch.rows ++ [{ entity := eIdx, cells := newCells }])).setRows a
          (swapRemove arch.rows r) := by
      unfold World.removeRow
      rw [hW1a]
      simp only [hlast, ite_true]
    rw [hmig, hrr]
    refine ⟨rfl, rfl, rfl, rfl, setLoc_ents_length _ _ _, ?_, ?_, ?_, ?_, ?_, ?_⟩
    · rw [setLoc_ents_get?, if_pos rfl]
      rfl
    · intro j hj
      constructor
      · intro _
        rw [setLoc_ents_get?, if_neg hj]
        rfl
      · intro lastRow hne _
        exact absurd hlast hne
    · rw [(setLoc_fields _ _ _).1, setRows_arch_get?, if_neg (fun h => hat h.symm),
        setRows_arch_get?, if_pos rfl, ht]
      rfl
    · rw [(setLoc_fields _ _ _).1, setRows_arch_get?, if_pos rfl, setRows_arch_get?,
        if_neg hat, ha]
      rfl
    · intro b hba hbt
      rw [(setLoc_fields _ _ _).1, setRows_arch_get?, if_neg hba, setRows_arch_get?, if_neg hbt]
    · rw [(setLoc_fields _ _ _).1]
      show (listModify _ a (listModify _ t w.archetypes)).length = _
      rw [length_listModify, length_listModify]
  · -- a row is relocated into the vacated slot
    obtain ⟨lastRow0, hlast0⟩ : ∃ x, arch.rows.get? (arch.rows.length - 1) = some x := by
      cases h : arch.rows.get? (arch.rows.length - 1) with
      | none =>
        rw [List.get?_eq_none] at h
        omega
      | some x => exact ⟨x, rfl⟩
    have hgl : arch.rows.getLast? = some lastRow0 := by
      rw [List.getLast?_eq_get?, hlast0]
    have hrr : (w.setRows t (tarch.rows ++ [{ entity := eIdx, cells := newCells }])).removeRow a r =
        ((w.setRows t (tarch.rows ++ [{ entity := eIdx, cells := newCells }])).setRows a
          (swapRemove arch.rows r)).setLoc lastRow0.entity (some (a, r)) := by
      unfold World.removeRow
      rw [hW1a]
      simp only [eq_false hlast, ite_false, hgl]
    rw [hmig, hrr]
    have hEnts : ((w.setRows t (tarch.rows ++ [{ entity := eIdx, cells := newCells }])).setRows a
        (swapRemove arch.rows r)).ents = w.ents := rfl
    refine ⟨rfl, rfl, rfl, rfl, ?_, ?_, ?_, ?_, ?_, ?_, ?_⟩
    · rw [setLoc_ents_length, setLoc_ents_length, hEnts]
    · rw [setLoc_ents_get?, if_pos rfl, setLoc_ents_get?, hEnts]
      by_cases he : eIdx = lastRow0.entity
      · rw [if_pos he]
        cases w.ents.get? eIdx <;> rfl
      · rw [if_neg he]
    · intro j hj
      constructor
      · intro h
        exact absurd h hlast
      · intro lastRow hne hl
        have hlr : lastRow = lastRow0 := by
          rw [hlast0] at hl
          exact (Option.some.inj hl).symm
        subst hlr
        rw [setLoc_ents_get?, if_neg hj, setLoc_ents_get?, hEnts]
    · rw [(setLoc_fields _ _ _).1, (setLoc_fields _ _ _).1, setRows_arch_get?,
        if_neg (fun h => hat h.symm), setRows_arch_get?, if_pos rfl, ht]
      rfl
    · rw [(setLoc_fields _ _ _).1, (setLoc_fields _ _ _).1, setRows_arch_get?, if_pos rfl,
        setRows_arch_get?, if_neg hat, ha]
      rfl
    · intro b hba hbt
      rw [(setLoc_fields _ _ _).1, (setLoc_fields _ _ _).1, setRows_arch_get?, if_neg hba,
        setRows_arch_get?, if_neg hbt]
    · rw [(setLoc_fields _ _ _).1, (setLoc_fields _ _ _).1]
      show (listModify _ a (listModify _ t w.archetypes)).length = _
      rw [length_listModify, length_listModify]

end Ecs

namespace Ecs

theorem rowOK_strategy {w w' : World} (h : w'.strategy = w.strategy) {s : Finset Nat}
    {row : TableRow} (hr : rowOK w s row) : rowOK w' s row := by
  unfold rowOK World.tableCompsOf at hr ⊢
  rw [h]
  exact hr

theorem ssGet_congr {w w' : World} (h : w'.sparse = w.sparse) (c i : Nat) :
    w'.ssGet c i = w.ssGet c i := by
  unfold World.ssGet
  rw [h]

theorem migrate_WF (w : World) (eIdx a r t : Nat) (newCells : List Cell)
    (tarch arch : Archetype) (row : TableRow)
    (ht : w.archetypes.get? t = some tarch) (ha : w.archetypes.get? a = some arch)
    (hat : a ≠ t) (hrow : arch.rows.get? r = some row) (hent : row.entity = eIdx)
    (harch : w.archRowsOK) (hfwd : w.locFwd) (hbwd : w.locBwd)
    (hkeys : w.sparseKeysOK) (hfree : w.freelistOK)
    (hsE : ∀ p ∈ w.sparse, (p.2.map SEntry.entity).Nodup ∧ ∀ en ∈ p.2,
      (en.entity ≠ eIdx → ∃ er, w.ents.get? en.entity = some er ∧ ∃ a' r',
        er.loc = some (a', r') ∧ ∃ arch', w.archetypes.get? a' = some arch' ∧
          p.1 ∈ arch'.compSet) ∧
      (en.entity = eIdx → p.1 ∈ tarch.compSet))
    (hsC1 : ∀ i er, w.ents.get? i = some er → i ≠ eIdx → ∀ a' r', er.loc = some (a', r') →
      ∀ arch', w.archetypes.get? a' = some arch' → ∀ c ∈ arch'.compSet,
        w.strategy c = Strategy.sparseSet → (w.ssGet c i).isSome = true)
    (hsC2 : ∀ c ∈ tarch.compSet, w.strategy c = Strategy.sparseSet →
      (w.ssGet c eIdx).isSome = true)
    (hnew : rowOK w tarch.compSet { entity := eIdx, cells := newCells }) :
    (w.migrate eIdx a r t newCells).WF := by
  obtain ⟨hsp, hfl, htk, hstr, hlen, hME, hMJ, hMT, hMA, hMB, hMAL⟩ :=
    migrate_spec w eIdx a r t newCells tarch arch row ht ha hat hrow
  have hrlt : r < arch.rows.length := by
    obtain ⟨h, _⟩ := List.get?_eq_some.mp hrow
    exact h
  obtain ⟨er0, her0, hloc0⟩ := hbwd a arch ha r row hrow
  rw [hent] at her0
  -- compSet preservation in both directions
  have hCS : ∀ b arch2, w.archetypes.get? b = some arch2 →
      ∃ arch3, (w.migrate eIdx a r t newCells).archetypes.get? b = some arch3 ∧
        arch3.compSet = arch2.compSet := by
    intro b arch2 hb
    by_cases hbt : b = t
    · subst hbt
      rw [hb] at ht
      cases ht
      exact ⟨_, hMT, rfl⟩
    · by_cases hba : b = a
      · subst hba
        rw [hb] at ha
        cases ha
        exact ⟨_, hMA, rfl⟩
      · exact ⟨arch2, by rw [hMB b hba hbt, hb], rfl⟩
  have hCS' : ∀ b arch3, (w.migrate eIdx a r t newCells).archetypes.get? b = some arch3 →
      ∃ arch2, w.archetypes.get? b = some arch2 ∧ arch2.compSet = arch3.compSet := by
    intro b arch3 hb
    by_cases hbt : b = t
    · subst hbt
      rw [hMT] at hb
      cases hb
      exact ⟨tarch, ht, rfl⟩
    · by_cases hba : b = a
      · subst hba
        rw [hMA] at hb
        cases hb
        exact ⟨arch, ha, rfl⟩
      · exact ⟨arch3, by rw [← hMB b hba hbt, hb], rfl⟩
  -- case split on whether the migrated row was the last row
  by_cases hlastc : r + 1 = arch.rows.length
  -- ===================== case A: no relocation =====================
  · have hJA : ∀ j, j ≠ eIdx →
        (w.migrate eIdx a r t newCells).ents.get? j = w.ents.get? j := by
      intro j hj
      exact (hMJ j hj).1 hlastc
    refine ⟨?_, ?_, ?_, ?_, ?_, ?_, ?_⟩
    · -- archRowsOK
      intro arch' hmem row' hrowmem
      obtain ⟨b, hb⟩ := List.mem_iff_get?.mp hmem
      by_cases hbt : b = t
      · subst hbt
        rw [hMT] at hb
        cases hb
        rcases List.mem_append.mp hrowmem with hin | hin
        · exact rowOK_strategy hstr (harch tarch (List.get?_mem ht) row' hin)
        · rcases List.mem_singleton.mp hin with rfl
          exact rowOK_strategy hstr hnew
      · by_cases hba : b = a
        · subst hba
          rw [hMA] at hb
          cases hb
          exact rowOK_strategy hstr
            (harch arch (List.get?_mem ha) row' (swapRemove_subset _ _ hrowmem))
        · rw [hMB b hba hbt] at hb
          exact rowOK_strategy hstr (harch arch' (List.get?_mem hb) row' hrowmem)
    · -- locFwd
      intro i er' hi b r' hloc'
      by_cases hie : i = eIdx
      · rw [hie, hME, her0] at hi
        cases hi
        simp only at hloc'
        cases hloc'
        refine ⟨_, hMT, ?_⟩
        exact ⟨{ entity := eIdx, cells := newCells }, List.get?_concat_length _ _, hie.symm⟩
      · rw [hJA i hie] at hi
        obtain ⟨arch2, hb2, row2, hr2, hre2⟩ := hfwd i er' hi b r' hloc'
        by_cases hbt : b = t
        · subst hbt
          rw [hb2] at ht
          cases ht
          refine ⟨_, hMT, row2, ?_, hre2⟩
          obtain ⟨hr2lt, _⟩ := List.get?_eq_some.mp hr2
          rw [List.get?_append hr2lt]
          exact hr2
        · by_cases hba : b = a
          · subst hba
            rw [hb2] at ha
            cases ha
            have hrr' : r' ≠ r := by
              intro hrr
              rw [hrr, hrow] at hr2
              cases hr2
              exact hie (hre2.symm.trans hent)
            have hr'lt : r' < arch.rows.length := (List.get?_eq_some.mp hr2).1
            have hr'lt1 : r' < arch.rows.length - 1 := by omega
            refine ⟨_, hMA, row2, ?_, hre2⟩
            rw [get?_swapRemove _ _ _ hrlt hr'lt1, if_neg hrr']
            exact hr2
          · refine ⟨arch2, by rw [hMB b hba hbt]; exact hb2, row2, hr2, hre2⟩
    · -- locBwd
      intro b arch' hb r' row' hr'
      by_cases hbt : b = t
      · rw [hbt] at hb ⊢
        rw [hMT] at hb
        cases hb
        simp only at hr'
        have hr'lt : r' < tarch.rows.length + 1 := by
          have := (List.get?_eq_some.mp hr').1
          simpa using this
        by_cases hr'len : r' = tarch.rows.length
        · subst hr'len
          rw [List.get?_concat_length] at hr'
          cases hr'
          refine ⟨_, by rw [hME, her0]; rfl, rfl⟩
        · have hr'lt' : r' < tarch.rows.length := by omega
          rw [List.get?_append hr'lt'] at hr'
          obtain ⟨er2, her2, hloc2⟩ := hbwd t tarch ht r' row' hr'
          have hne : row'.entity ≠ eIdx := by
            intro he
            rw [he, her0] at her2
            cases her2
            rw [hloc0] at hloc2
            cases hloc2
            exact hat rfl
          refine ⟨er2, by rw [hJA _ hne]; exact her2, hloc2⟩
      · by_cases hba : b = a
        · rw [hba] at hb ⊢
          rw [hMA] at hb
          cases hb
          simp only at hr'
          have hr'lt : r' < arch.rows.length - 1 := by
            have := (List.get?_eq_some.mp hr').1
            rwa [length_swapRemove _ _ hrlt] at this
          rw [get?_swapRemove _ _ _ hrlt hr'lt] at hr'
          have hrr' : r' ≠ r := by
            intro hrr
            omega
          rw [if_neg hrr'] at hr'
          obtain ⟨er2, her2, hloc2⟩ := hbwd a arch ha r' row' hr'
          have hne : row'.entity ≠ eIdx := by
            intro he
            rw [he, her0] at her2
            cases her2
            rw [hloc0] at hloc2
            cases hloc2
            exact hrr' rfl
          refine ⟨er2, by rw [hJA _ hne]; exact her2, hloc2⟩
        · rw [hMB b hba hbt] at hb
          obtain ⟨er2, her2, hloc2⟩ := hbwd b arch' hb r' row' hr'
          have hne : row'.entity ≠ eIdx := by
            intro he
            rw [he, her0] at her2
            cases her2
            rw [hloc0] at hloc2
            cases hloc2
            exact hba rfl
          refine ⟨er2, by rw [hJA _ hne]; exact her2, hloc2⟩
    · -- sparseKeysOK
      obtain ⟨h1, h2⟩ := hkeys
      rw [World.sparseKeysOK, hsp, hstr]
      exact ⟨h1, h2⟩
    · -- sparseEntriesOK
      intro p hp
      rw [hsp] at hp
      obtain ⟨hnd, hall⟩ := hsE p hp
      refine ⟨hnd, ?_⟩
      intro en hen
      by_cases hie : en.entity = eIdx
      · refine ⟨{ gen := er0.gen, loc := some (t, tarch.rows.length) }, ?_, t,
          tarch.rows.length, rfl, ?_⟩
        · rw [hie, hME, her0]
          rfl
        · refine ⟨_, hMT, ?_⟩
          exact (hall en hen).2 hie
      · obtain ⟨er2, her2, a', r', hloc2, arch', ha', hc⟩ := (hall en hen).1 hie
        obtain ⟨arch3, ha3, hcs3⟩ := hCS a' arch' ha'
        refine ⟨er2, by rw [hJA _ hie]; exact her2, a', r', hloc2, arch3, ha3, by
          rw [hcs3]; exact hc⟩
    · -- sparseCompleteOK
      intro i er' hi b r' hloc' arch' hb c hc hcs
      rw [ssGet_congr hsp]
      rw [hstr] at hcs
      by_cases hie : i = eIdx
      · subst hie
        rw [hME, her0] at hi
        cases hi
        simp only at hloc'
        cases hloc'
        rw [hMT] at hb
        cases hb
        exact hsC2 c hc hcs
      · rw [hJA i hie] at hi
        obtain ⟨arch2, hb2, hcs2⟩ := hCS' b arch' hb
        refine hsC1 i er' hi hie b r' hloc' arch2 hb2 c ?_ hcs
        rw [hcs2]
        exact hc
    · -- freelistOK
      obtain ⟨hnd, hall⟩ := hfree
      rw [World.freelistOK, hfl]
      refine ⟨hnd, ?_⟩
      intro i hi
      obtain ⟨er2, her2, hloc2⟩ := hall i hi
      have hie : i ≠ eIdx := by
        intro he
        rw [he, her0] at her2
        cases her2
        rw [hloc0] at hloc2
        cases hloc2
      exact ⟨er2, by rw [hJA _ hie]; exact her2, hloc2⟩
  -- ===================== case B: a row is relocated =====================
  · obtain ⟨lastRow0, hlast0⟩ : ∃ x, arch.rows.get? (arch.rows.length - 1) = some x := by
      cases h : arch.rows.get? (arch.rows.length - 1) with
      | none =>
        rw [List.get?_eq_none] at h
        omega
      | some x => exact ⟨x, rfl⟩
    obtain ⟨erL, herL, hlocL⟩ := hbwd a arch ha _ lastRow0 hlast0
    have hLne : lastRow0.entity ≠ eIdx := by
      intro he
      rw [he, her0] at herL
      cases herL
      rw [hloc0] at hlocL
      cases hlocL
      omega
    have hJB : ∀ j, j ≠ eIdx →
        (w.migrate eIdx a r t newCells).ents.get? j =
          if j = lastRow0.entity then
            (w.ents.get? j).map (fun er => { er with loc := some (a, r) })
          else w.ents.get? j := by
      intro j hj
      exact (hMJ j hj).2 lastRow0 hlastc hlast0
    have hJB' : ∀ j, j ≠ eIdx → j ≠ lastRow0.entity →
        (w.migrate eIdx a r t newCells).ents.get? j = w.ents.get? j := by
      intro j hj hjL
      rw [hJB j hj, if_neg hjL]
    have hJL : (w.migrate eIdx a r t newCells).ents.get? lastRow0.entity =
        some { gen := erL.gen, loc := some (a, r) } := by
      rw [hJB _ hLne, if_pos rfl, herL]
      rfl
    refine ⟨?_, ?_, ?_, ?_, ?_, ?_, ?_⟩
    · -- archRowsOK
      intro arch' hmem row' hrowmem
      obtain ⟨b, hb⟩ := List.mem_iff_get?.mp hmem
      by_cases hbt : b = t
      · subst hbt
        rw [hMT] at hb
        cases hb
        rcases List.mem_append.mp hrowmem with hin | hin
        · exact rowOK_strategy hstr (harch tarch (List.get?_mem ht) row' hin)
        · rcases List.mem_singleton.mp hin with rfl
          exact rowOK_strategy hstr hnew
      · by_cases hba : b = a
        · subst hba
          rw [hMA] at hb
          cases hb
          exact rowOK_strategy hstr
            (harch arch (List.get?_mem ha) row' (swapRemove_subset _ _ hrowmem))
        · rw [hMB b hba hbt] at hb
          exact rowOK_strategy hstr (harch arch' (List.get?_mem hb) row' hrowmem)
    · -- locFwd
      intro i er' hi b r' hloc'
      by_cases hie : i = eIdx
      · rw [hie, hME, her0] at hi
        cases hi
        simp only at hloc'
        cases hloc'
        refine ⟨_, hMT, ?_⟩
        exact ⟨{ entity := eIdx, cells := newCells }, List.get?_concat_length _ _, hie.symm⟩
      · by_cases hiL : i = lastRow0.entity
        · rw [hiL, hJL] at hi
          cases hi
          simp only at hloc'
          cases hloc'
          refine ⟨_, hMA, lastRow0, ?_, hiL.symm⟩
          have hrlt1 : r < arch.rows.length - 1 := by omega
          rw [get?_swapRemove _ _ _ hrlt hrlt1, if_pos rfl]
          exact hlast0
        · rw [hJB' i hie hiL] at hi
          obtain ⟨arch2, hb2, row2, hr2, hre2⟩ := hfwd i er' hi b r' hloc'
          by_cases hbt : b = t
          · rw [hbt] at hb2 ⊢
            rw [hb2] at ht
            cases ht
            refine ⟨_, hMT, row2, ?_, hre2⟩
            obtain ⟨hr2lt, _⟩ := List.get?_eq_some.mp hr2
            rw [List.get?_append hr2lt]
            exact hr2
          · by_cases hba : b = a
            · rw [hba] at hb2 ⊢
              rw [hb2] at ha
              cases ha
              have hrr' : r' ≠ r := by
                intro hrr
                rw [hrr, hrow] at hr2
                cases hr2
                exact hie (hre2.symm.trans hent)
              have hrlast : r' ≠ arch.rows.length - 1 := by
                intro hrr
                rw [hrr, hlast0] at hr2
                cases hr2
                exact hiL (hre2.symm)
              have hr'lt : r' < arch.rows.length := (List.get?_eq_some.mp hr2).1
              have hr'lt1 : r' < arch.rows.length - 1 := by omega
              refine ⟨_, hMA, row2, ?_, hre2⟩
              rw [get?_swapRemove _ _ _ hrlt hr'lt1, if_neg hrr']
              exact hr2
            · refine ⟨arch2, by rw [hMB b hba hbt]; exact hb2, row2, hr2, hre2⟩
    · -- locBwd
      intro b arch' hb r' row' hr'
      by_cases hbt : b = t
      · rw [hbt] at hb ⊢
        rw [hMT] at hb
        cases hb
        simp only at hr'
        have hr'lt : r' < tarch.rows.length + 1 := by
          have := (List.get?_eq_some.mp hr').1
          simpa using this
        by_cases hr'len : r' = tarch.rows.length
        · subst hr'len
          rw [List.get?_concat_length] at hr'
          cases hr'
          exact ⟨_, by rw [hME, her0]; rfl, rfl⟩
        · have hr'lt' : r' < tarch.rows.length := by omega
          rw [List.get?_append hr'lt'] at hr'
          obtain ⟨er2, her2, hloc2⟩ := hbwd t tarch ht r' row' hr'
          have hne : row'.entity ≠ eIdx := by
            intro he
            rw [he, her0] at her2
            cases her2
            rw [hloc0] at hloc2
            cases hloc2
            exact hat rfl
          have hneL : row'.entity ≠ lastRow0.entity := by
            intro he
            rw [he, herL] at her2
            cases her2
            rw [hlocL] at hloc2
            cases hloc2
            exact hat rfl
          exact ⟨er2, by rw [hJB' _ hne hneL]; exact her2, hloc2⟩
      · by_cases hba : b = a
        · rw [hba] at hb ⊢
          rw [hMA] at hb
          cases hb
          simp only at hr'
          have hr'lt : r' < arch.rows.length - 1 := by
            have := (List.get?_eq_some.mp hr').1
            rwa [length_swapRemove _ _ hrlt] at this
          rw [get?_swapRemove _ _ _ hrlt hr'lt] at hr'
          by_cases hrr' : r' = r
          · rw [if_pos hrr', hlast0] at hr'
            cases hr'
            rw [hrr']
            exact ⟨_, hJL, rfl⟩
          · rw [if_neg hrr'] at hr'
            obtain ⟨er2, her2, hloc2⟩ := hbwd a arch ha r' row' hr'
            have hne : row'.entity ≠ eIdx := by
              intro he
              rw [he, her0] at her2
              cases her2
              rw [hloc0] at hloc2
              cases hloc2
              exact hrr' rfl
            have hneL : row'.entity ≠ lastRow0.entity := by
              intro he
              rw [he, herL] at her2
              cases her2
              rw [hlocL] at hloc2
              cases hloc2
              omega
            exact ⟨er2, by rw [hJB' _ hne hneL]; exact her2, hloc2⟩
        · rw [hMB b hba hbt] at hb
          obtain ⟨er2, her2, hloc2⟩ := hbwd b arch' hb r' row' hr'
          have hne : row'.entity ≠ eIdx := by
            intro he
            rw [he, her0] at her2
            cases her2
            rw [hloc0] at hloc2
            cases hloc2
            exact hba rfl
          have hneL : row'.entity ≠ lastRow0.entity := by
            intro he
            rw [he, herL] at her2
            cases her2
            rw [hlocL] at hloc2
            cases hloc2
            exact hba rfl
          exact ⟨er2, by rw [hJB' _ hne hneL]; exact her2, hloc2⟩
    · -- sparseKeysOK
      obtain ⟨h1, h2⟩ := hkeys
      rw [World.sparseKeysOK, hsp, hstr]
      exact ⟨h1, h2⟩
    · -- sparseEntriesOK
      intro p hp
      rw [hsp] at hp
      obtain ⟨hnd, hall⟩ := hsE p hp
      refine ⟨hnd, ?_⟩
      intro en hen
      by_cases hie : en.entity = eIdx
      · refine ⟨{ gen := er0.gen, loc := some (t, tarch.rows.length) }, ?_, t,
          tarch.rows.length, rfl, ?_⟩
        · rw [hie, hME, her0]
          rfl
        · exact ⟨_, hMT, (hall en hen).2 hie⟩
      · obtain ⟨er2, her2, a', r', hloc2, arch', ha', hc⟩ := (hall en hen).1 hie
        by_cases hiL : en.entity = lastRow0.entity
        · rw [hiL, herL] at her2
          cases her2
          rw [hlocL] at hloc2
          cases hloc2
          rw [ha] at ha'
          cases ha'
          refine ⟨_, by rw [hiL]; exact hJL, a, r, rfl, _, hMA, hc⟩
        · obtain ⟨arch3, ha3, hcs3⟩ := hCS a' arch' ha'
          refine ⟨er2, by rw [hJB' _ hie hiL]; exact her2, a', r', hloc2, arch3, ha3, by
            rw [hcs3]; exact hc⟩
    · -- sparseCompleteOK
      intro i er' hi b r' hloc' arch' hb c hc hcs
      rw [ssGet_congr hsp]
      rw [hstr] at hcs
      by_cases hie : i = eIdx
      · subst hie
        rw [hME, her0] at hi
        cases hi
        simp only at hloc'
        cases hloc'
        rw [hMT] at hb
        cases hb
        exact hsC2 c hc hcs
      · by_cases hiL : i = lastRow0.entity
        · subst hiL
          rw [hJL] at hi
          cases hi
          simp only at hloc'
          cases hloc'
          rw [hMA] at hb
          cases hb
          exact hsC1 _ erL herL hLne a _ hlocL arch ha c hc hcs
        · rw [hJB' i hie hiL] at hi
          obtain ⟨arch2, hb2, hcs2⟩ := hCS' b arch' hb
          refine hsC1 i er' hi hie b r' hloc' arch2 hb2 c ?_ hcs
          rw [hcs2]
          exact hc
    · -- freelistOK
      obtain ⟨hnd, hall⟩ := hfree
      rw [World.freelistOK, hfl]
      refine ⟨hnd, ?_⟩
      intro i hi
      obtain ⟨er2, her2, hloc2⟩ := hall i hi
      have hie : i ≠ eIdx := by
        intro he
        rw [he, her0] at her2
        cases her2
        rw [hloc0] at hloc2
        cases hloc2
      have hiL : i ≠ lastRow0.entity := by
        intro he
        rw [he, herL] at her2
        cases her2
        rw [hlocL] at hloc2
        cases hloc2
      exact ⟨er2, by rw [hJB' _ hie hiL]; exact her2, hloc2⟩

end Ecs

/-! ## Swap-remove permutation and sparse-set helper lemmas -/

theorem swapRemove_perm_eraseIdx {α : Type} (l : List α) (r : Nat) (hr : r < l.length) :
    (swapRemove l r).Perm (l.eraseIdx r) := by
  have hne : l ≠ [] := by
    intro h
    subst h
    simp at hr
  have hx : l.getLast? = some (l.getLast hne) := List.getLast?_eq_getLast l hne
  have hsw : swapRemove l r = (l.set r (l.getLast hne)).dropLast := by
    unfold swapRemove
    rw [hx]
  have hset : l.set r (l.getLast hne) =
      List.take r l ++ l.getLast hne :: List.drop (r + 1) l := by
    rw [List.set_eq_take_append_cons_drop, if_pos hr]
  have htl : (List.take r l).length = r := by
    simp [List.length_take]
    omega
  rw [hsw, List.dropLast_eq_take, List.length_set, hset, List.eraseIdx_eq_take_drop_succ]
  by_cases hcase : r = l.length - 1
  · have hdrop : List.drop (r + 1) l = [] := by
      apply List.drop_eq_nil_of_le
      omega
    rw [hdrop]
    have h1 : l.length - 1 = (List.take r l).length := by omega
    rw [h1, List.take_left]
    simp
  · have hlt : r < l.length - 1 := by omega
    have hk : l.length - 1 = (List.take r l).length + (l.length - 1 - r) := by omega
    rw [hk, List.take_append]
    have hk2 : l.length - 1 - r = (l.length - 2 - r) + 1 := by omega
    rw [hk2, List.take_cons]
    have hdlen : (List.drop (r + 1) l).length = l.length - (r + 1) := List.length_drop _ _
    have hdne : List.drop (r + 1) l ≠ [] := by
      intro h
      rw [h] at hdlen
      simp at hdlen
      omega
    have hdl : List.take (l.length - 2 - r + 1 - 1) (List.drop (r + 1) l) =
        (List.drop (r + 1) l).dropLast := by
      rw [List.dropLast_eq_take, hdlen]
      congr 1
      omega
    rw [hdl]
    refine List.Perm.append_left _ ?_
    have hgl : (List.drop (r + 1) l).getLast hdne = l.getLast hne := List.getLast_drop _
    have hrest : (List.drop (r + 1) l).dropLast ++ [l.getLast hne] = List.drop (r + 1) l := by
      rw [← hgl]
      exact List.dropLast_append_getLast hdne
    have hperm : (l.getLast hne :: (List.drop (r + 1) l).dropLast).Perm
        ((List.drop (r + 1) l).dropLast ++ [l.getLast hne]) :=
      (List.perm_append_singleton _ _).symm
    rw [hrest] at hperm
    exact hperm
    omega

theorem nodup_map_swapRemove {α β : Type} (f : α → β) (l : List α) (r : Nat)
    (hr : r < l.length) (h : (l.map f).Nodup) : ((swapRemove l r).map f).Nodup := by
  rw [((swapRemove_perm_eraseIdx l r hr).map f).nodup_iff]
  exact ((List.eraseIdx_sublist l r).map f).nodup h

theorem mem_swapRemove_of_get? {α : Type} {l : List α} {r m : Nat} {x : α}
    (hr : r < l.length) (hm : l.get? m = some x) (hmr : m ≠ r) : x ∈ swapRemove l r := by
  have hmlt : m < l.length := (List.get?_eq_some.mp hm).1
  by_cases hml : m = l.length - 1
  · have hrlt : r < l.length - 1 := by omega
    apply List.get?_mem (n := r)
    rw [get?_swapRemove _ _ _ hr hrlt, if_pos rfl, ← hml]
    exact hm
  · have hmlt1 : m < l.length - 1 := by omega
    apply List.get?_mem (n := m)
    rw [get?_swapRemove _ _ _ hr hmlt1, if_neg hmr]
    exact hm

namespace Ecs

theorem find?_entity_map (es : List SEntry) (f : SEntry → SEntry)
    (hf : ∀ en, (f en).entity = en.entity) (j : Nat) :
    (es.map f).find? (fun en => en.entity = j) =
      (es.find? (fun en => en.entity = j)).map f := by
  induction es with
  | nil => rfl
  | cons a es ih =>
    by_cases ha : a.entity = j
    · rw [List.find?_cons_of_pos _ (by simpa using ha), List.map_cons,
        List.find?_cons_of_pos _ (by simp [hf, ha])]
      rfl
    · rw [List.find?_cons_of_neg _ (by simpa using ha), List.map_cons,
        List.find?_cons_of_neg _ (by simp [hf, ha]), ih]

theorem mem_removeEntryList {es : List SEntry} {i : Nat} {en : SEntry}
    (h : en ∈ removeEntryList es i) : en ∈ es := by
  unfold removeEntryList at h
  cases hf : findIdxA (fun en => en.entity = i) es with
  | none =>
    rw [hf] at h
    exact h
  | some r =>
    rw [hf] at h
    exact swapRemove_subset _ _ h

theorem nodup_removeEntryList (es : List SEntry) (i : Nat)
    (h : (es.map SEntry.entity).Nodup) :
    ((removeEntryList es i).map SEntry.entity).Nodup := by
  unfold removeEntryList
  cases hf : findIdxA (fun en => en.entity = i) es with
  | none => exact h
  | some r =>
    obtain ⟨x, hx, _⟩ := findIdxA_eq_some _ _ _ hf
    exact nodup_map_swapRemove _ _ _ (List.get?_eq_some.mp hx).1 h

theorem find?_removeEntryList (es : List SEntry) (i j : Nat) (hij : j ≠ i)
    (hnd : (es.map SEntry.entity).Nodup) :
    (removeEntryList es i).find? (fun en => en.entity = j) =
      es.find? (fun en => en.entity = j) := by
  unfold removeEntryList
  cases hf : findIdxA (fun en => en.entity = i) es with
  | none => rfl
  | some r =>
    obtain ⟨enR, henR, hpR⟩ := findIdxA_eq_some _ _ _ hf
    have hpR' : enR.entity = i := by simpa using hpR
    have hrlt : r < es.length := (List.get?_eq_some.mp henR).1
    cases hfind : es.find? (fun en => en.entity = j) with
    | some x =>
      obtain ⟨hxmem, hxe⟩ := find?_key_mem SEntry.entity es hfind
      obtain ⟨m, hm⟩ := List.mem_iff_get?.mp hxmem
      have hmr : m ≠ r := by
        intro hc
        rw [hc, henR] at hm
        cases hm
        exact hij (hxe.symm.trans hpR')
      exact find?_key_eq_some SEntry.entity _
        (nodup_map_swapRemove _ _ _ hrlt hnd)
        (mem_swapRemove_of_get? hrlt hm hmr) hxe
    | none =>
      rw [List.find?_eq_none] at hfind ⊢
      intro x hx
      exact hfind x (swapRemove_subset _ _ hx)

theorem ssEntriesModify_find?_other (f : List SEntry → List SEntry) (c : Nat)
    (sp : List (Nat × List SEntry)) (c' : Nat) (hcc : c' ≠ c) :
    (ssEntriesModify f c sp).find? (fun p => p.1 = c') =
      sp.find? (fun p => p.1 = c') := by
  induction sp with
  | nil =>
    simp only [ssEntriesModify]
    have hno : ¬((c, f []).1 = c') := fun h => hcc h.symm
    rw [List.find?_cons_of_neg _ (by simpa using hno)]
  | cons p ps ih =>
    by_cases hp : p.1 = c
    · simp only [ssEntriesModify, if_pos hp]
      by_cases hp' : p.1 = c'
      · exact absurd (hp'.symm.trans hp) hcc
      · rw [List.find?_cons_of_neg _ (by simpa using hp'),
          List.find?_cons_of_neg _ (by simpa using hp')]
    · simp only [ssEntriesModify, if_neg hp]
      by_cases hp' : p.1 = c'
      · rw [List.find?_cons_of_pos _ (by simpa using hp'),
          List.find?_cons_of_pos _ (by simpa using hp')]
      · rw [List.find?_cons_of_neg _ (by simpa using hp'),
          List.find?_cons_of_neg _ (by simpa using hp'), ih]

theorem ssEntriesModify_find?_self (f : List SEntry → List SEntry) (c : Nat)
    (sp : List (Nat × List SEntry)) :
    (ssEntriesModify f c sp).find? (fun p => p.1 = c) =
      some (match sp.find? (fun p => p.1 = c) with
            | some p => (p.1, f p.2)
            | none => (c, f [])) := by
  induction sp with
  | nil =>
    simp only [ssEntriesModify]
    rw [List.find?_cons_of_pos _ (by simp)]
    rfl
  | cons p ps ih =>
    by_cases hp : p.1 = c
    · simp only [ssEntriesModify, if_pos hp]
      rw [List.find?_cons_of_pos _ (by simpa using hp),
        List.find?_cons_of_pos _ (by simpa using hp)]
    · simp only [ssEntriesModify, if_neg hp]
      rw [List.find?_cons_of_neg _ (by simpa using hp),
        List.find?_cons_of_neg _ (by simpa using hp), ih]

theorem ssEntriesModify_keys (f : List SEntry → List SEntry) (c : Nat)
    (sp : List (Nat × List SEntry)) :
    (ssEntriesModify f c sp).map Prod.fst =
      (match sp.find? (fun p => p.1 = c) with
       | some _ => sp.map Prod.fst
       | none => sp.map Prod.fst ++ [c]) := by
  induction sp with
  | nil => rfl
  | cons p ps ih =>
    by_cases hp : p.1 = c
    · simp only [ssEntriesModify, if_pos hp]
      rw [List.find?_cons_of_pos _ (by simpa using hp)]
      simp [hp]
    · simp only [ssEntriesModify, if_neg hp]
      rw [List.find?_cons_of_neg _ (by simpa using hp)]
      cases hf : ps.find? (fun q => q.1 = c) with
      | some q =>
        rw [hf] at ih
        simp only [List.map_cons, ih]
      | none =>
        rw [hf] at ih
        simp only [List.map_cons, ih, List.cons_append]

theorem mem_ssEntriesModify (f : List SEntry → List SEntry) (c : Nat)
    (sp : List (Nat × List SEntry)) (q : Nat × List SEntry)
    (hq : q ∈ ssEntriesModify f c sp) :
    q ∈ sp ∨ (∃ p, p ∈ sp ∧ p.1 = c ∧ q = (p.1, f p.2)) ∨ q = (c, f []) := by
  induction sp with
  | nil =>
    simp only [ssEntriesModify] at hq
    rcases List.mem_singleton.mp hq with rfl
    exact Or.inr (Or.inr rfl)
  | cons p ps ih =>
    by_cases hp : p.1 = c
    · simp only [ssEntriesModify, if_pos hp] at hq
      rcases List.mem_cons.mp hq with rfl | hq'
      · exact Or.inr (Or.inl ⟨p, List.mem_cons_self _ _, hp, rfl⟩)
      · exact Or.inl (List.mem_cons_of_mem _ hq')
    · simp only [ssEntriesModify, if_neg hp] at hq
      rcases List.mem_cons.mp hq with rfl | hq'
      · exact Or.inl (List.mem_cons_self _ _)
      · rcases ih hq' with h | ⟨p', hp', hpc, rfl⟩ | h
        · exact Or.inl (List.mem_cons_of_mem _ h)
        · exact Or.inr (Or.inl ⟨p', List.mem_cons_of_mem _ hp', hpc, rfl⟩)
        · exact Or.inr (Or.inr h)

end Ecs

/-! ## Mid-layer lemmas: stored component sets, located entities, frames -/

theorem find?_key_map {α : Type} (key : α → Nat) (l : List α) (g : α → α)
    (hg : ∀ x, key (g x) = key x) (k : Nat) :
    (l.map g).find? (fun y => key y = k) = (l.find? (fun y => key y = k)).map g := by
  induction l with
  | nil => rfl
  | cons a l ih =>
    by_cases ha : key a = k
    · rw [List.find?_cons_of_pos _ (by simpa using ha), List.map_cons,
        List.find?_cons_of_pos _ (by simp [hg, ha])]
      rfl
    · rw [List.find?_cons_of_neg _ (by simpa using ha), List.map_cons,
        List.find?_cons_of_neg _ (by simp [hg, ha]), ih]

namespace Ecs

theorem bind_ok {ε α β : Type} (a : α) (f : α → Except ε β) :
    (Except.ok a : Except ε α) >>= f = f a := rfl

theorem located_of_resolve (w : World) (e : EntityId) (a r : Nat)
    (hfwd : w.locFwd) (hres : w.resolve e = .ok (a, r)) :
    ∃ er arch row, w.ents.get? e.index = some er ∧ er.gen = e.generation ∧
      er.loc = some (a, r) ∧ w.archetypes.get? a = some arch ∧
      arch.rows.get? r = some row ∧ row.entity = e.index := by
  obtain ⟨er, her, hgen, hloc⟩ := (resolve_ok_iff w e (a, r)).mp hres
  obtain ⟨arch, harch, row, hrow, hent⟩ := hfwd e.index er her a r hloc
  exact ⟨er, arch, row, her, hgen, hloc, harch, hrow, hent⟩

theorem sparseCompsOf_eq (w : World) (i a r : Nat) (er : EntityRec) (arch : Archetype)
    (hwf : w.WF) (hi : w.ents.get? i = some er) (hloc : er.loc = some (a, r))
    (harch : w.archetypes.get? a = some arch) :
    w.sparseCompsOf i = arch.compSet.filter (fun c => w.strategy c = Strategy.sparseSet) := by
  obtain ⟨hrows, hfwd, hbwd, hkeys, hsE, hsC, hfree⟩ := hwf
  ext c
  simp only [World.sparseCompsOf, Finset.mem_filter, List.mem_toFinset, List.mem_map]
  constructor
  · rintro ⟨⟨p, hp, rfl⟩, hsome⟩
    have hstrat := hkeys.2 p hp
    -- the entry found by ssGet locates the entity in an archetype containing p.1
    unfold World.ssGet at hsome
    cases hf : w.sparse.find? (fun q => q.1 = p.1) with
    | none =>
      simp [hf] at hsome
    | some q =>
      simp only [hf] at hsome
      cases hen : q.2.find? (fun en => en.entity = i) with
      | none =>
        rw [hen] at hsome
        simp at hsome
      | some en =>
        obtain ⟨hqmem, hq1⟩ := find?_key_mem Prod.fst _ hf
        obtain ⟨henmem, hene⟩ := find?_key_mem SEntry.entity _ hen
        obtain ⟨er', her', a', r', hloc', arch', harch', hc⟩ := (hsE q hqmem).2 en henmem
        rw [hene] at her'
        rw [hi] at her'
        cases her'
        rw [hloc] at hloc'
        cases hloc'
        rw [harch] at harch'
        cases harch'
        rw [hq1] at hc
        exact ⟨hc, hstrat⟩
  · rintro ⟨hc, hstrat⟩
    have hsome := hsC i er hi a r hloc arch harch c hc hstrat
    refine ⟨?_, hsome⟩
    unfold World.ssGet at hsome
    cases hf : w.sparse.find? (fun q => q.1 = c) with
    | none =>
      rw [hf] at hsome
      simp at hsome
    | some q =>
      obtain ⟨hqmem, hq1⟩ := find?_key_mem Prod.fst _ hf
      exact ⟨q, hqmem, hq1⟩

theorem storedComps_eq_compSet (w : World) (i a r : Nat) (er : EntityRec) (arch : Archetype)
    (hwf : w.WF) (hi : w.ents.get? i = some er) (hloc : er.loc = some (a, r))
    (harch : w.archetypes.get? a = some arch) :
    w.storedComps i = arch.compSet := by
  obtain ⟨row, hrow, hent⟩ :
      ∃ row, arch.rows.get? r = some row ∧ row.entity = i := by
    obtain ⟨arch', harch', row, hrow, hent⟩ := hwf.2.1 i er hi a r hloc
    rw [harch] at harch'
    cases harch'
    exact ⟨row, hrow, hent⟩
  have hcells := rowCellsAt_eq w i a r er arch row hi hloc harch hrow
  have hrOK : rowOK w arch.compSet row :=
    hwf.1 arch (List.get?_mem harch) row (List.get?_mem hrow)
  unfold World.storedComps
  rw [hcells, hrOK.2, sparseCompsOf_eq w i a r er arch hwf hi hloc harch]
  unfold World.tableCompsOf
  ext c
  simp only [Finset.mem_union, Finset.mem_filter]
  cases hst : w.strategy c with
  | table => simp [hst]
  | sparseSet => simp [hst]

theorem getCellInfo_congr (w w' : World) (j : Nat) (hstr : w'.strategy = w.strategy)
    (hrow : w'.rowCellsAt j = w.rowCellsAt j) (hss : ∀ c, w'.ssGet c j = w.ssGet c j) :
    ∀ c, w'.getCellInfo j c = w.getCellInfo j c := by
  intro c
  unfold World.getCellInfo
  rw [hstr, hrow, hss]

theorem storedComps_congr (w w' : World) (j : Nat)
    (hrow : w'.rowCellsAt j = w.rowCellsAt j) (hss : ∀ c, w'.ssGet c j = w.ssGet c j)
    (hkeys : (w'.sparse.map Prod.fst).toFinset = (w.sparse.map Prod.fst).toFinset) :
    w'.storedComps j = w.storedComps j := by
  unfold World.storedComps World.sparseCompsOf
  rw [hrow, hkeys]
  congr 1
  apply Finset.filter_congr
  intro c _
  rw [hss]

theorem filter_length_congr (l l' : List EntityRec) (hlen : l.length = l'.length)
    (h : ∀ j, (l.get? j).map (fun er => er.loc.isSome) =
      (l'.get? j).map (fun er => er.loc.isSome)) :
    (l.filter (fun er => er.loc.isSome)).length =
      (l'.filter (fun er => er.loc.isSome)).length := by
  induction l generalizing l' with
  | nil =>
    cases l' with
    | nil => rfl
    | cons b l' => simp at hlen
  | cons a l ih =>
    cases l' with
    | nil => simp at hlen
    | cons b l' =>
      have h0 := h 0
      simp only [List.get?_cons_zero, Option.map_some'] at h0
      have hab : a.loc.isSome = b.loc.isSome := by
        exact Option.some.inj h0
      have ih' := ih l' (by simpa using hlen) (fun j => by simpa using h (j + 1))
      cases hc : a.loc.isSome with
      | true =>
        rw [List.filter_cons, List.filter_cons]
        simp [hc, ← hab, ih']
      | false =>
        rw [List.filter_cons, List.filter_cons]
        simp [hc, ← hab, ih']

theorem liveCount_congr (w w' : World) (hlen : w'.ents.length = w.ents.length)
    (hlive : ∀ j, w'.isLive j = w.isLive j) : w'.liveCount = w.liveCount := by
  unfold World.liveCount
  apply filter_length_congr _ _ hlen
  intro j
  by_cases hj : j < w'.ents.length
  · obtain ⟨er', her'⟩ : ∃ er', w'.ents.get? j = some er' := by
      cases hg : w'.ents.get? j with
      | none =>
        rw [List.get?_eq_none] at hg
        omega
      | some er' => exact ⟨er', rfl⟩
    obtain ⟨er, her⟩ : ∃ er, w.ents.get? j = some er := by
      cases hg : w.ents.get? j with
      | none =>
        rw [List.get?_eq_none] at hg
        omega
      | some er => exact ⟨er, rfl⟩
    have := hlive j
    unfold World.isLive at this
    rw [her, her'] at this
    rw [her, her']
    simpa using this
  · have h1 : w'.ents.get? j = none := by
      rw [List.get?_eq_none]
      omega
    have h2 : w.ents.get? j = none := by
      rw [List.get?_eq_none]
      omega
    rw [h1, h2]

end Ecs


namespace Ecs

theorem migrate_frames (w : World) (eIdx a r t : Nat) (newCells : List Cell)
    (tarch arch : Archetype) (row : TableRow)
    (ht : w.archetypes.get? t = some tarch) (ha : w.archetypes.get? a = some arch)
    (hat : a ≠ t) (hrow : arch.rows.get? r = some row) (hent : row.entity = eIdx)
    (hfwd : w.locFwd) (hbwd : w.locBwd) :
    (∀ j, ((w.migrate eIdx a r t newCells).ents.get? j).map EntityRec.gen =
      (w.ents.get? j).map EntityRec.gen) ∧
    (∀ j, (w.migrate eIdx a r t newCells).isLive j = w.isLive j) ∧
    (∀ j, j ≠ eIdx → (w.migrate eIdx a r t newCells).rowCellsAt j = w.rowCellsAt j) ∧
    ((w.migrate eIdx a r t newCells).rowCellsAt eIdx = newCells) ∧
    ((w.migrate eIdx a r t newCells).ents.get? eIdx =
      (w.ents.get? eIdx).map (fun er => { er with loc := some (t, tarch.rows.length) })) := by
  obtain ⟨hsp, hfl, htk, hstr, hlen, hME, hMJ, hMT, hMA, hMB, hMAL⟩ :=
    migrate_spec w eIdx a r t newCells tarch arch row ht ha hat hrow
  have hrlt : r < arch.rows.length := by
    obtain ⟨h, _⟩ := List.get?_eq_some.mp hrow
    exact h
  obtain ⟨er0, her0, hloc0⟩ := hbwd a arch ha r row hrow
  rw [hent] at her0
  -- a uniform description of the entity records after migration
  have hJ : ∀ j, j ≠ eIdx →
      ((w.migrate eIdx a r t newCells).ents.get? j = w.ents.get? j ∧
        (r + 1 = arch.rows.length ∨
          ∃ lastRow0, arch.rows.get? (arch.rows.length - 1) = some lastRow0 ∧
            j ≠ lastRow0.entity)) ∨
      (∃ lastRow0, r + 1 ≠ arch.rows.length ∧
        arch.rows.get? (arch.rows.length - 1) = some lastRow0 ∧ j = lastRow0.entity ∧
        (w.migrate eIdx a r t newCells).ents.get? j =
          (w.ents.get? j).map (fun er => { er with loc := some (a, r) })) := by
    intro j hj
    by_cases hlastc : r + 1 = arch.rows.length
    · exact Or.inl ⟨(hMJ j hj).1 hlastc, Or.inl hlastc⟩
    · obtain ⟨lastRow0, hlast0⟩ : ∃ x, arch.rows.get? (arch.rows.length - 1) = some x := by
        cases h : arch.rows.get? (arch.rows.length - 1) with
        | none =>
          rw [List.get?_eq_none] at h
          omega
        | some x => exact ⟨x, rfl⟩
      have hjr := (hMJ j hj).2 lastRow0 hlastc hlast0
      by_cases hjL : j = lastRow0.entity
      · rw [hjr, if_pos hjL]
        exact Or.inr ⟨lastRow0, hlastc, hlast0, hjL, rfl⟩
      · rw [hjr, if_neg hjL]
        exact Or.inl ⟨rfl, Or.inr ⟨lastRow0, hlast0, hjL⟩⟩
  refine ⟨?_, ?_, ?_, ?_, hME⟩
  · -- generations
    intro j
    by_cases hj : j = eIdx
    · rw [hj, hME, her0]
      rfl
    · rcases hJ j hj with ⟨h, _⟩ | ⟨lastRow0, _, _, _, h⟩
      · rw [h]
      · rw [h]
        cases w.ents.get? j <;> rfl
  · -- liveness
    intro j
    by_cases hj : j = eIdx
    · rw [hj]
      unfold World.isLive
      rw [hME, her0]
      simp [hloc0]
    · rcases hJ j hj with ⟨h, _⟩ | ⟨lastRow0, _, hlast0, hjL, h⟩
      · unfold World.isLive
        rw [h]
      · unfold World.isLive
        rw [h]
        obtain ⟨erL, herL, hlocL⟩ := hbwd a arch ha _ lastRow0 hlast0
        rw [← hjL] at herL
        rw [herL]
        simp [hlocL]
  · -- table cells of other entities
    intro j hj
    rcases hJ j hj with ⟨h, hside⟩ | ⟨lastRow0, hlastc, hlast0, hjL, h⟩
    · -- the entity record is unchanged
      cases hg : w.ents.get? j with
      | none =>
        simp only [World.rowCellsAt, h, hg]
      | some er =>
        cases hl : er.loc with
        | none =>
          simp only [World.rowCellsAt, h, hg, hl]
        | some br =>
          obtain ⟨b, r'⟩ := br
          obtain ⟨arch2, hb2, row2, hr2, hre2⟩ := hfwd j er hg b r' hl
          rw [rowCellsAt_eq w j b r' er arch2 row2 hg hl hb2 hr2]
          by_cases hbt : b = t
          · subst hbt
            rw [hb2] at ht
            cases ht
            refine rowCellsAt_eq _ j _ r' er _ row2 (by rw [h]; exact hg) hl hMT ?_
            obtain ⟨hr2lt, _⟩ := List.get?_eq_some.mp hr2
            rw [List.get?_append hr2lt]
            exact hr2
          · by_cases hba : b = a
            · subst hba
              rw [hb2] at ha
              cases ha
              have hrr' : r' ≠ r := by
                intro hrr
                rw [hrr, hrow] at hr2
                cases hr2
                exact hj (hre2.symm.trans hent)
              have hr'lt : r' < arch.rows.length := (List.get?_eq_some.mp hr2).1
              have hr'lt1 : r' < arch.rows.length - 1 := by
                rcases hside with hc | ⟨lastRow0, hlast0, hjL⟩
                · omega
                · by_cases hrl : r' = arch.rows.length - 1
                  · rw [hrl, hlast0] at hr2
                    cases hr2
                    exact absurd hre2.symm hjL
                  · omega
              refine rowCellsAt_eq _ j _ r' er _ row2 (by rw [h]; exact hg) hl hMA ?_
              rw [get?_swapRemove _ _ _ hrlt hr'lt1, if_neg hrr']
              exact hr2
            · refine rowCellsAt_eq _ j b r' er arch2 row2 (by rw [h]; exact hg) hl
                (by rw [hMB b hba hbt]; exact hb2) hr2
    · -- the relocated entity: its row moved from the end to position r
      obtain ⟨erL, herL, hlocL⟩ := hbwd a arch ha _ lastRow0 hlast0
      rw [← hjL] at herL
      rw [rowCellsAt_eq w j a (arch.rows.length - 1) erL arch lastRow0 herL hlocL ha hlast0]
      refine rowCellsAt_eq _ j a r { gen := erL.gen, loc := some (a, r) } _ lastRow0
        (by rw [h, herL]; rfl) rfl hMA ?_
      have hrlt1 : r < arch.rows.length - 1 := by omega
      rw [get?_swapRemove _ _ _ hrlt hrlt1, if_pos rfl]
      exact hlast0
  · -- the migrating entity's cells
    refine rowCellsAt_eq _ eIdx t tarch.rows.length
      { gen := er0.gen, loc := some (t, tarch.rows.length) } _
      { entity := eIdx, cells := newCells } (by rw [hME, her0]; rfl) rfl hMT ?_
    exact List.get?_concat_length _ _

end Ecs

namespace Ecs

theorem resolve_congr (w w' : World) (e : EntityId) (h : w'.ents = w.ents) :
    w'.resolve e = w.resolve e := by
  unfold World.resolve
  rw [h]

theorem isLive_congr (w w' : World) (j : Nat) (h : w'.ents = w.ents) :
    w'.isLive j = w.isLive j := by
  unfold World.isLive
  rw [h]

theorem getOrCreate_locFwd (w : World) (s : Finset Nat) (h : w.locFwd) :
    (w.getOrCreate s).1.locFwd := by
  intro i er hi a r hloc
  rw [(getOrCreate_fields w s).1] at hi
  obtain ⟨arch, harch, row, hrow, hent⟩ := h i er hi a r hloc
  have hlt : a < w.archetypes.length := (List.get?_eq_some.mp harch).1
  exact ⟨arch, by rw [getOrCreate_get?_lt w s a hlt]; exact harch, row, hrow, hent⟩

theorem getOrCreate_locBwd (w : World) (s : Finset Nat) (h : w.locBwd) :
    (w.getOrCreate s).1.locBwd := by
  intro a arch harch r row hrow
  rcases getOrCreate_get?_inv w s a arch harch with hold | ⟨rfl, _⟩
  · obtain ⟨er, her, hloc⟩ := h a arch hold r row hrow
    exact ⟨er, by rw [(getOrCreate_fields w s).1]; exact her, hloc⟩
  · simp at hrow

theorem getOrCreate_archRowsOK (w : World) (s : Finset Nat) (h : w.archRowsOK) :
    (w.getOrCreate s).1.archRowsOK := by
  intro arch hmem row hrow
  obtain ⟨b, hb⟩ := List.mem_iff_get?.mp hmem
  rcases getOrCreate_get?_inv w s b arch hb with hold | ⟨rfl, _⟩
  · exact rowOK_strategy (getOrCreate_fields w s).2.2.2.2
      (h arch (List.get?_mem hold) row hrow)
  · simp at hrow

theorem getD_none {α : Type} {l : List α} {i : Nat} (h : l.get? i = none) (d : α) :
    l.getD i d = d := by
  rw [List.getD_eq_get?, h]
  rfl

theorem getOrCreate_rowCellsAt (w : World) (s : Finset Nat) (j : Nat) :
    (w.getOrCreate s).1.rowCellsAt j = w.rowCellsAt j := by
  unfold World.rowCellsAt
  rw [(getOrCreate_fields w s).1]
  cases hg : w.ents.get? j with
  | none => rfl
  | some er =>
    cases hl : er.loc with
    | none => simp only [hl]
    | some br =>
      obtain ⟨a, r⟩ := br
      simp only [hl]
      by_cases hlt : a < w.archetypes.length
      · obtain ⟨arch, harch⟩ : ∃ arch, w.archetypes.get? a = some arch := by
          cases hq : w.archetypes.get? a with
          | none =>
            rw [List.get?_eq_none] at hq
            omega
          | some arch => exact ⟨arch, rfl⟩
        have harch' : (w.getOrCreate s).1.archetypes.get? a = some arch := by
          rw [getOrCreate_get?_lt w s a hlt]
          exact harch
        rw [getD_of_get? harch, getD_of_get? harch']
      · have h1 : w.archetypes.get? a = none := by
          rw [List.get?_eq_none]
          omega
        rw [getD_none h1]
        cases hq : (w.getOrCreate s).1.archetypes.get? a with
        | none => rw [getD_none hq]
        | some arch =>
          rcases getOrCreate_get?_inv w s a arch hq with hold | ⟨rfl, _⟩
          · rw [hold] at h1
            cases h1
          · rw [getD_of_get? hq]
            rfl

theorem getOrCreate_ssGet (w : World) (s : Finset Nat) (c i : Nat) :
    (w.getOrCreate s).1.ssGet c i = w.ssGet c i := by
  unfold World.ssGet
  rw [(getOrCreate_fields w s).2.1]

theorem storedComps_congr' (w w' : World) (j : Nat)
    (hrow : w'.rowCellsAt j = w.rowCellsAt j)
    (h : ∀ c, (c ∈ (w'.sparse.map Prod.fst).toFinset ∧ (w'.ssGet c j).isSome = true) ↔
      (c ∈ (w.sparse.map Prod.fst).toFinset ∧ (w.ssGet c j).isSome = true)) :
    w'.storedComps j = w.storedComps j := by
  unfold World.storedComps World.sparseCompsOf
  rw [hrow]
  congr 1
  ext c
  simp only [Finset.mem_filter]
  exact h c

end Ecs

namespace Ecs

theorem ssGet_eq_find (w : World) (c i : Nat) :
    w.ssGet c i = (w.sparse.find? (fun p => p.1 = c)).bind
      (fun p => p.2.find? (fun en => en.entity = i)) := by
  unfold World.ssGet
  cases w.sparse.find? (fun p => p.1 = c) <;> rfl

theorem ssEntriesModify_find?_found (f : List SEntry → List SEntry) (c : Nat)
    (sp : List (Nat × List SEntry)) (q : Nat × List SEntry)
    (hf : sp.find? (fun p => p.1 = c) = some q) :
    (ssEntriesModify f c sp).find? (fun p => p.1 = c) = some (q.1, f q.2) := by
  rw [ssEntriesModify_find?_self, hf]

theorem ssEntriesModify_find?_fresh (f : List SEntry → List SEntry) (c : Nat)
    (sp : List (Nat × List SEntry)) (hf : sp.find? (fun p => p.1 = c) = none) :
    (ssEntriesModify f c sp).find? (fun p => p.1 = c) = some (c, f []) := by
  rw [ssEntriesModify_find?_self, hf]

theorem ssEntriesModify_keys_found (f : List SEntry → List SEntry) (c : Nat)
    (sp : List (Nat × List SEntry)) (q : Nat × List SEntry)
    (hf : sp.find? (fun p => p.1 = c) = some q) :
    (ssEntriesModify f c sp).map Prod.fst = sp.map Prod.fst := by
  rw [ssEntriesModify_keys, hf]

theorem ssEntriesModify_keys_fresh (f : List SEntry → List SEntry) (c : Nat)
    (sp : List (Nat × List SEntry)) (hf : sp.find? (fun p => p.1 = c) = none) :
    (ssEntriesModify f c sp).map Prod.fst = sp.map Prod.fst ++ [c] := by
  rw [ssEntriesModify_keys, hf]

theorem insertComponent_fresh_spec (w : World) (e : EntityId) (c v : Nat) (a r : Nat)
    (hwf : w.WF) (hres : w.resolve e = .ok (a, r)) (hc : c ∉ w.storedComps e.index) :
    ∃ w', w.insertComponent e c v = .ok w' ∧ w'.WF ∧ FrameOK w w' e.index ∧
      w'.storedComps e.index = insert c (w.storedComps e.index) ∧
      w'.getCellInfo e.index c = some (v, w.tick, w.tick) ∧
      (∀ c', c' ≠ c → w'.getCellInfo e.index c' = w.getCellInfo e.index c') ∧
      (∃ er', w'.ents.get? e.index = some er' ∧ er'.gen = e.generation ∧ er'.loc.isSome = true) := by
  obtain ⟨er0, arch0, row0, her0, hgen0, hloc0, harch0, hrow0, hent0⟩ :=
    located_of_resolve w e a r hwf.2.1 hres
  have hcomp : w.storedComps e.index = arch0.compSet :=
    storedComps_eq_compSet w e.index a r er0 arch0 hwf her0 hloc0 harch0
  have hcnot : c ∉ arch0.compSet := by
    rw [← hcomp]
    exact hc
  have hgetD : w.archetypes.getD a emptyArch = arch0 := getD_of_get? harch0 _
  have hgetDr : arch0.rows.getD r defaultRow = row0 := getD_of_get? hrow0 _
  have halt : a < w.archetypes.length := (List.get?_eq_some.mp harch0).1
  obtain ⟨w1, t, hws⟩ : ∃ w1 t, w.getOrCreate (insert c arch0.compSet) = (w1, t) :=
    ⟨_, _, rfl⟩
  have hw1 : (w.getOrCreate (insert c arch0.compSet)).1 = w1 := by rw [hws]
  have hwt : (w.getOrCreate (insert c arch0.compSet)).2 = t := by rw [hws]
  have hents1 : w1.ents = w.ents := by
    rw [← hw1]
    exact (getOrCreate_fields w _).1
  have hsparse1 : w1.sparse = w.sparse := by
    rw [← hw1]
    exact (getOrCreate_fields w _).2.1
  have hfree1 : w1.freelist = w.freelist := by
    rw [← hw1]
    exact (getOrCreate_fields w _).2.2.1
  have htick1 : w1.tick = w.tick := by
    rw [← hw1]
    exact (getOrCreate_fields w _).2.2.2.1
  have hstr1 : w1.strategy = w.strategy := by
    rw [← hw1]
    exact (getOrCreate_fields w _).2.2.2.2
  obtain ⟨tarch, ht1, htc, _⟩ := getOrCreate_target w (insert c arch0.compSet)
  rw [hw1, hwt] at ht1
  have ha1 : w1.archetypes.get? a = some arch0 := by
    rw [← hw1, getOrCreate_get?_lt w _ a halt]
    exact harch0
  have hat : a ≠ t := by
    intro hq
    rw [hq, ht1] at ha1
    cases ha1
    exact hcnot (htc ▸ Finset.mem_insert_self c _)
  have harchOK1 : w1.archRowsOK := by
    rw [← hw1]
    exact getOrCreate_archRowsOK w _ hwf.1
  have hfwd1 : w1.locFwd := by
    rw [← hw1]
    exact getOrCreate_locFwd w _ hwf.2.1
  have hbwd1 : w1.locBwd := by
    rw [← hw1]
    exact getOrCreate_locBwd w _ hwf.2.2.1
  have hkeys1 : w1.sparseKeysOK := by
    unfold World.sparseKeysOK
    rw [hsparse1, hstr1]
    exact hwf.2.2.2.1
  have hfreeOK1 : w1.freelistOK := by
    unfold World.freelistOK
    rw [hfree1, hents1]
    exact hwf.2.2.2.2.2.2
  have hss1 : ∀ c' i, w1.ssGet c' i = w.ssGet c' i := by
    intro c' i
    unfold World.ssGet
    rw [hsparse1]
  have hrc1 : ∀ j, w1.rowCellsAt j = w.rowCellsAt j := by
    intro j
    rw [← hw1]
    exact getOrCreate_rowCellsAt w _ j
  have harch1get : ∀ b arch', w1.archetypes.get? b = some arch' →
      w.archetypes.get? b = some arch' ∨
        (arch' = { compSet := insert c arch0.compSet, rows := [] } ∧
          w.archetypes.get? b = none) := by
    intro b arch' hb
    rw [← hw1] at hb
    exact getOrCreate_get?_inv w _ b arch' hb
  have harch1lt : ∀ b, b < w.archetypes.length →
      w1.archetypes.get? b = w.archetypes.get? b := by
    intro b hb
    rw [← hw1]
    exact getOrCreate_get?_lt w _ b hb
  -- the sparse components currently stored for the entity sit inside the target set
  have hsparseIn : ∀ p, p ∈ w.sparse → ∀ en, en ∈ p.2 → en.entity = e.index →
      p.1 ∈ insert c arch0.compSet := by
    intro p hp en hen hene
    obtain ⟨er', her', a', r', hloc', arch', ha', hcin⟩ := (hwf.2.2.2.2.1 p hp).2 en hen
    rw [hene, her0] at her'
    cases her'
    rw [hloc0] at hloc'
    cases hloc'
    rw [harch0] at ha'
    cases ha'
    exact Finset.mem_insert_of_mem hcin
  have hsC2w : ∀ c' ∈ arch0.compSet, w.strategy c' = Strategy.sparseSet →
      (w.ssGet c' e.index).isSome = true := by
    intro c' hc' hst'
    exact hwf.2.2.2.2.2.1 e.index er0 her0 a r hloc0 arch0 harch0 c' hc' hst'
  -- strategy case split
  cases hst : w.strategy c with
  | table =>
    have heq : w.insertComponent e c v = .ok (w1.migrate e.index a r t
        (row0.cells ++ [{ comp := c, value := v, added := w.tick, changed := w.tick }])) := by
      unfold World.insertComponent
      rw [hres]
      simp only [bind_ok, hgetD]
      rw [if_neg hcnot, hws]
      simp only [hst, hgetDr, ite_true]
    have hsEmig : ∀ p ∈ w1.sparse, (p.2.map SEntry.entity).Nodup ∧ ∀ en ∈ p.2,
        (en.entity ≠ e.index → ∃ er, w1.ents.get? en.entity = some er ∧ ∃ a' r',
          er.loc = some (a', r') ∧ ∃ arch', w1.archetypes.get? a' = some arch' ∧
            p.1 ∈ arch'.compSet) ∧
        (en.entity = e.index → p.1 ∈ tarch.compSet) := by
      intro p hp
      rw [hsparse1] at hp
      refine ⟨(hwf.2.2.2.2.1 p hp).1, ?_⟩
      intro en hen
      constructor
      · intro hne
        obtain ⟨er', her', a', r', hloc', arch', ha', hcin⟩ :=
          (hwf.2.2.2.2.1 p hp).2 en hen
        have halt' : a' < w.archetypes.length := (List.get?_eq_some.mp ha').1
        exact ⟨er', by rw [hents1]; exact her', a', r', hloc', arch',
          by rw [harch1lt a' halt']; exact ha', hcin⟩
      · intro hene
        rw [htc]
        exact hsparseIn p hp en hen hene
    have hsC1mig : ∀ i er, w1.ents.get? i = some er → i ≠ e.index →
        ∀ a' r', er.loc = some (a', r') → ∀ arch', w1.archetypes.get? a' = some arch' →
        ∀ c' ∈ arch'.compSet, w1.strategy c' = Strategy.sparseSet →
          (w1.ssGet c' i).isSome = true := by
      intro i er hi hine a' r' hloc' arch' ha' c' hc' hst'
      rw [hents1] at hi
      rw [hstr1] at hst'
      rcases harch1get a' arch' ha' with hold | ⟨rfl, hnone⟩
      · rw [hss1]
        exact hwf.2.2.2.2.2.1 i er hi a' r' hloc' arch' hold c' hc' hst'
      · obtain ⟨arch2, ha2, _, _, _⟩ := hwf.2.1 i er hi a' r' hloc'
        rw [hnone] at ha2
        cases ha2
    have hsC2mig : ∀ c' ∈ tarch.compSet, w1.strategy c' = Strategy.sparseSet →
        (w1.ssGet c' e.index).isSome = true := by
      intro c' hc' hst'
      rw [hstr1] at hst'
      rw [htc] at hc'
      rcases Finset.mem_insert.mp hc' with rfl | hcin
      · rw [hst] at hst'
        cases hst'
      · rw [hss1]
        exact hsC2w c' hcin hst'
    have hrowOK0 : rowOK w arch0.compSet row0 :=
      hwf.1 arch0 (List.get?_mem harch0) row0 (List.get?_mem hrow0)
    have hcnotcells : c ∉ row0.cells.map Cell.comp := by
      intro hmem
      have : c ∈ w.tableCompsOf arch0.compSet := by
        rw [← hrowOK0.2]
        exact List.mem_toFinset.mpr hmem
      exact hcnot (Finset.mem_of_mem_filter c this)
    have hnew : rowOK w1 tarch.compSet
        (TableRow.mk e.index (row0.cells ++ [Cell.mk c v w.tick w.tick])) := by
      constructor
      · simp only [List.map_append, List.map_cons, List.map_nil]
        rw [List.nodup_append]
        exact ⟨hrowOK0.1, List.nodup_singleton c, by
          intro x hx
          simp only [List.mem_singleton]
          intro hxc
          rw [hxc] at hx
          exact hcnotcells hx⟩
      · simp only [List.map_append, List.map_cons, List.map_nil, List.toFinset_append]
        rw [htc]
        unfold World.tableCompsOf
        rw [hstr1]
        rw [Finset.filter_insert, if_pos hst, hrowOK0.2]
        unfold World.tableCompsOf
        simp [Finset.insert_eq, Finset.union_comm]
    obtain ⟨hsp, hfl, htk, hstrM, hlenM, hME, hMJ, hMT, hMA, hMB, hMAL⟩ :=
      migrate_spec w1 e.index a r t (row0.cells ++ [Cell.mk c v w.tick w.tick])
        tarch arch0 row0 ht1 ha1 hat hrow0
    obtain ⟨hgenF, hliveF, hrcF, hrcE, hMEc⟩ :=
      migrate_frames w1 e.index a r t (row0.cells ++ [Cell.mk c v w.tick w.tick])
        tarch arch0 row0 ht1 ha1 hat hrow0 hent0 hfwd1 hbwd1
    have hwf' := migrate_WF w1 e.index a r t (row0.cells ++ [Cell.mk c v w.tick w.tick])
      tarch arch0 row0 ht1 ha1 hat hrow0 hent0
      harchOK1 hfwd1 hbwd1 hkeys1 hfreeOK1 hsEmig hsC1mig hsC2mig hnew
    refine ⟨_, heq, hwf', ?_, ?_, ?_, ?_, ?_⟩
    · -- FrameOK
      refine ⟨by rw [hstrM, hstr1], by rw [htk, htick1], by rw [hfl, hfree1],
        by rw [hlenM, hents1], ?_, ?_, ?_, ?_⟩
      · intro j
        rw [hgenF j, hents1]
      · intro j
        rw [hliveF j, isLive_congr w w1 j hents1]
      · intro j hj c'
        refine getCellInfo_congr w _ j (by rw [hstrM, hstr1]) ?_ ?_ c'
        · rw [hrcF j hj, hrc1 j]
        · intro c''
          unfold World.ssGet
          rw [hsp, hsparse1]
      · intro j hj
        refine storedComps_congr w _ j ?_ ?_ ?_
        · rw [hrcF j hj, hrc1 j]
        · intro c''
          unfold World.ssGet
          rw [hsp, hsparse1]
        · rw [hsp, hsparse1]
    · -- new stored component set
      have hE' : (w1.migrate e.index a r t
          (row0.cells ++ [Cell.mk c v w.tick w.tick])).ents.get? e.index =
          some { gen := er0.gen, loc := some (t, tarch.rows.length) } := by
        rw [hMEc, hents1, her0]
        rfl
      rw [storedComps_eq_compSet _ e.index t tarch.rows.length _ _ hwf' hE' rfl hMT]
      rw [hcomp, htc]
    · -- the new cell
      unfold World.getCellInfo
      rw [hstrM, hstr1]
      rw [if_pos hst, hrcE]
      rw [List.find?_append]
      have h1 : row0.cells.find? (fun cl => cl.comp = c) = none := by
        rw [List.find?_eq_none]
        intro x hx
        simp only [decide_eq_true_eq]
        intro hxc
        exact hcnotcells (List.mem_map.mpr ⟨x, hx, hxc⟩)
      rw [h1, List.find?_cons_of_pos _ (by simp), Option.none_or]
      rfl
    · -- other components of the entity
      intro c' hcc
      unfold World.getCellInfo
      rw [hstrM, hstr1]
      by_cases hst' : w.strategy c' = Strategy.table
      · rw [if_pos hst', if_pos hst', hrcE]
        rw [rowCellsAt_eq w e.index a r er0 arch0 row0 her0 hloc0 harch0 hrow0]
        rw [List.find?_append]
        have h2 : List.find? (fun (cl : Cell) => cl.comp = c')
            [Cell.mk c v w.tick w.tick] = none := by
          rw [List.find?_eq_none]
          intro x hx
          simp only [List.mem_singleton] at hx
          subst hx
          simp only [decide_eq_true_eq]
          exact fun h => hcc h.symm
        rw [h2, Option.or_none]
      · rw [if_neg hst', if_neg hst']
        have hssm : (w1.migrate e.index a r t
            (row0.cells ++ [Cell.mk c v w.tick w.tick])).ssGet c' e.index =
            w.ssGet c' e.index := by
          unfold World.ssGet
          rw [hsp, hsparse1]
        rw [hssm]
    · -- the entity still resolves
      refine ⟨{ gen := er0.gen, loc := some (t, tarch.rows.length) }, ?_, hgen0, rfl⟩
      rw [hMEc, hents1, her0]
      rfl
  | sparseSet =>
    set sp2 := ssEntriesModify (fun es => es ++ [SEntry.mk e.index v w.tick w.tick]) c w1.sparse with hsp2def
    set w2 : World := { w1 with sparse := sp2 } with hw2def
    have heq : w.insertComponent e c v = .ok (w2.migrate e.index a r t row0.cells) := by
      unfold World.insertComponent
      rw [hres]
      simp only [bind_ok, hgetD]
      rw [if_neg hcnot, hws]
      simp only [hst, hgetDr]
      rfl
    have hsp2 : w2.sparse = ssEntriesModify
        (fun es => es ++ [SEntry.mk e.index v w.tick w.tick]) c w.sparse := by
      show sp2 = _
      rw [hsp2def, hsparse1]
    have hents2 : w2.ents = w.ents := hents1
    have htick2 : w2.tick = w.tick := htick1
    have hfree2 : w2.freelist = w.freelist := hfree1
    have hstr2 : w2.strategy = w.strategy := hstr1
    have ht2 : w2.archetypes.get? t = some tarch := ht1
    have ha2 : w2.archetypes.get? a = some arch0 := ha1
    have hfwd2 : w2.locFwd := hfwd1
    have hbwd2 : w2.locBwd := hbwd1
    have harchOK2 : w2.archRowsOK := harchOK1
    have hrc2 : ∀ j, w2.rowCellsAt j = w.rowCellsAt j := fun j => hrc1 j
    -- the entity has no entry for `c` in any sparse set
    have hnoE : ∀ q, q ∈ w.sparse → q.1 = c → ∀ en, en ∈ q.2 → en.entity ≠ e.index := by
      intro q hq hqc en hen hene
      obtain ⟨er', her', a', r', hloc', arch', ha', hcin⟩ := (hwf.2.2.2.2.1 q hq).2 en hen
      rw [hene, her0] at her'
      cases her'
      rw [hloc0] at hloc'
      cases hloc'
      rw [harch0] at ha'
      cases ha'
      rw [hqc] at hcin
      exact hcnot hcin
    -- how lookups behave in the modified sparse storage
    have hssOther : ∀ c' i, c' ≠ c → w2.ssGet c' i = w.ssGet c' i := by
      intro c' i hcc
      unfold World.ssGet
      rw [hsp2, ssEntriesModify_find?_other _ _ _ _ hcc]
    have hssCj : ∀ i, i ≠ e.index → w2.ssGet c i = w.ssGet c i := by
      intro i hine
      have hsingle : List.find? (fun en => en.entity = i)
          [SEntry.mk e.index v w.tick w.tick] = none := by
        rw [List.find?_eq_none]
        intro x hx
        simp only [List.mem_singleton] at hx
        subst hx
        simp only [decide_eq_true_eq]
        exact fun h => hine h.symm
      rw [ssGet_eq_find, ssGet_eq_find, hsp2]
      cases hf : w.sparse.find? (fun p => p.1 = c) with
      | some q =>
        rw [ssEntriesModify_find?_found _ _ _ q hf]
        simp only [Option.some_bind]
        rw [List.find?_append, hsingle, Option.or_none]
      | none =>
        rw [ssEntriesModify_find?_fresh _ _ _ hf]
        simp only [Option.some_bind, Option.none_bind, List.nil_append]
        exact hsingle
    have hssCE : w2.ssGet c e.index = some (SEntry.mk e.index v w.tick w.tick) := by
      rw [ssGet_eq_find, hsp2]
      cases hf : w.sparse.find? (fun p => p.1 = c) with
      | some q =>
        obtain ⟨hqmem, hq1⟩ := find?_key_mem Prod.fst _ hf
        rw [ssEntriesModify_find?_found _ _ _ q hf]
        simp only [Option.some_bind]
        rw [List.find?_append]
        have hq2 : q.2.find? (fun en => en.entity = e.index) = none := by
          rw [List.find?_eq_none]
          intro x hx
          simp only [decide_eq_true_eq]
          exact hnoE q hqmem hq1 x hx
        rw [hq2, Option.none_or, List.find?_cons_of_pos _ (by simp)]
      | none =>
        rw [ssEntriesModify_find?_fresh _ _ _ hf]
        simp only [Option.some_bind, List.nil_append]
        rw [List.find?_cons_of_pos _ (by simp)]
    have hkeys2 : w2.sparseKeysOK := by
      constructor
      · rw [hsp2]
        cases hf : w.sparse.find? (fun p => p.1 = c) with
        | some q =>
          rw [ssEntriesModify_keys_found _ _ _ q hf]
          exact hwf.2.2.2.1.1
        | none =>
          rw [ssEntriesModify_keys_fresh _ _ _ hf]
          rw [List.nodup_append]
          refine ⟨hwf.2.2.2.1.1, List.nodup_singleton c, ?_⟩
          intro x hx
          simp only [List.mem_singleton]
          intro hxc
          subst hxc
          obtain ⟨p, hp, hpc⟩ := List.mem_map.mp hx
          rw [List.find?_eq_none] at hf
          exact hf p hp (by simpa using hpc)
      · intro p hp
        rw [hsp2] at hp
        rcases mem_ssEntriesModify _ _ _ _ hp with hold | ⟨q, hq, hqc, rfl⟩ | rfl
        · rw [hstr2]
          exact hwf.2.2.2.1.2 p hold
        · rw [hstr2]
          simp only
          rw [hqc]
          exact hst
        · rw [hstr2]
          exact hst
    have hfreeOK2 : w2.freelistOK := by
      unfold World.freelistOK
      rw [hfree2, hents2]
      exact hwf.2.2.2.2.2.2
    have hsEmig : ∀ p ∈ w2.sparse, (p.2.map SEntry.entity).Nodup ∧ ∀ en ∈ p.2,
        (en.entity ≠ e.index → ∃ er, w2.ents.get? en.entity = some er ∧ ∃ a' r',
          er.loc = some (a', r') ∧ ∃ arch', w2.archetypes.get? a' = some arch' ∧
            p.1 ∈ arch'.compSet) ∧
        (en.entity = e.index → p.1 ∈ tarch.compSet) := by
      have hentry : ∀ (p : Nat × List SEntry), p ∈ w.sparse → ∀ en ∈ p.2,
          (en.entity ≠ e.index → ∃ er, w2.ents.get? en.entity = some er ∧ ∃ a' r',
            er.loc = some (a', r') ∧ ∃ arch', w2.archetypes.get? a' = some arch' ∧
              p.1 ∈ arch'.compSet) ∧
          (en.entity = e.index → p.1 ∈ tarch.compSet) := by
        intro p hp en hen
        constructor
        · intro hne
          obtain ⟨er', her', a', r', hloc', arch', ha', hcin⟩ :=
            (hwf.2.2.2.2.1 p hp).2 en hen
          have halt' : a' < w.archetypes.length := (List.get?_eq_some.mp ha').1
          refine ⟨er', by rw [hents2]; exact her', a', r', hloc', arch', ?_, hcin⟩
          show w1.archetypes.get? a' = some arch'
          rw [harch1lt a' halt']
          exact ha'
        · intro hene
          rw [htc]
          exact hsparseIn p hp en hen hene
      intro p hp
      rw [hsp2] at hp
      rcases mem_ssEntriesModify _ _ _ _ hp with hold | ⟨q, hq, hqc, rfl⟩ | rfl
      · exact ⟨(hwf.2.2.2.2.1 p hold).1, hentry p hold⟩
      · constructor
        · simp only [List.map_append, List.map_cons, List.map_nil]
          rw [List.nodup_append]
          refine ⟨(hwf.2.2.2.2.1 q hq).1, List.nodup_singleton _, ?_⟩
          intro x hx
          simp only [List.mem_singleton]
          intro hxe
          obtain ⟨en, hen, hene⟩ := List.mem_map.mp hx
          exact hnoE q hq hqc en hen (by rw [hene, hxe])
        · intro en hen
          rcases List.mem_append.mp hen with hin | hin
          · exact hentry q hq en hin
          · rcases List.mem_singleton.mp hin with rfl
            refine ⟨fun hne => absurd rfl hne, fun _ => ?_⟩
            simp only
            rw [hqc, htc]
            exact Finset.mem_insert_self c _
      · constructor
        · simp
        · intro en hen
          simp only [List.nil_append, List.mem_singleton] at hen
          subst hen
          refine ⟨fun hne => absurd rfl hne, fun _ => ?_⟩
          simp only
          rw [htc]
          exact Finset.mem_insert_self c _
    have hsC1mig : ∀ i er, w2.ents.get? i = some er → i ≠ e.index →
        ∀ a' r', er.loc = some (a', r') → ∀ arch', w2.archetypes.get? a' = some arch' →
        ∀ c' ∈ arch'.compSet, w2.strategy c' = Strategy.sparseSet →
          (w2.ssGet c' i).isSome = true := by
      intro i er hi hine a' r' hloc' arch' ha' c' hc' hst'
      rw [hents2] at hi
      rw [hstr2] at hst'
      have holdSome : (w.ssGet c' i).isSome = true := by
        rcases harch1get a' arch' ha' with hold | ⟨rfl, hnone⟩
        · exact hwf.2.2.2.2.2.1 i er hi a' r' hloc' arch' hold c' hc' hst'
        · obtain ⟨arch2, ha2', _, _, _⟩ := hwf.2.1 i er hi a' r' hloc'
          rw [hnone] at ha2'
          cases ha2'
      by_cases hcc : c' = c
      · subst hcc
        rw [hssCj i hine]
        exact holdSome
      · rw [hssOther c' i hcc]
        exact holdSome
    have hsC2mig : ∀ c' ∈ tarch.compSet, w2.strategy c' = Strategy.sparseSet →
        (w2.ssGet c' e.index).isSome = true := by
      intro c' hc' hst'
      rw [hstr2] at hst'
      rw [htc] at hc'
      rcases Finset.mem_insert.mp hc' with rfl | hcin
      · rw [hssCE]
        rfl
      · have hcc : c' ≠ c := by
          intro hq
          rw [hq] at hcin
          exact hcnot hcin
        rw [hssOther c' e.index hcc]
        exact hsC2w c' hcin hst'
    have hrowOK0 : rowOK w arch0.compSet row0 :=
      hwf.1 arch0 (List.get?_mem harch0) row0 (List.get?_mem hrow0)
    have hnew : rowOK w2 tarch.compSet (TableRow.mk e.index row0.cells) := by
      constructor
      · exact hrowOK0.1
      · show (row0.cells.map Cell.comp).toFinset = w2.tableCompsOf tarch.compSet
        rw [htc]
        unfold World.tableCompsOf
        rw [hstr2]
        rw [Finset.filter_insert, if_neg (by rw [hst]; intro hq; cases hq), hrowOK0.2]
        rfl
    obtain ⟨hsp, hfl, htk, hstrM, hlenM, hME, hMJ, hMT, hMA, hMB, hMAL⟩ :=
      migrate_spec w2 e.index a r t row0.cells tarch arch0 row0 ht2 ha2 hat hrow0
    obtain ⟨hgenF, hliveF, hrcF, hrcE, hMEc⟩ :=
      migrate_frames w2 e.index a r t row0.cells tarch arch0 row0 ht2 ha2 hat hrow0 hent0
        hfwd2 hbwd2
    have hwf' := migrate_WF w2 e.index a r t row0.cells tarch arch0 row0 ht2 ha2 hat
      hrow0 hent0 harchOK2 hfwd2 hbwd2 hkeys2 hfreeOK2 hsEmig hsC1mig hsC2mig hnew
    have hssM : ∀ c' i, (w2.migrate e.index a r t row0.cells).ssGet c' i =
        w2.ssGet c' i := by
      intro c' i
      unfold World.ssGet
      rw [hsp]
    refine ⟨_, heq, hwf', ?_, ?_, ?_, ?_, ?_⟩
    · -- FrameOK
      refine ⟨by rw [hstrM, hstr2], by rw [htk, htick2], by rw [hfl, hfree2],
        by rw [hlenM, hents2], ?_, ?_, ?_, ?_⟩
      · intro j
        rw [hgenF j, hents2]
      · intro j
        rw [hliveF j, isLive_congr w w2 j hents2]
      · intro j hj c'
        refine getCellInfo_congr w _ j (by rw [hstrM, hstr2]) ?_ ?_ c'
        · rw [hrcF j hj, hrc2 j]
        · intro c''
          rw [hssM]
          by_cases hcc : c'' = c
          · rw [hcc, hssCj j hj]
          · rw [hssOther c'' j hcc]
      · intro j hj
        have hkeysub : ∀ c'', c'' ≠ c →
            (c'' ∈ (w2.sparse.map Prod.fst).toFinset ↔
              c'' ∈ (w.sparse.map Prod.fst).toFinset) := by
          intro c'' hcc
          rw [hsp2]
          cases hf : w.sparse.find? (fun p => p.1 = c) with
          | some q => rw [ssEntriesModify_keys_found _ _ _ q hf]
          | none =>
            rw [ssEntriesModify_keys_fresh _ _ _ hf]
            simp only [List.toFinset_append, Finset.mem_union, List.toFinset_cons,
              List.toFinset_nil, insert_emptyc_eq, Finset.mem_singleton]
            constructor
            · rintro (h | h)
              · exact h
              · exact absurd h hcc
            · exact fun h => Or.inl h
        refine storedComps_congr' w _ j ?_ ?_
        · rw [hrcF j hj, hrc2 j]
        · intro c''
          rw [hssM]
          by_cases hcc : c'' = c
          · subst hcc
            rw [hssCj j hj]
            constructor
            · rintro ⟨hmem, hsome⟩
              refine ⟨?_, hsome⟩
              rw [ssGet_eq_find] at hsome
              cases hf : w.sparse.find? (fun p => p.1 = c'') with
              | none =>
                rw [hf] at hsome
                simp at hsome
              | some q =>
                obtain ⟨hqmem, hq1⟩ := find?_key_mem Prod.fst _ hf
                exact List.mem_toFinset.mpr (List.mem_map.mpr ⟨q, hqmem, hq1⟩)
            · rintro ⟨hmem, hsome⟩
              refine ⟨?_, hsome⟩
              rw [hsp, hsp2]
              cases hf : w.sparse.find? (fun p => p.1 = c'') with
              | some q =>
                rw [ssEntriesModify_keys_found _ _ _ q hf]
                exact hmem
              | none =>
                rw [ssEntriesModify_keys_fresh _ _ _ hf]
                simp only [List.toFinset_append, Finset.mem_union]
                exact Or.inl hmem
          · rw [hssOther c'' j hcc, hsp, hkeysub c'' hcc]
    · -- new stored component set
      have hE' : (w2.migrate e.index a r t row0.cells).ents.get? e.index =
          some { gen := er0.gen, loc := some (t, tarch.rows.length) } := by
        rw [hMEc, hents2, her0]
        rfl
      rw [storedComps_eq_compSet _ e.index t tarch.rows.length _ _ hwf' hE' rfl hMT]
      rw [hcomp, htc]
    · -- the new sparse entry
      unfold World.getCellInfo
      rw [hstrM, hstr2]
      rw [if_neg (by rw [hst]; intro hq; cases hq)]
      rw [hssM, hssCE]
      rfl
    · -- other components of the entity
      intro c' hcc
      unfold World.getCellInfo
      rw [hstrM, hstr2]
      by_cases hst' : w.strategy c' = Strategy.table
      · rw [if_pos hst', if_pos hst', hrcE]
        rw [rowCellsAt_eq w e.index a r er0 arch0 row0 her0 hloc0 harch0 hrow0]
      · rw [if_neg hst', if_neg hst']
        rw [hssM, hssOther c' e.index hcc]
    · -- the entity still resolves
      refine ⟨{ gen := er0.gen, loc := some (t, tarch.rows.length) }, ?_, hgen0, rfl⟩
      rw [hMEc, hents2, her0]
      rfl

end Ecs

namespace Ecs

theorem insertComponent_overwrite_spec (w : World) (e : EntityId) (c v : Nat) (a r : Nat)
    (hwf : w.WF) (hres : w.resolve e = .ok (a, r)) (hcin : c ∈ w.storedComps e.index) :
    ∃ w', w.insertComponent e c v = .ok w' ∧ w'.WF ∧
      w'.ents = w.ents ∧ w'.tick = w.tick ∧ w'.strategy = w.strategy ∧
      w'.freelist = w.freelist ∧
      (∀ b, (w'.archetypes.get? b).map Archetype.compSet =
        (w.archetypes.get? b).map Archetype.compSet) ∧
      (∀ j c', j ≠ e.index → w'.getCellInfo j c' = w.getCellInfo j c') ∧
      (∀ c', c' ≠ c → w'.getCellInfo e.index c' = w.getCellInfo e.index c') ∧
      (∃ info0, w.getCellInfo e.index c = some info0 ∧
        w'.getCellInfo e.index c = some (v, info0.2.1, w.tick)) ∧
      (∀ j, w'.storedComps j = w.storedComps j) ∧
      w'.resolve e = .ok (a, r) := by
  obtain ⟨er0, arch0, row0, her0, hgen0, hloc0, harch0, hrow0, hent0⟩ :=
    located_of_resolve w e a r hwf.2.1 hres
  have hcomp : w.storedComps e.index = arch0.compSet :=
    storedComps_eq_compSet w e.index a r er0 arch0 hwf her0 hloc0 harch0
  have hcin0 : c ∈ arch0.compSet := by
    rw [← hcomp]
    exact hcin
  have hgetD : w.archetypes.getD a emptyArch = arch0 := getD_of_get? harch0 _
  have hgetDr : arch0.rows.getD r defaultRow = row0 := getD_of_get? hrow0 _
  have hrowOK0 : rowOK w arch0.compSet row0 :=
    hwf.1 arch0 (List.get?_mem harch0) row0 (List.get?_mem hrow0)
  have hrc0 : w.rowCellsAt e.index = row0.cells :=
    rowCellsAt_eq w e.index a r er0 arch0 row0 her0 hloc0 harch0 hrow0
  cases hst : w.strategy c with
  | table =>
    -- the overwritten cell exists in the entity's row
    have hccells : c ∈ row0.cells.map Cell.comp := by
      have : c ∈ w.tableCompsOf arch0.compSet := by
        unfold World.tableCompsOf
        exact Finset.mem_filter.mpr ⟨hcin0, hst⟩
      rw [← hrowOK0.2] at this
      exact List.mem_toFinset.mp this
    obtain ⟨cell0, hcell0, hcell0c⟩ := List.mem_map.mp hccells
    have hfind0 : row0.cells.find? (fun cl => cl.comp = c) = some cell0 :=
      find?_key_eq_some Cell.comp _ hrowOK0.1 hcell0 hcell0c
    set f : Cell → Cell := fun cl =>
      if cl.comp = c then { cl with value := v, changed := w.tick } else cl with hfdef
    have hfcomp : ∀ cl, (f cl).comp = cl.comp := by
      intro cl
      simp only [hfdef]
      by_cases hq : cl.comp = c
      · rw [if_pos hq]
      · rw [if_neg hq]
    set g : TableRow → TableRow := fun row => { row with cells := row.cells.map f } with hgdef
    have heq : w.insertComponent e c v =
        .ok (w.setRows a (listModify g r arch0.rows)) := by
      unfold World.insertComponent
      rw [hres]
      simp only [bind_ok, hgetD]
      rw [if_pos hcin0]
      simp only [hst, ite_true]
    set w' : World := w.setRows a (listModify g r arch0.rows) with hw'def
    have hents' : w'.ents = w.ents := rfl
    have hsparse' : w'.sparse = w.sparse := rfl
    have hfree' : w'.freelist = w.freelist := rfl
    have htick' : w'.tick = w.tick := rfl
    have hstr' : w'.strategy = w.strategy := rfl
    have hss' : ∀ c' i, w'.ssGet c' i = w.ssGet c' i := fun c' i => rfl
    have harchget : ∀ b, w'.archetypes.get? b =
        if b = a then (w.archetypes.get? b).map (fun ar =>
          { ar with rows := listModify g r arch0.rows }) else w.archetypes.get? b := by
      intro b
      exact setRows_arch_get? w a _ b
    have harcha : w'.archetypes.get? a =
        some { arch0 with rows := listModify g r arch0.rows } := by
      rw [harchget, if_pos rfl, harch0]
      rfl
    have hrowget : ∀ r', (listModify g r arch0.rows).get? r' =
        if r' = r then (arch0.rows.get? r').map g else arch0.rows.get? r' :=
      fun r' => get?_listModify g r arch0.rows r'
    have hgent : ∀ row, (g row).entity = row.entity := fun row => rfl
    have hgcells : ∀ row, (g row).cells = row.cells.map f := fun row => rfl
    -- rowOK is preserved by the overwrite
    have hgOK : ∀ s row, rowOK w s row → rowOK w s (g row) := by
      intro s row hOK
      have hmapc : (g row).cells.map Cell.comp = row.cells.map Cell.comp := by
        rw [hgcells, List.map_map]
        apply List.map_congr_left
        intro x _
        exact hfcomp x
      constructor
      · rw [hmapc]
        exact hOK.1
      · rw [hmapc]
        exact hOK.2
    have hwf' : w'.WF := by
      obtain ⟨hrows, hfwd, hbwd, hkeys, hsE, hsC, hfree⟩ := hwf
      refine ⟨?_, ?_, ?_, ?_, ?_, ?_, ?_⟩
      · intro arch hmem row hrow
        obtain ⟨b, hb⟩ := List.mem_iff_get?.mp hmem
        rw [harchget] at hb
        by_cases hba : b = a
        · rw [if_pos hba, hba, harch0] at hb
          simp only [Option.map_some'] at hb
          cases hb
          simp only at hrow
          obtain ⟨r', hr'⟩ := List.mem_iff_get?.mp hrow
          rw [hrowget] at hr'
          by_cases hrr : r' = r
          · rw [if_pos hrr, hrr, hrow0] at hr'
            simp only [Option.map_some'] at hr'
            cases hr'
            exact rowOK_strategy rfl (hgOK _ _ hrowOK0)
          · rw [if_neg hrr] at hr'
            exact rowOK_strategy rfl (hrows arch0 (List.get?_mem harch0) row (List.get?_mem hr'))
        · rw [if_neg hba] at hb
          exact rowOK_strategy rfl (hrows arch (List.get?_mem hb) row hrow)
      · intro i er hi b r' hloc
        obtain ⟨arch, hb, row, hr, hre⟩ := hfwd i er hi b r' hloc
        rw [harchget]
        by_cases hba : b = a
        · subst hba
          rw [if_pos rfl, hb]
          rw [hb] at harch0
          cases harch0
          refine ⟨_, rfl, ?_⟩
          simp only
          rw [hrowget]
          by_cases hrr : r' = r
          · have hrow0' : row = row0 := by
              rw [hrr, hrow0] at hr
              exact (Option.some.inj hr).symm
            rw [if_pos hrr, hrr, hrow0]
            refine ⟨g row0, rfl, ?_⟩
            rw [hgent, ← hrow0']
            exact hre
          · rw [if_neg hrr]
            exact ⟨row, hr, hre⟩
        · rw [if_neg hba]
          exact ⟨arch, hb, row, hr, hre⟩
      · intro b arch hb r' row hr
        rw [harchget] at hb
        by_cases hba : b = a
        · rw [if_pos hba, hba, harch0] at hb
          simp only [Option.map_some'] at hb
          cases hb
          simp only at hr
          rw [hrowget] at hr
          by_cases hrr : r' = r
          · rw [if_pos hrr, hrr, hrow0] at hr
            simp only [Option.map_some'] at hr
            cases hr
            rw [hgent, hent0]
            rw [hba]
            exact ⟨er0, her0, by rw [hloc0, hrr]⟩
          · rw [if_neg hrr] at hr
            rw [hba]
            exact hbwd a arch0 harch0 r' row hr
        · rw [if_neg hba] at hb
          exact hbwd b arch hb r' row hr
      · exact hkeys
      · intro p hp
        refine ⟨(hsE p hp).1, ?_⟩
        intro en hen
        obtain ⟨er, her, a', r', hloc, arch', ha', hc'⟩ := (hsE p hp).2 en hen
        refine ⟨er, her, a', r', hloc, ?_⟩
        rw [harchget]
        by_cases hba : a' = a
        · subst hba
          rw [if_pos rfl, ha']
          rw [ha'] at harch0
          cases harch0
          exact ⟨_, rfl, hc'⟩
        · rw [if_neg hba]
          exact ⟨arch', ha', hc'⟩
      · intro i er hi b r' hloc arch hb c' hc' hstc
        rw [harchget] at hb
        by_cases hba : b = a
        · rw [if_pos hba, hba, harch0] at hb
          simp only [Option.map_some'] at hb
          cases hb
          rw [hss']
          rw [hba] at hloc
          exact hsC i er hi a r' hloc arch0 harch0 c' hc' hstc
        · rw [if_neg hba] at hb
          rw [hss']
          exact hsC i er hi b r' hloc arch hb c' hc' hstc
      · exact hfree
    -- frame facts for table cells
    have hrcj : ∀ j, j ≠ e.index → w'.rowCellsAt j = w.rowCellsAt j := by
      intro j hj
      cases hg : w.ents.get? j with
      | none => simp only [World.rowCellsAt, hents', hg]
      | some er =>
        cases hl : er.loc with
        | none => simp only [World.rowCellsAt, hents', hg, hl]
        | some br =>
          obtain ⟨b, r'⟩ := br
          obtain ⟨arch2, hb2, row2, hr2, hre2⟩ := hwf.2.1 j er hg b r' hl
          rw [rowCellsAt_eq w j b r' er arch2 row2 hg hl hb2 hr2]
          by_cases hba : b = a
          · subst hba
            rw [hb2] at harch0
            cases harch0
            have hrr : r' ≠ r := by
              intro hq
              rw [hq, hrow0] at hr2
              cases hr2
              exact hj (hre2.symm.trans hent0)
            refine rowCellsAt_eq w' j _ r' er _ row2 hg hl harcha ?_
            simp only
            rw [hrowget, if_neg hrr]
            exact hr2
          · refine rowCellsAt_eq w' j b r' er arch2 row2 hg hl ?_ hr2
            rw [harchget, if_neg hba, hb2]
    have hrcE : w'.rowCellsAt e.index = row0.cells.map f := by
      refine rowCellsAt_eq w' e.index a r er0 _ (g row0) her0 hloc0 harcha ?_
      simp only
      rw [hrowget, if_pos rfl, hrow0]
      rfl
    refine ⟨w', heq, hwf', rfl, rfl, rfl, rfl, ?_, ?_, ?_, ?_, ?_, ?_⟩
    · intro b
      rw [harchget]
      by_cases hba : b = a
      · rw [if_pos hba, hba, harch0]
        rfl
      · rw [if_neg hba]
    · intro j c' hj
      exact getCellInfo_congr w w' j rfl (hrcj j hj) (fun c'' => rfl) c'
    · intro c' hcc
      unfold World.getCellInfo
      by_cases hst' : w.strategy c' = Strategy.table
      · rw [hstr']
        rw [if_pos hst', if_pos hst', hrcE, hrc0]
        rw [find?_key_map Cell.comp _ f hfcomp]
        cases hq : row0.cells.find? (fun cl => cl.comp = c') with
        | none => rfl
        | some cl =>
          obtain ⟨_, hclc⟩ := find?_key_mem Cell.comp _ hq
          simp only [Option.map_some']
          simp only [hfdef]
          rw [if_neg (by rw [hclc]; exact hcc)]
      · rw [hstr']
        rw [if_neg hst', if_neg hst']
        rfl
    · refine ⟨(cell0.value, cell0.added, cell0.changed), ?_, ?_⟩
      · unfold World.getCellInfo
        rw [if_pos hst, hrc0, hfind0]
        rfl
      · unfold World.getCellInfo
        rw [hstr']
        rw [if_pos hst, hrcE]
        rw [find?_key_map Cell.comp _ f hfcomp, hfind0]
        simp only [Option.map_some']
        simp only [hfdef]
        rw [if_pos hcell0c]
    · intro j
      by_cases hj : j = e.index
      · subst hj
        unfold World.storedComps
        rw [hrcE, hrc0]
        have hmapc : (row0.cells.map f).map Cell.comp = row0.cells.map Cell.comp := by
          rw [List.map_map]
          apply List.map_congr_left
          intro x _
          exact hfcomp x
        rw [hmapc]
        congr 1
      · exact storedComps_congr w w' j (hrcj j hj) (fun c'' => rfl) rfl
    · rw [resolve_congr w w' e rfl]
      exact hres
  | sparseSet =>
    set f : SEntry → SEntry := fun en =>
      if en.entity = e.index then { en with value := v, changed := w.tick } else en with hfdef
    have hfent : ∀ en, (f en).entity = en.entity := by
      intro en
      simp only [hfdef]
      by_cases hq : en.entity = e.index
      · rw [if_pos hq]
      · rw [if_neg hq]
    set sp' := ssEntriesModify (fun es => es.map f) c w.sparse with hspdef
    set w' : World := { w with sparse := sp' } with hw'def
    have heq : w.insertComponent e c v = .ok w' := by
      unfold World.insertComponent
      rw [hres]
      simp only [bind_ok, hgetD]
      rw [if_pos hcin0]
      simp only [hst]
      rfl
    have hents' : w'.ents = w.ents := rfl
    have hfree' : w'.freelist = w.freelist := rfl
    have htick' : w'.tick = w.tick := rfl
    have hstr' : w'.strategy = w.strategy := rfl
    have harch' : w'.archetypes = w.archetypes := rfl
    have hsp' : w'.sparse = ssEntriesModify (fun es => es.map f) c w.sparse := by
      show sp' = _
      rw [hspdef]
    -- the key for c exists, with an entry for the entity
    have hsomeE : (w.ssGet c e.index).isSome = true :=
      hwf.2.2.2.2.2.1 e.index er0 her0 a r hloc0 arch0 harch0 c hcin0 hst
    obtain ⟨q, hfq⟩ : ∃ q, w.sparse.find? (fun p => p.1 = c) = some q := by
      rw [ssGet_eq_find] at hsomeE
      cases hq : w.sparse.find? (fun p => p.1 = c) with
      | none =>
        rw [hq] at hsomeE
        simp at hsomeE
      | some q => exact ⟨q, rfl⟩
    obtain ⟨hqmem, hq1⟩ := find?_key_mem Prod.fst _ hfq
    obtain ⟨en0, hen0⟩ : ∃ en0, q.2.find? (fun en => en.entity = e.index) = some en0 := by
      rw [ssGet_eq_find, hfq] at hsomeE
      simp only [Option.some_bind] at hsomeE
      cases hq : q.2.find? (fun en => en.entity = e.index) with
      | none =>
        rw [hq] at hsomeE
        simp at hsomeE
      | some en0 => exact ⟨en0, rfl⟩
    obtain ⟨hen0mem, hen0e⟩ := find?_key_mem SEntry.entity _ hen0
    have hssE' : ∀ c' i, w'.ssGet c' i =
        if c' = c then (w.ssGet c' i).map f else w.ssGet c' i := by
      intro c' i
      by_cases hcc : c' = c
      · rw [if_pos hcc, hcc]
        rw [ssGet_eq_find, ssGet_eq_find, hsp', ssEntriesModify_find?_found _ _ _ q hfq]
        simp only [Option.some_bind]
        rw [find?_entity_map q.2 f hfent i, hfq]
        simp only [Option.some_bind]
      · rw [if_neg hcc]
        rw [ssGet_eq_find, ssGet_eq_find, hsp', ssEntriesModify_find?_other _ _ _ _ hcc]
    have hkeys' : (w'.sparse.map Prod.fst) = w.sparse.map Prod.fst := by
      rw [hsp']
      exact ssEntriesModify_keys_found _ _ _ q hfq
    have hwf' : w'.WF := by
      obtain ⟨hrows, hfwd, hbwd, hkeys, hsE, hsC, hfree⟩ := hwf
      refine ⟨?_, ?_, ?_, ?_, ?_, ?_, ?_⟩
      · intro arch hmem row hrow
        exact rowOK_strategy rfl (hrows arch hmem row hrow)
      · exact hfwd
      · exact hbwd
      · constructor
        · rw [hkeys']
          exact hkeys.1
        · intro p hp
          rw [hsp'] at hp
          rcases mem_ssEntriesModify _ _ _ _ hp with hold | ⟨q', hq', hqc, rfl⟩ | rfl
          · exact hkeys.2 p hold
          · simp only
            rw [hqc]
            exact hst
          · exact hst
      · intro p hp
        rw [hsp'] at hp
        rcases mem_ssEntriesModify _ _ _ _ hp with hold | ⟨q', hq', hqc, rfl⟩ | rfl
        · refine ⟨(hsE p hold).1, ?_⟩
          intro en hen
          exact (hsE p hold).2 en hen
        · constructor
          · have : (q'.2.map f).map SEntry.entity = q'.2.map SEntry.entity := by
              rw [List.map_map]
              apply List.map_congr_left
              intro x _
              exact hfent x
            simp only
            rw [this]
            exact (hsE q' hq').1
          · intro en hen
            simp only at hen
            obtain ⟨en1, hen1, rfl⟩ := List.mem_map.mp hen
            rw [hfent]
            exact (hsE q' hq').2 en1 hen1
        · constructor
          · simp
          · intro en hen
            simp at hen
      · intro i er hi b r' hloc arch hb c' hc' hstc
        rw [hssE']
        by_cases hcc : c' = c
        · rw [if_pos hcc]
          have := hsC i er hi b r' hloc arch hb c' hc' hstc
          cases hq : w.ssGet c' i with
          | none =>
            rw [hq] at this
            simp at this
          | some en => rfl
        · rw [if_neg hcc]
          exact hsC i er hi b r' hloc arch hb c' hc' hstc
      · exact hfree
    have hrcall : ∀ j, w'.rowCellsAt j = w.rowCellsAt j := by
      intro j
      unfold World.rowCellsAt
      rfl
    refine ⟨w', heq, hwf', rfl, rfl, rfl, rfl, ?_, ?_, ?_, ?_, ?_, ?_⟩
    · intro b
      rfl
    · intro j c' hj
      refine getCellInfo_congr w w' j rfl (hrcall j) ?_ c'
      intro c''
      rw [hssE']
      by_cases hcc : c'' = c
      · rw [if_pos hcc]
        cases hq : w.ssGet c'' j with
        | none => rfl
        | some en =>
          obtain ⟨hfq2, hene⟩ : en ∈ q.2 ∧ en.entity = j := by
            rw [ssGet_eq_find, hcc, hfq] at hq
            simp only [Option.some_bind] at hq
            exact find?_key_mem SEntry.entity _ hq
          simp only [Option.map_some']
          simp only [hfdef]
          rw [if_neg (by rw [hene]; exact hj)]
      · rw [if_neg hcc]
    · intro c' hcc
      unfold World.getCellInfo
      rw [hstr']
      by_cases hst' : w.strategy c' = Strategy.table
      · rw [if_pos hst', if_pos hst', hrcall]
      · rw [if_neg hst', if_neg hst', hssE', if_neg hcc]
    · refine ⟨(en0.value, en0.added, en0.changed), ?_, ?_⟩
      · unfold World.getCellInfo
        rw [if_neg (by rw [hst]; intro hq; cases hq)]
        rw [ssGet_eq_find, hfq]
        simp only [Option.some_bind]
        rw [hen0]
        rfl
      · unfold World.getCellInfo
        rw [hstr']
        rw [if_neg (by rw [hst]; intro hq; cases hq)]
        rw [hssE', if_pos rfl]
        rw [ssGet_eq_find, hfq]
        simp only [Option.some_bind]
        rw [hen0]
        simp only [Option.map_some']
        simp only [hfdef]
        rw [if_pos hen0e]
    · intro j
      refine storedComps_congr' w w' j (hrcall j) ?_
      intro c''
      have hkeq : c'' ∈ (w'.sparse.map Prod.fst).toFinset ↔
          c'' ∈ (w.sparse.map Prod.fst).toFinset := by
        rw [hkeys']
      rw [hkeq, hssE']
      by_cases hcc : c'' = c
      · rw [if_pos hcc]
        cases hq : w.ssGet c'' j with
        | none => simp
        | some en => simp
      · rw [if_neg hcc]
    · rw [resolve_congr w w' e rfl]
      exact hres

end Ecs

theorem get?_of_mem_swapRemove {α : Type} {l : List α} {r : Nat} {x : α}
    (hr : r < l.length) (hx : x ∈ swapRemove l r) :
    ∃ m, m ≠ r ∧ l.get? m = some x := by
  obtain ⟨m, hm⟩ := List.mem_iff_get?.mp hx
  have hmlt : m < (swapRemove l r).length := (List.get?_eq_some.mp hm).1
  rw [length_swapRemove l r hr] at hmlt
  rw [get?_swapRemove l r m hr hmlt] at hm
  by_cases hmr : m = r
  · rw [if_pos hmr] at hm
    refine ⟨l.length - 1, ?_, hm⟩
    omega
  · rw [if_neg hmr] at hm
    exact ⟨m, hmr, hm⟩

namespace Ecs

theorem removeEntryList_no_entity (es : List SEntry) (i : Nat)
    (hnd : (es.map SEntry.entity).Nodup) :
    ∀ en ∈ removeEntryList es i, en.entity ≠ i := by
  intro en hen hq
  unfold removeEntryList at hen
  cases hf : findIdxA (fun en => en.entity = i) es with
  | none =>
    rw [hf] at hen
    have := (findIdxA_eq_none_iff _ es).mp hf en hen
    rw [hq] at this
    simp at this
  | some rdx =>
    rw [hf] at hen
    obtain ⟨enR, henR, hpR⟩ := findIdxA_eq_some _ _ _ hf
    have hpR' : enR.entity = i := by simpa using hpR
    have hrlt : rdx < es.length := (List.get?_eq_some.mp henR).1
    obtain ⟨m, hmr, hm⟩ := get?_of_mem_swapRemove hrlt hen
    have h1 : (es.map SEntry.entity).get? m = some i := by
      rw [List.get?_map, hm]
      simp [hq]
    have h2 : (es.map SEntry.entity).get? rdx = some i := by
      rw [List.get?_map, henR]
      simp [hpR']
    have hmlt : m < (es.map SEntry.entity).length :=
      (List.get?_eq_some.mp h1).1
    exact hmr (List.get?_inj hmlt hnd (h1.trans h2.symm))

theorem find?_removeEntryList_self (es : List SEntry) (i : Nat)
    (hnd : (es.map SEntry.entity).Nodup) :
    (removeEntryList es i).find? (fun en => en.entity = i) = none := by
  rw [List.find?_eq_none]
  intro en hen
  simpa using removeEntryList_no_entity es i hnd en hen

theorem find?_comp_filter (cells : List Cell) (c c' : Nat) (hcc : c' ≠ c) :
    (cells.filter (fun cl => cl.comp ≠ c)).find? (fun cl => cl.comp = c') =
      cells.find? (fun cl => cl.comp = c') := by
  induction cells with
  | nil => rfl
  | cons cl cells ih =>
    by_cases hq : cl.comp = c
    · rw [List.filter_cons_of_neg (by simp [hq]),
        List.find?_cons_of_neg _ (by simp [hq]; intro h; exact hcc h.symm), ih]
    · rw [List.filter_cons_of_pos (by simp [hq])]
      by_cases hp : cl.comp = c'
      · rw [List.find?_cons_of_pos _ (by simp [hp]), List.find?_cons_of_pos _ (by simp [hp])]
      · rw [List.find?_cons_of_neg _ (by simp [hp]), List.find?_cons_of_neg _ (by simp [hp]), ih]

theorem mem_ssEntriesModify_found (f : List SEntry → List SEntry) (c : Nat)
    (sp : List (Nat × List SEntry)) (hnd : (sp.map Prod.fst).Nodup)
    (q0 : Nat × List SEntry) (hf : sp.find? (fun p => p.1 = c) = some q0)
    (q : Nat × List SEntry) (hq : q ∈ ssEntriesModify f c sp) :
    (q ∈ sp ∧ q.1 ≠ c) ∨ q = (q0.1, f q0.2) := by
  induction sp with
  | nil => cases hf
  | cons p ps ih =>
    simp only [List.map_cons, List.nodup_cons] at hnd
    by_cases hp : p.1 = c
    · rw [List.find?_cons_of_pos _ (by simpa using hp)] at hf
      cases hf
      simp only [ssEntriesModify, if_pos hp] at hq
      rcases List.mem_cons.mp hq with rfl | hq'
      · exact Or.inr rfl
      · refine Or.inl ⟨List.mem_cons_of_mem _ hq', ?_⟩
        intro hqc
        exact hnd.1 (List.mem_map.mpr ⟨q, hq', by rw [hqc, hp]⟩)
    · rw [List.find?_cons_of_neg _ (by simpa using hp)] at hf
      simp only [ssEntriesModify, if_neg hp] at hq
      rcases List.mem_cons.mp hq with rfl | hq'
      · exact Or.inl ⟨List.mem_cons_self _ _, hp⟩
      · rcases ih hnd.2 hf hq' with ⟨hmem, hne⟩ | h
        · exact Or.inl ⟨List.mem_cons_of_mem _ hmem, hne⟩
        · exact Or.inr h

theorem removeComponent_absent_spec (w : World) (e : EntityId) (c : Nat) (a r : Nat)
    (hwf : w.WF) (hres : w.resolve e = .ok (a, r)) (hc : c ∉ w.storedComps e.index) :
    w.removeComponent e c = .ok (w, none) := by
  obtain ⟨er0, arch0, row0, her0, hgen0, hloc0, harch0, hrow0, hent0⟩ :=
    located_of_resolve w e a r hwf.2.1 hres
  have hcomp : w.storedComps e.index = arch0.compSet :=
    storedComps_eq_compSet w e.index a r er0 arch0 hwf her0 hloc0 harch0
  have hcnot : c ∉ arch0.compSet := by
    rw [← hcomp]
    exact hc
  have hgetD : w.archetypes.getD a emptyArch = arch0 := getD_of_get? harch0 _
  unfold World.removeComponent
  rw [hres]
  simp only [bind_ok, hgetD]
  rw [if_neg hcnot]

end Ecs

namespace Ecs

theorem removeComponent_present_spec (w : World) (e : EntityId) (c : Nat) (a r : Nat)
    (hwf : w.WF) (hres : w.resolve e = .ok (a, r)) (hcin : c ∈ w.storedComps e.index) :
    ∃ w' val, w.removeComponent e c = .ok (w', some val) ∧
      w.getValue e.index c = some val ∧ w'.WF ∧ FrameOK w w' e.index ∧
      w'.storedComps e.index = (w.storedComps e.index).erase c ∧
      w'.getCellInfo e.index c = none ∧
      (∀ c', c' ≠ c → w'.getCellInfo e.index c' = w.getCellInfo e.index c') ∧
      (∃ er', w'.ents.get? e.index = some er' ∧ er'.gen = e.generation ∧ er'.loc.isSome = true) := by
  obtain ⟨er0, arch0, row0, her0, hgen0, hloc0, harch0, hrow0, hent0⟩ :=
    located_of_resolve w e a r hwf.2.1 hres
  have hcomp : w.storedComps e.index = arch0.compSet :=
    storedComps_eq_compSet w e.index a r er0 arch0 hwf her0 hloc0 harch0
  have hcin0 : c ∈ arch0.compSet := by
    rw [← hcomp]
    exact hcin
  have hgetD : w.archetypes.getD a emptyArch = arch0 := getD_of_get? harch0 _
  have hgetDr : arch0.rows.getD r defaultRow = row0 := getD_of_get? hrow0 _
  have halt : a < w.archetypes.length := (List.get?_eq_some.mp harch0).1
  have hrc0 : w.rowCellsAt e.index = row0.cells :=
    rowCellsAt_eq w e.index a r er0 arch0 row0 her0 hloc0 harch0 hrow0
  have hrowOK0 : rowOK w arch0.compSet row0 :=
    hwf.1 arch0 (List.get?_mem harch0) row0 (List.get?_mem hrow0)
  obtain ⟨w1, t, hws⟩ : ∃ w1 t, w.getOrCreate (arch0.compSet.erase c) = (w1, t) :=
    ⟨_, _, rfl⟩
  have hw1 : (w.getOrCreate (arch0.compSet.erase c)).1 = w1 := by rw [hws]
  have hwt : (w.getOrCreate (arch0.compSet.erase c)).2 = t := by rw [hws]
  have hents1 : w1.ents = w.ents := by
    rw [← hw1]
    exact (getOrCreate_fields w _).1
  have hsparse1 : w1.sparse = w.sparse := by
    rw [← hw1]
    exact (getOrCreate_fields w _).2.1
  have hfree1 : w1.freelist = w.freelist := by
    rw [← hw1]
    exact (getOrCreate_fields w _).2.2.1
  have htick1 : w1.tick = w.tick := by
    rw [← hw1]
    exact (getOrCreate_fields w _).2.2.2.1
  have hstr1 : w1.strategy = w.strategy := by
    rw [← hw1]
    exact (getOrCreate_fields w _).2.2.2.2
  obtain ⟨tarch, ht1, htc, _⟩ := getOrCreate_target w (arch0.compSet.erase c)
  rw [hw1, hwt] at ht1
  have ha1 : w1.archetypes.get? a = some arch0 := by
    rw [← hw1, getOrCreate_get?_lt w _ a halt]
    exact harch0
  have hat : a ≠ t := by
    intro hq
    rw [hq, ht1] at ha1
    cases ha1
    have h2 := hcin0
    rw [htc] at h2
    exact Finset.not_mem_erase c _ h2
  have harchOK1 : w1.archRowsOK := by
    rw [← hw1]
    exact getOrCreate_archRowsOK w _ hwf.1
  have hfwd1 : w1.locFwd := by
    rw [← hw1]
    exact getOrCreate_locFwd w _ hwf.2.1
  have hbwd1 : w1.locBwd := by
    rw [← hw1]
    exact getOrCreate_locBwd w _ hwf.2.2.1
  have hkeys1 : w1.sparseKeysOK := by
    unfold World.sparseKeysOK
    rw [hsparse1, hstr1]
    exact hwf.2.2.2.1
  have hfreeOK1 : w1.freelistOK := by
    unfold World.freelistOK
    rw [hfree1, hents1]
    exact hwf.2.2.2.2.2.2
  have hss1 : ∀ c' i, w1.ssGet c' i = w.ssGet c' i := by
    intro c' i
    unfold World.ssGet
    rw [hsparse1]
  have hrc1 : ∀ j, w1.rowCellsAt j = w.rowCellsAt j := by
    intro j
    rw [← hw1]
    exact getOrCreate_rowCellsAt w _ j
  have harch1get : ∀ b arch', w1.archetypes.get? b = some arch' →
      w.archetypes.get? b = some arch' ∨
        (arch' = { compSet := arch0.compSet.erase c, rows := [] } ∧
          w.archetypes.get? b = none) := by
    intro b arch' hb
    rw [← hw1] at hb
    exact getOrCreate_get?_inv w _ b arch' hb
  have harch1lt : ∀ b, b < w.archetypes.length →
      w1.archetypes.get? b = w.archetypes.get? b := by
    intro b hb
    rw [← hw1]
    exact getOrCreate_get?_lt w _ b hb
  -- sparse components of the migrating entity all sit inside its current set
  have hsparseIn : ∀ p, p ∈ w.sparse → ∀ en, en ∈ p.2 → en.entity = e.index →
      p.1 ∈ arch0.compSet := by
    intro p hp en hen hene
    obtain ⟨er', her', a', r', hloc', arch', ha', hcc⟩ := (hwf.2.2.2.2.1 p hp).2 en hen
    rw [hene, her0] at her'
    cases her'
    rw [hloc0] at hloc'
    cases hloc'
    rw [harch0] at ha'
    cases ha'
    exact hcc
  have hsC2w : ∀ c' ∈ arch0.compSet, w.strategy c' = Strategy.sparseSet →
      (w.ssGet c' e.index).isSome = true := by
    intro c' hc' hst'
    exact hwf.2.2.2.2.2.1 e.index er0 her0 a r hloc0 arch0 harch0 c' hc' hst'
  cases hst : w.strategy c with
  | table =>
    have hccells : c ∈ row0.cells.map Cell.comp := by
      have : c ∈ w.tableCompsOf arch0.compSet := by
        unfold World.tableCompsOf
        exact Finset.mem_filter.mpr ⟨hcin0, hst⟩
      rw [← hrowOK0.2] at this
      exact List.mem_toFinset.mp this
    obtain ⟨cell0, hcell0, hcell0c⟩ := List.mem_map.mp hccells
    have hfind0 : row0.cells.find? (fun cl => cl.comp = c) = some cell0 :=
      find?_key_eq_some Cell.comp _ hrowOK0.1 hcell0 hcell0c
    have heq : w.removeComponent e c = .ok (w1.migrate e.index a r t
        (row0.cells.filter (fun cl => cl.comp ≠ c)), some cell0.value) := by
      unfold World.removeComponent
      rw [hres]
      simp only [bind_ok, hgetD]
      rw [if_pos hcin0, hws]
      simp only [hst, hgetDr, ite_true]
      rw [hfind0]
      rfl
    have hgetValue : w.getValue e.index c = some cell0.value := by
      unfold World.getValue World.getCellInfo
      rw [if_pos hst, hrc0, hfind0]
      rfl
    -- membership facts about the filtered row
    have hmem0 : ∀ x, (∃ cl, cl ∈ row0.cells ∧ cl.comp = x) ↔
        (x ∈ arch0.compSet ∧ w.strategy x = Strategy.table) := by
      intro x
      constructor
      · rintro ⟨cl, hcl, hclx⟩
        have hx : x ∈ (row0.cells.map Cell.comp).toFinset :=
          List.mem_toFinset.mpr (List.mem_map.mpr ⟨cl, hcl, hclx⟩)
        rw [hrowOK0.2] at hx
        exact Finset.mem_filter.mp hx
      · rintro ⟨hx1, hx2⟩
        have hx : x ∈ (row0.cells.map Cell.comp).toFinset := by
          rw [hrowOK0.2]
          exact Finset.mem_filter.mpr ⟨hx1, hx2⟩
        obtain ⟨cl, hcl, hclx⟩ := List.mem_map.mp (List.mem_toFinset.mp hx)
        exact ⟨cl, hcl, hclx⟩
    have hsEmig : ∀ p ∈ w1.sparse, (p.2.map SEntry.entity).Nodup ∧ ∀ en ∈ p.2,
        (en.entity ≠ e.index → ∃ er, w1.ents.get? en.entity = some er ∧ ∃ a' r',
          er.loc = some (a', r') ∧ ∃ arch', w1.archetypes.get? a' = some arch' ∧
            p.1 ∈ arch'.compSet) ∧
        (en.entity = e.index → p.1 ∈ tarch.compSet) := by
      intro p hp
      rw [hsparse1] at hp
      refine ⟨(hwf.2.2.2.2.1 p hp).1, ?_⟩
      intro en hen
      constructor
      · intro hne
        obtain ⟨er', her', a', r', hloc', arch', ha', hcc⟩ :=
          (hwf.2.2.2.2.1 p hp).2 en hen
        have halt' : a' < w.archetypes.length := (List.get?_eq_some.mp ha').1
        exact ⟨er', by rw [hents1]; exact her', a', r', hloc', arch',
          by rw [harch1lt a' halt']; exact ha', hcc⟩
      · intro hene
        have hpc : p.1 ≠ c := by
          intro hqq
          have := hwf.2.2.2.1.2 p hp
          rw [hqq, hst] at this
          cases this
        rw [htc]
        exact Finset.mem_erase.mpr ⟨hpc, hsparseIn p hp en hen hene⟩
    have hsC1mig : ∀ i er, w1.ents.get? i = some er → i ≠ e.index →
        ∀ a' r', er.loc = some (a', r') → ∀ arch', w1.archetypes.get? a' = some arch' →
        ∀ c' ∈ arch'.compSet, w1.strategy c' = Strategy.sparseSet →
          (w1.ssGet c' i).isSome = true := by
      intro i er hi hine a' r' hloc' arch' ha' c' hc' hst'
      rw [hents1] at hi
      rw [hstr1] at hst'
      rcases harch1get a' arch' ha' with hold | ⟨rfl, hnone⟩
      · rw [hss1]
        exact hwf.2.2.2.2.2.1 i er hi a' r' hloc' arch' hold c' hc' hst'
      · obtain ⟨arch2, ha2, _, _, _⟩ := hwf.2.1 i er hi a' r' hloc'
        rw [hnone] at ha2
        cases ha2
    have hsC2mig : ∀ c' ∈ tarch.compSet, w1.strategy c' = Strategy.sparseSet →
        (w1.ssGet c' e.index).isSome = true := by
      intro c' hc' hst'
      rw [hstr1] at hst'
      rw [htc] at hc'
      obtain ⟨hne, hcc⟩ := Finset.mem_erase.mp hc'
      rw [hss1]
      exact hsC2w c' hcc hst'
    have hnew : rowOK w1 tarch.compSet
        (TableRow.mk e.index (row0.cells.filter (fun cl => cl.comp ≠ c))) := by
      constructor
      · exact ((List.filter_sublist row0.cells).map Cell.comp).nodup hrowOK0.1
      · show ((row0.cells.filter (fun cl => cl.comp ≠ c)).map Cell.comp).toFinset =
          w1.tableCompsOf tarch.compSet
        rw [htc]
        unfold World.tableCompsOf
        rw [hstr1]
        ext x
        simp only [List.mem_toFinset, List.mem_map, List.mem_filter, Finset.mem_filter,
          Finset.mem_erase, decide_eq_true_eq]
        constructor
        · rintro ⟨cl, ⟨hcl, hne⟩, rfl⟩
          obtain ⟨hx1, hx2⟩ := (hmem0 cl.comp).mp ⟨cl, hcl, rfl⟩
          exact ⟨⟨hne, hx1⟩, hx2⟩
        · rintro ⟨⟨hne, hx1⟩, hx2⟩
          obtain ⟨cl, hcl, hclx⟩ := (hmem0 x).mpr ⟨hx1, hx2⟩
          exact ⟨cl, ⟨hcl, by rw [hclx]; exact hne⟩, hclx⟩
    obtain ⟨hsp, hfl, htk, hstrM, hlenM, hME, hMJ, hMT, hMA, hMB, hMAL⟩ :=
      migrate_spec w1 e.index a r t (row0.cells.filter (fun cl => cl.comp ≠ c))
        tarch arch0 row0 ht1 ha1 hat hrow0
    obtain ⟨hgenF, hliveF, hrcF, hrcE, hMEc⟩ :=
      migrate_frames w1 e.index a r t (row0.cells.filter (fun cl => cl.comp ≠ c))
        tarch arch0 row0 ht1 ha1 hat hrow0 hent0 hfwd1 hbwd1
    have hwf' := migrate_WF w1 e.index a r t (row0.cells.filter (fun cl => cl.comp ≠ c))
      tarch arch0 row0 ht1 ha1 hat hrow0 hent0
      harchOK1 hfwd1 hbwd1 hkeys1 hfreeOK1 hsEmig hsC1mig hsC2mig hnew
    refine ⟨_, cell0.value, heq, hgetValue, hwf', ?_, ?_, ?_, ?_, ?_⟩
    · -- FrameOK
      refine ⟨by rw [hstrM, hstr1], by rw [htk, htick1], by rw [hfl, hfree1],
        by rw [hlenM, hents1], ?_, ?_, ?_, ?_⟩
      · intro j
        rw [hgenF j, hents1]
      · intro j
        rw [hliveF j, isLive_congr w w1 j hents1]
      · intro j hj c'
        refine getCellInfo_congr w _ j (by rw [hstrM, hstr1]) ?_ ?_ c'
        · rw [hrcF j hj, hrc1 j]
        · intro c''
          unfold World.ssGet
          rw [hsp, hsparse1]
      · intro j hj
        refine storedComps_congr w _ j ?_ ?_ ?_
        · rw [hrcF j hj, hrc1 j]
        · intro c''
          unfold World.ssGet
          rw [hsp, hsparse1]
        · rw [hsp, hsparse1]
    · -- stored component set loses `c`
      have hE' : (w1.migrate e.index a r t
          (row0.cells.filter (fun cl => cl.comp ≠ c))).ents.get? e.index =
          some { gen := er0.gen, loc := some (t, tarch.rows.length) } := by
        rw [hMEc, hents1, her0]
        rfl
      rw [storedComps_eq_compSet _ e.index t tarch.rows.length _ _ hwf' hE' rfl hMT]
      rw [htc, hcomp]
    · -- the removed component is gone
      unfold World.getCellInfo
      rw [hstrM, hstr1]
      rw [if_pos hst, hrcE]
      have hnone : (row0.cells.filter (fun cl => cl.comp ≠ c)).find?
          (fun cl => cl.comp = c) = none := by
        rw [List.find?_eq_none]
        intro x hx
        have := List.mem_filter.mp hx
        simpa using this.2
      rw [hnone]
      rfl
    · -- other components unchanged
      intro c' hcc
      unfold World.getCellInfo
      rw [hstrM, hstr1]
      by_cases hst' : w.strategy c' = Strategy.table
      · rw [if_pos hst', if_pos hst', hrcE, hrc0]
        rw [find?_comp_filter row0.cells c c' hcc]
      · rw [if_neg hst', if_neg hst']
        have hssm : (w1.migrate e.index a r t
            (row0.cells.filter (fun cl => cl.comp ≠ c))).ssGet c' e.index =
            w.ssGet c' e.index := by
          unfold World.ssGet
          rw [hsp, hsparse1]
        rw [hssm]
    · -- the entity still resolves
      refine ⟨{ gen := er0.gen, loc := some (t, tarch.rows.length) }, ?_, hgen0, rfl⟩
      rw [hMEc, hents1, her0]
      rfl
  | sparseSet =>
    -- the entity's sparse entry for `c`
    have hsomeE : (w.ssGet c e.index).isSome = true := hsC2w c hcin0 hst
    obtain ⟨q, hfq⟩ : ∃ q, w.sparse.find? (fun p => p.1 = c) = some q := by
      rw [ssGet_eq_find] at hsomeE
      cases hq : w.sparse.find? (fun p => p.1 = c) with
      | none =>
        rw [hq] at hsomeE
        simp at hsomeE
      | some q => exact ⟨q, rfl⟩
    obtain ⟨hqmem, hq1⟩ := find?_key_mem Prod.fst _ hfq
    obtain ⟨en0, hen0⟩ : ∃ en0, q.2.find? (fun en => en.entity = e.index) = some en0 := by
      rw [ssGet_eq_find, hfq] at hsomeE
      simp only [Option.some_bind] at hsomeE
      cases hq : q.2.find? (fun en => en.entity = e.index) with
      | none =>
        rw [hq] at hsomeE
        simp at hsomeE
      | some en0 => exact ⟨en0, rfl⟩
    have hval : w.ssGet c e.index = some en0 := by
      rw [ssGet_eq_find, hfq]
      simp only [Option.some_bind]
      exact hen0
    have hq2nd : (q.2.map SEntry.entity).Nodup := (hwf.2.2.2.2.1 q hqmem).1
    set sp2 := ssEntriesModify (fun es => removeEntryList es e.index) c w1.sparse with hsp2def
    set w2 : World := { w1 with sparse := sp2 } with hw2def
    have heq : w.removeComponent e c =
        .ok (w2.migrate e.index a r t row0.cells, some en0.value) := by
      unfold World.removeComponent
      rw [hres]
      simp only [bind_ok, hgetD]
      rw [if_pos hcin0, hws]
      simp only [hst, hgetDr]
      rw [hval]
      rfl
    have hgetValue : w.getValue e.index c = some en0.value := by
      unfold World.getValue World.getCellInfo
      rw [if_neg (by rw [hst]; intro hq; cases hq), hval]
      rfl
    have hsp2 : w2.sparse = ssEntriesModify
        (fun es => removeEntryList es e.index) c w.sparse := by
      show sp2 = _
      rw [hsp2def, hsparse1]
    have hents2 : w2.ents = w.ents := hents1
    have htick2 : w2.tick = w.tick := htick1
    have hfree2 : w2.freelist = w.freelist := hfree1
    have hstr2 : w2.strategy = w.strategy := hstr1
    have ht2 : w2.archetypes.get? t = some tarch := ht1
    have ha2 : w2.archetypes.get? a = some arch0 := ha1
    have hfwd2 : w2.locFwd := hfwd1
    have hbwd2 : w2.locBwd := hbwd1
    have harchOK2 : w2.archRowsOK := harchOK1
    have hrc2 : ∀ j, w2.rowCellsAt j = w.rowCellsAt j := fun j => hrc1 j
    have hssOther : ∀ c' i, c' ≠ c → w2.ssGet c' i = w.ssGet c' i := by
      intro c' i hcc
      unfold World.ssGet
      rw [hsp2, ssEntriesModify_find?_other _ _ _ _ hcc]
    have hssCj : ∀ i, i ≠ e.index → w2.ssGet c i = w.ssGet c i := by
      intro i hine
      rw [ssGet_eq_find, ssGet_eq_find, hsp2, ssEntriesModify_find?_found _ _ _ q hfq, hfq]
      simp only [Option.some_bind]
      exact find?_removeEntryList q.2 e.index i hine hq2nd
    have hssCE : w2.ssGet c e.index = none := by
      rw [ssGet_eq_find, hsp2, ssEntriesModify_find?_found _ _ _ q hfq]
      simp only [Option.some_bind]
      exact find?_removeEntryList_self q.2 e.index hq2nd
    have hkeys2 : w2.sparseKeysOK := by
      constructor
      · rw [hsp2, ssEntriesModify_keys_found _ _ _ q hfq]
        exact hwf.2.2.2.1.1
      · intro p hp
        rw [hsp2] at hp
        rcases mem_ssEntriesModify _ _ _ _ hp with hold | ⟨q', hq', hqc, rfl⟩ | rfl
        · rw [hstr2]
          exact hwf.2.2.2.1.2 p hold
        · rw [hstr2]
          simp only
          rw [hqc]
          exact hst
        · rw [hstr2]
          exact hst
    have hfreeOK2 : w2.freelistOK := by
      unfold World.freelistOK
      rw [hfree2, hents2]
      exact hwf.2.2.2.2.2.2
    have hsEmig : ∀ p ∈ w2.sparse, (p.2.map SEntry.entity).Nodup ∧ ∀ en ∈ p.2,
        (en.entity ≠ e.index → ∃ er, w2.ents.get? en.entity = some er ∧ ∃ a' r',
          er.loc = some (a', r') ∧ ∃ arch', w2.archetypes.get? a' = some arch' ∧
            p.1 ∈ arch'.compSet) ∧
        (en.entity = e.index → p.1 ∈ tarch.compSet) := by
      have hentry : ∀ (p : Nat × List SEntry), p ∈ w.sparse → ∀ en, en ∈ p.2 →
          en.entity ≠ e.index → ∃ er, w2.ents.get? en.entity = some er ∧ ∃ a' r',
            er.loc = some (a', r') ∧ ∃ arch', w2.archetypes.get? a' = some arch' ∧
              p.1 ∈ arch'.compSet := by
        intro p hp en hen hne
        obtain ⟨er', her', a', r', hloc', arch', ha', hcc⟩ :=
          (hwf.2.2.2.2.1 p hp).2 en hen
        have halt' : a' < w.archetypes.length := (List.get?_eq_some.mp ha').1
        refine ⟨er', by rw [hents2]; exact her', a', r', hloc', arch', ?_, hcc⟩
        show w1.archetypes.get? a' = some arch'
        rw [harch1lt a' halt']
        exact ha'
      intro p hp
      rw [hsp2] at hp
      rcases mem_ssEntriesModify_found _ _ _ hwf.2.2.2.1.1 q hfq p hp with ⟨hold, hpne⟩ | rfl
      · refine ⟨(hwf.2.2.2.2.1 p hold).1, ?_⟩
        intro en hen
        refine ⟨hentry p hold en hen, ?_⟩
        intro hene
        rw [htc]
        exact Finset.mem_erase.mpr ⟨hpne, hsparseIn p hold en hen hene⟩
      · constructor
        · simp only
          exact nodup_removeEntryList _ _ hq2nd
        · intro en hen
          simp only at hen
          have henq := mem_removeEntryList hen
          constructor
          · intro hne
            exact hentry q hqmem en henq hne
          · intro hene
            exact absurd hene (removeEntryList_no_entity q.2 e.index hq2nd en hen)
    have hsC1mig : ∀ i er, w2.ents.get? i = some er → i ≠ e.index →
        ∀ a' r', er.loc = some (a', r') → ∀ arch', w2.archetypes.get? a' = some arch' →
        ∀ c' ∈ arch'.compSet, w2.strategy c' = Strategy.sparseSet →
          (w2.ssGet c' i).isSome = true := by
      intro i er hi hine a' r' hloc' arch' ha' c' hc' hst'
      rw [hents2] at hi
      rw [hstr2] at hst'
      have holdSome : (w.ssGet c' i).isSome = true := by
        rcases harch1get a' arch' ha' with hold | ⟨rfl, hnone⟩
        · exact hwf.2.2.2.2.2.1 i er hi a' r' hloc' arch' hold c' hc' hst'
        · obtain ⟨arch2, ha2', _, _, _⟩ := hwf.2.1 i er hi a' r' hloc'
          rw [hnone] at ha2'
          cases ha2'
      by_cases hcc : c' = c
      · subst hcc
        rw [hssCj i hine]
        exact holdSome
      · rw [hssOther c' i hcc]
        exact holdSome
    have hsC2mig : ∀ c' ∈ tarch.compSet, w2.strategy c' = Strategy.sparseSet →
        (w2.ssGet c' e.index).isSome = true := by
      intro c' hc' hst'
      rw [hstr2] at hst'
      rw [htc] at hc'
      obtain ⟨hne, hcc⟩ := Finset.mem_erase.mp hc'
      rw [hssOther c' e.index hne]
      exact hsC2w c' hcc hst'
    have hnew : rowOK w2 tarch.compSet (TableRow.mk e.index row0.cells) := by
      constructor
      · exact hrowOK0.1
      · show (row0.cells.map Cell.comp).toFinset = w2.tableCompsOf tarch.compSet
        rw [htc]
        unfold World.tableCompsOf
        rw [hstr2]
        rw [Finset.filter_erase]
        rw [Finset.erase_eq_self.mpr (by
          intro hq
          have := (Finset.mem_filter.mp hq).2
          rw [hst] at this
          cases this)]
        rw [hrowOK0.2]
        rfl
    obtain ⟨hsp, hfl, htk, hstrM, hlenM, hME, hMJ, hMT, hMA, hMB, hMAL⟩ :=
      migrate_spec w2 e.index a r t row0.cells tarch arch0 row0 ht2 ha2 hat hrow0
    obtain ⟨hgenF, hliveF, hrcF, hrcE, hMEc⟩ :=
      migrate_frames w2 e.index a r t row0.cells tarch arch0 row0 ht2 ha2 hat hrow0 hent0
        hfwd2 hbwd2
    have hwf' := migrate_WF w2 e.index a r t row0.cells tarch arch0 row0 ht2 ha2 hat
      hrow0 hent0 harchOK2 hfwd2 hbwd2 hkeys2 hfreeOK2 hsEmig hsC1mig hsC2mig hnew
    have hssM : ∀ c' i, (w2.migrate e.index a r t row0.cells).ssGet c' i =
        w2.ssGet c' i := by
      intro c' i
      unfold World.ssGet
      rw [hsp]
    refine ⟨_, en0.value, heq, hgetValue, hwf', ?_, ?_, ?_, ?_, ?_⟩
    · -- FrameOK
      refine ⟨by rw [hstrM, hstr2], by rw [htk, htick2], by rw [hfl, hfree2],
        by rw [hlenM, hents2], ?_, ?_, ?_, ?_⟩
      · intro j
        rw [hgenF j, hents2]
      · intro j
        rw [hliveF j, isLive_congr w w2 j hents2]
      · intro j hj c'
        refine getCellInfo_congr w _ j (by rw [hstrM, hstr2]) ?_ ?_ c'
        · rw [hrcF j hj, hrc2 j]
        · intro c''
          rw [hssM]
          by_cases hcc : c'' = c
          · rw [hcc, hssCj j hj]
          · rw [hssOther c'' j hcc]
      · intro j hj
        refine storedComps_congr w _ j ?_ ?_ ?_
        · rw [hrcF j hj, hrc2 j]
        · intro c''
          rw [hssM]
          by_cases hcc : c'' = c
          · rw [hcc, hssCj j hj]
          · rw [hssOther c'' j hcc]
        · rw [hsp, hsp2, ssEntriesModify_keys_found _ _ _ q hfq]
    · -- stored component set loses `c`
      have hE' : (w2.migrate e.index a r t row0.cells).ents.get? e.index =
          some { gen := er0.gen, loc := some (t, tarch.rows.length) } := by
        rw [hMEc, hents2, her0]
        rfl
      rw [storedComps_eq_compSet _ e.index t tarch.rows.length _ _ hwf' hE' rfl hMT]
      rw [htc, hcomp]
    · -- the removed component is gone
      unfold World.getCellInfo
      rw [hstrM, hstr2]
      rw [if_neg (by rw [hst]; intro hq; cases hq)]
      rw [hssM, hssCE]
      rfl
    · -- other components unchanged
      intro c' hcc
      unfold World.getCellInfo
      rw [hstrM, hstr2]
      by_cases hst' : w.strategy c' = Strategy.table
      · rw [if_pos hst', if_pos hst', hrcE, hrc0]
      · rw [if_neg hst', if_neg hst']
        rw [hssM, hssOther c' e.index hcc]
    · -- the entity still resolves
      refine ⟨{ gen := er0.gen, loc := some (t, tarch.rows.length) }, ?_, hgen0, rfl⟩
      rw [hMEc, hents2, her0]
      rfl

end Ecs

namespace Ecs

theorem removeRow_spec (w : World) (a r : Nat) (arch : Archetype) (row : TableRow)
    (ha : w.archetypes.get? a = some arch) (hrow : arch.rows.get? r = some row) :
    (w.removeRow a r).sparse = w.sparse ∧
    (w.removeRow a r).freelist = w.freelist ∧
    (w.removeRow a r).tick = w.tick ∧
    (w.removeRow a r).strategy = w.strategy ∧
    (w.removeRow a r).ents.length = w.ents.length ∧
    ((w.removeRow a r).archetypes.get? a = some { arch with rows := swapRemove arch.rows r }) ∧
    (∀ b, b ≠ a → (w.removeRow a r).archetypes.get? b = w.archetypes.get? b) ∧
    (w.removeRow a r).archetypes.length = w.archetypes.length ∧
    (r + 1 = arch.rows.length → (w.removeRow a r).ents = w.ents) ∧
    (∀ lastRow, r + 1 ≠ arch.rows.length →
      arch.rows.get? (arch.rows.length - 1) = some lastRow →
      (w.removeRow a r).ents =
        listModify (fun er => { er with loc := some (a, r) }) lastRow.entity w.ents) := by
  have hrlt : r < arch.rows.length := (List.get?_eq_some.mp hrow).1
  by_cases hlast : r + 1 = arch.rows.length
  · have hrr : w.removeRow a r = w.setRows a (swapRemove arch.rows r) := by
      unfold World.removeRow
      rw [ha]
      simp only [hlast, ite_true]
    rw [hrr]
    refine ⟨rfl, rfl, rfl, rfl, rfl, ?_, ?_, ?_, ?_, ?_⟩
    · rw [setRows_arch_get?, if_pos rfl, ha]
      rfl
    · intro b hb
      rw [setRows_arch_get?, if_neg hb]
    · show (listModify _ a w.archetypes).length = _
      rw [length_listModify]
    · intro _
      rfl
    · intro lastRow hne _
      exact absurd hlast hne
  · obtain ⟨lastRow0, hlast0⟩ : ∃ x, arch.rows.get? (arch.rows.length - 1) = some x := by
      cases h : arch.rows.get? (arch.rows.length - 1) with
      | none =>
        rw [List.get?_eq_none] at h
        omega
      | some x => exact ⟨x, rfl⟩
    have hgl : arch.rows.getLast? = some lastRow0 := by
      rw [List.getLast?_eq_get?, hlast0]
    have hrr : w.removeRow a r =
        (w.setRows a (swapRemove arch.rows r)).setLoc lastRow0.entity (some (a, r)) := by
      unfold World.removeRow
      rw [ha]
      simp only [eq_false hlast, ite_false, hgl]
    rw [hrr]
    refine ⟨rfl, rfl, rfl, rfl, setLoc_ents_length _ _ _, ?_, ?_, ?_, ?_, ?_⟩
    · rw [(setLoc_fields _ _ _).1, setRows_arch_get?, if_pos rfl, ha]
      rfl
    · intro b hb
      rw [(setLoc_fields _ _ _).1, setRows_arch_get?, if_neg hb]
    · rw [(setLoc_fields _ _ _).1]
      show (listModify _ a w.archetypes).length = _
      rw [length_listModify]
    · intro h
      exact absurd h hlast
    · intro lastRow hne hl
      have hlr : lastRow = lastRow0 := by
        rw [hlast0] at hl
        exact (Option.some.inj hl).symm
      subst hlr
      rfl

end Ecs

namespace Ecs

theorem despawn_spec (w : World) (e : EntityId) (a r : Nat)
    (hwf : w.WF) (hres : w.resolve e = .ok (a, r)) :
    ∃ w', w.despawn e = .ok w' ∧ w'.WF ∧
      w'.strategy = w.strategy ∧ w'.tick = w.tick ∧
      w'.freelist = e.index :: w.freelist ∧
      w'.ents.length = w.ents.length ∧
      (∃ er0, w.ents.get? e.index = some er0 ∧ er0.gen = e.generation ∧
        w'.ents.get? e.index = some { gen := er0.gen + 1, loc := none }) ∧
      (∀ j, j ≠ e.index → (w'.ents.get? j).map EntityRec.gen =
        (w.ents.get? j).map EntityRec.gen) ∧
      (∀ j, j ≠ e.index → w'.isLive j = w.isLive j) ∧
      w'.isLive e.index = false ∧
      (∀ j c', j ≠ e.index → w'.getCellInfo j c' = w.getCellInfo j c') ∧
      (∀ j, j ≠ e.index → w'.storedComps j = w.storedComps j) ∧
      w'.storedComps e.index = ∅ := by
  obtain ⟨er0, arch0, row0, her0, hgen0, hloc0, harch0, hrow0, hent0⟩ :=
    located_of_resolve w e a r hwf.2.1 hres
  have hrlt : r < arch0.rows.length := (List.get?_eq_some.mp hrow0).1
  set sp1 := w.sparse.map (fun p => (p.1, removeEntryList p.2 e.index)) with hsp1def
  set w1 : World := { w with sparse := sp1 } with hw1def
  have ha1 : w1.archetypes.get? a = some arch0 := harch0
  obtain ⟨hRsp, hRfl, hRtk, hRstr, hRlen, hRa, hRb, hRal, hRentsA, hRentsB⟩ :=
    removeRow_spec w1 a r arch0 row0 ha1 hrow0
  set w2 : World := w1.removeRow a r with hw2def
  set w3 : World := w2.setLoc e.index none with hw3def
  set ents4 := listModify (fun er => { er with gen := er.gen + 1 }) e.index w3.ents with hents4def
  set w4 : World := { w3 with ents := ents4 } with hw4def
  set wfin : World := { w4 with freelist := e.index :: w4.freelist } with hwfindef
  have heq : w.despawn e = .ok wfin := by
    unfold World.despawn
    rw [hres]
    simp only [bind_ok]
  have hfsp : wfin.sparse = sp1 := by
    show w2.sparse = sp1
    rw [hRsp]
  have hffl : wfin.freelist = e.index :: w.freelist := by
    show e.index :: w2.freelist = _
    rw [hRfl]
  have htk : wfin.tick = w.tick := hRtk.trans rfl
  have hstr : wfin.strategy = w.strategy := hRstr.trans rfl
  have harchget : ∀ b, wfin.archetypes.get? b =
      if b = a then some { arch0 with rows := swapRemove arch0.rows r }
      else w.archetypes.get? b := by
    intro b
    by_cases hb : b = a
    · rw [if_pos hb, hb]
      exact hRa
    · rw [if_neg hb]
      exact (hRb b hb).trans rfl
  have harchA : wfin.archetypes.get? a =
      some { arch0 with rows := swapRemove arch0.rows r } := by
    rw [harchget, if_pos rfl]
  have hentsfin : wfin.ents = listModify (fun er => { er with gen := er.gen + 1 }) e.index
      (listModify (fun er => { er with loc := none }) e.index w2.ents) := rfl
  have hlen : wfin.ents.length = w.ents.length := by
    rw [hentsfin, length_listModify, length_listModify]
    exact hRlen.trans rfl
  have hw2Desc : (r + 1 = arch0.rows.length ∧ w2.ents = w.ents) ∨
      (∃ lastRow0, r + 1 ≠ arch0.rows.length ∧
        arch0.rows.get? (arch0.rows.length - 1) = some lastRow0 ∧
        w2.ents = listModify (fun er => { er with loc := some (a, r) })
          lastRow0.entity w.ents) := by
    by_cases hlast : r + 1 = arch0.rows.length
    · exact Or.inl ⟨hlast, (hRentsA hlast).trans rfl⟩
    · obtain ⟨lastRow0, hlr0⟩ : ∃ x, arch0.rows.get? (arch0.rows.length - 1) = some x := by
        cases h : arch0.rows.get? (arch0.rows.length - 1) with
        | none =>
          rw [List.get?_eq_none] at h
          omega
        | some x => exact ⟨x, rfl⟩
      exact Or.inr ⟨lastRow0, hlast, hlr0, (hRentsB lastRow0 hlast hlr0).trans rfl⟩
  have hw2E : w2.ents.get? e.index = some er0 := by
    rcases hw2Desc with ⟨hlast, hw2e⟩ | ⟨lastRow0, hlast, hlr0, hw2e⟩
    · rw [hw2e, her0]
    · obtain ⟨erL, herL, hlocL⟩ := hwf.2.2.1 a arch0 harch0 _ lastRow0 hlr0
      have hLne : e.index ≠ lastRow0.entity := by
        intro hq
        rw [← hq, her0] at herL
        cases herL
        rw [hloc0] at hlocL
        have := Option.some.inj hlocL
        have hr2 : r = arch0.rows.length - 1 := congrArg Prod.snd this
        omega
      rw [hw2e, get?_listModify_ne _ _ _ _ hLne, her0]
  have hE : wfin.ents.get? e.index = some { gen := er0.gen + 1, loc := none } := by
    rw [hentsfin, get?_listModify_self, get?_listModify_self, hw2E]
    rfl
  have hJ : ∀ j, j ≠ e.index →
      (wfin.ents.get? j = w.ents.get? j ∧
        (r + 1 = arch0.rows.length ∨ ∃ lastRow0,
          arch0.rows.get? (arch0.rows.length - 1) = some lastRow0 ∧
            j ≠ lastRow0.entity)) ∨
      (∃ lastRow0 erL, r + 1 ≠ arch0.rows.length ∧
        arch0.rows.get? (arch0.rows.length - 1) = some lastRow0 ∧ j = lastRow0.entity ∧
        w.ents.get? j = some erL ∧ erL.loc = some (a, arch0.rows.length - 1) ∧
        wfin.ents.get? j = some { gen := erL.gen, loc := some (a, r) }) := by
    intro j hj
    have houter : wfin.ents.get? j = w2.ents.get? j := by
      rw [hentsfin, get?_listModify_ne _ _ _ _ hj, get?_listModify_ne _ _ _ _ hj]
    rcases hw2Desc with ⟨hlast, hw2e⟩ | ⟨lastRow0, hlast, hlr0, hw2e⟩
    · exact Or.inl ⟨by rw [houter, hw2e], Or.inl hlast⟩
    · by_cases hjL : j = lastRow0.entity
      · obtain ⟨erL, herL, hlocL⟩ := hwf.2.2.1 a arch0 harch0 _ lastRow0 hlr0
        refine Or.inr ⟨lastRow0, erL, hlast, hlr0, hjL, by rw [hjL]; exact herL,
          hlocL, ?_⟩
        rw [houter, hw2e, hjL, get?_listModify_self, herL]
        rfl
      · refine Or.inl ⟨?_, Or.inr ⟨lastRow0, hlr0, hjL⟩⟩
        rw [houter, hw2e, get?_listModify_ne _ _ _ _ hjL]
  -- sparse storage lookups
  have hkeysS : sp1.map Prod.fst = w.sparse.map Prod.fst := by
    rw [hsp1def, List.map_map]
    rfl
  have hssJ : ∀ c i, i ≠ e.index → wfin.ssGet c i = w.ssGet c i := by
    intro c i hi
    rw [ssGet_eq_find, ssGet_eq_find, hfsp, hsp1def,
      find?_key_map Prod.fst w.sparse (fun p => (p.1, removeEntryList p.2 e.index)) (fun x => rfl) c]
    cases hf : w.sparse.find? (fun p => p.1 = c) with
    | none => rfl
    | some p =>
      simp only [Option.map_some', Option.some_bind]
      exact find?_removeEntryList p.2 e.index i hi (hwf.2.2.2.2.1 p (find?_key_mem Prod.fst _ hf).1).1
  have hssE0 : ∀ c, wfin.ssGet c e.index = none := by
    intro c
    rw [ssGet_eq_find, hfsp, hsp1def,
      find?_key_map Prod.fst w.sparse (fun p => (p.1, removeEntryList p.2 e.index)) (fun x => rfl) c]
    cases hf : w.sparse.find? (fun p => p.1 = c) with
    | none => rfl
    | some p =>
      simp only [Option.map_some', Option.some_bind]
      exact find?_removeEntryList_self p.2 e.index (hwf.2.2.2.2.1 p (find?_key_mem Prod.fst _ hf).1).1
  -- row cells of the other entities are preserved
  have hrcJ : ∀ j, j ≠ e.index → wfin.rowCellsAt j = w.rowCellsAt j := by
    intro j hj
    rcases hJ j hj with ⟨hsame, hside⟩ | ⟨lastRow0, erL, hlast, hlr0, hjL, herLw, hlocL, hnewrec⟩
    · cases hg : w.ents.get? j with
      | none =>
        simp only [World.rowCellsAt, hsame, hg]
      | some er =>
        cases hl : er.loc with
        | none => simp only [World.rowCellsAt, hsame, hg, hl]
        | some br =>
          obtain ⟨b, r'⟩ := br
          obtain ⟨arch2, hb2, row2, hr2, hre2⟩ := hwf.2.1 j er hg b r' hl
          rw [rowCellsAt_eq w j b r' er arch2 row2 hg hl hb2 hr2]
          have hg' : wfin.ents.get? j = some er := by rw [hsame, hg]
          by_cases hba : b = a
          · subst hba
            rw [hb2] at harch0
            cases harch0
            have hrr : r' ≠ r := by
              intro hq
              rw [hq, hrow0] at hr2
              cases hr2
              exact hj (hre2.symm.trans hent0)
            have hr'lt : r' < arch0.rows.length := (List.get?_eq_some.mp hr2).1
            have hrlast : r' ≠ arch0.rows.length - 1 := by
              rcases hside with hlast | ⟨lastRow0, hlr0, hjL⟩
              · omega
              · intro hq
                rw [hq, hlr0] at hr2
                cases hr2
                exact hjL hre2.symm
            have hr'lt1 : r' < arch0.rows.length - 1 := by omega
            refine rowCellsAt_eq wfin j b r' er _ row2 hg' hl harchA ?_
            simp only
            rw [get?_swapRemove _ _ _ hrlt hr'lt1, if_neg hrr]
            exact hr2
          · refine rowCellsAt_eq wfin j b r' er arch2 row2 hg' hl ?_ hr2
            rw [harchget, if_neg hba]
            exact hb2
    · rw [rowCellsAt_eq w j a (arch0.rows.length - 1) erL arch0 lastRow0 herLw hlocL
        harch0 hlr0]
      have hrlt1 : r < arch0.rows.length - 1 := by omega
      refine rowCellsAt_eq wfin j a r { gen := erL.gen, loc := some (a, r) } _ lastRow0
        hnewrec rfl harchA ?_
      simp only
      rw [get?_swapRemove _ _ _ hrlt hrlt1, if_pos rfl]
      exact hlr0
  -- the invariant
  have hwf' : wfin.WF := by
    obtain ⟨harch, hfwd, hbwd, hkeys, hsE, hsC, hfree⟩ := hwf
    refine ⟨?_, ?_, ?_, ?_, ?_, ?_, ?_⟩
    · -- archRowsOK
      intro arch' hmem row' hrowmem
      obtain ⟨b, hb⟩ := List.mem_iff_get?.mp hmem
      rw [harchget] at hb
      by_cases hba : b = a
      · rw [if_pos hba] at hb
        cases hb
        exact rowOK_strategy hstr
          (harch arch0 (List.get?_mem harch0) row' (swapRemove_subset _ _ hrowmem))
      · rw [if_neg hba] at hb
        exact rowOK_strategy hstr (harch arch' (List.get?_mem hb) row' hrowmem)
    · -- locFwd
      intro i er hi b r' hloc
      by_cases hie : i = e.index
      · rw [hie, hE] at hi
        cases hi
        simp only at hloc
        cases hloc
      · rcases hJ i hie with ⟨hsame, hside⟩ | ⟨lastRow0, erL, hlast, hlr0, hiL, herLw, hlocL, hnewrec⟩
        · rw [hsame] at hi
          obtain ⟨arch2, hb2, row2, hr2, hre2⟩ := hfwd i er hi b r' hloc
          by_cases hba : b = a
          · subst hba
            rw [hb2] at harch0
            cases harch0
            have hrr : r' ≠ r := by
              intro hq
              rw [hq, hrow0] at hr2
              cases hr2
              exact hie (hre2.symm.trans hent0)
            have hr'lt : r' < arch0.rows.length := (List.get?_eq_some.mp hr2).1
            have hrlast : r' ≠ arch0.rows.length - 1 := by
              rcases hside with hlast | ⟨lastRow0, hlr0, hjL⟩
              · omega
              · intro hq
                rw [hq, hlr0] at hr2
                cases hr2
                exact hjL hre2.symm
            have hr'lt1 : r' < arch0.rows.length - 1 := by omega
            refine ⟨_, harchA, row2, ?_, hre2⟩
            rw [get?_swapRemove _ _ _ hrlt hr'lt1, if_neg hrr]
            exact hr2
          · refine ⟨arch2, ?_, row2, hr2, hre2⟩
            rw [harchget, if_neg hba]
            exact hb2
        · rw [hnewrec] at hi
          cases hi
          simp only at hloc
          cases hloc
          have hrlt1 : r < arch0.rows.length - 1 := by omega
          refine ⟨_, harchA, lastRow0, ?_, hiL.symm⟩
          rw [get?_swapRemove _ _ _ hrlt hrlt1, if_pos rfl]
          exact hlr0
    · -- locBwd
      intro b arch' hb r' row' hr'
      rw [harchget] at hb
      by_cases hba : b = a
      · rw [if_pos hba] at hb
        cases hb
        simp only at hr'
        have hr'lt : r' < arch0.rows.length - 1 := by
          have := (List.get?_eq_some.mp hr').1
          rwa [length_swapRemove _ _ hrlt] at this
        rw [get?_swapRemove _ _ _ hrlt hr'lt] at hr'
        by_cases hrr : r' = r
        · rw [if_pos hrr] at hr'
          obtain ⟨erL, herL, hlocL⟩ := hbwd a arch0 harch0 _ row' hr'
          have hne : row'.entity ≠ e.index := by
            intro hq
            rw [hq, her0] at herL
            cases herL
            rw [hloc0] at hlocL
            have := Option.some.inj hlocL
            have hr2 : r = arch0.rows.length - 1 := congrArg Prod.snd this
            omega
          rcases hJ row'.entity hne with ⟨hsame, hside⟩ | ⟨lastRow0, erL', hlast, hlr0, hiL, herLw, hlocL', hnewrec⟩
          · rcases hside with hlast | ⟨lastRow0, hlr0, hjL⟩
            · omega
            · rw [hlr0] at hr'
              cases hr'
              exact absurd rfl hjL
          · rw [hlr0] at hr'
            cases hr'
            rw [hba, hrr]
            exact ⟨_, hnewrec, rfl⟩
        · rw [if_neg hrr] at hr'
          obtain ⟨er2, her2, hloc2⟩ := hbwd a arch0 harch0 r' row' hr'
          have hne : row'.entity ≠ e.index := by
            intro hq
            rw [hq, her0] at her2
            cases her2
            rw [hloc0] at hloc2
            have := Option.some.inj hloc2
            have : r = r' := congrArg Prod.snd this
            omega
          rcases hJ row'.entity hne with ⟨hsame, hside⟩ | ⟨lastRow0, erL', hlast, hlr0, hiL, herLw, hlocL', hnewrec⟩
          · rw [hba]
            exact ⟨er2, by rw [hsame]; exact her2, hloc2⟩
          · rw [herLw] at her2
            cases her2
            rw [hlocL'] at hloc2
            have := Option.some.inj hloc2
            have : arch0.rows.length - 1 = r' := congrArg Prod.snd this
            omega
      · rw [if_neg hba] at hb
        obtain ⟨er2, her2, hloc2⟩ := hbwd b arch' hb r' row' hr'
        have hne : row'.entity ≠ e.index := by
          intro hq
          rw [hq, her0] at her2
          cases her2
          rw [hloc0] at hloc2
          have := Option.some.inj hloc2
          have : a = b := congrArg Prod.fst this
          exact hba this.symm
        rcases hJ row'.entity hne with ⟨hsame, hside⟩ | ⟨lastRow0, erL', hlast, hlr0, hiL, herLw, hlocL', hnewrec⟩
        · exact ⟨er2, by rw [hsame]; exact her2, hloc2⟩
        · rw [herLw] at her2
          cases her2
          rw [hlocL'] at hloc2
          have := Option.some.inj hloc2
          have : a = b := congrArg Prod.fst this
          exact absurd this.symm hba
    · -- sparseKeysOK
      constructor
      · rw [hfsp, hkeysS]
        exact hkeys.1
      · intro p hp
        rw [hfsp, hsp1def] at hp
        obtain ⟨p0, hp0, rfl⟩ := List.mem_map.mp hp
        rw [hstr]
        exact hkeys.2 p0 hp0
    · -- sparseEntriesOK
      intro p hp
      rw [hfsp, hsp1def] at hp
      obtain ⟨p0, hp0, rfl⟩ := List.mem_map.mp hp
      obtain ⟨hnd0, hall0⟩ := hsE p0 hp0
      refine ⟨nodup_removeEntryList _ _ hnd0, ?_⟩
      intro en hen
      simp only at hen
      have henq := mem_removeEntryList hen
      have hene : en.entity ≠ e.index := removeEntryList_no_entity p0.2 e.index hnd0 en hen
      obtain ⟨er2, her2, a', r', hloc2, arch2, ha2, hc2⟩ := hall0 en henq
      rcases hJ en.entity hene with ⟨hsame, hside⟩ | ⟨lastRow0, erL', hlast, hlr0, hiL, herLw, hlocL', hnewrec⟩
      · refine ⟨er2, by rw [hsame]; exact her2, a', r', hloc2, ?_⟩
        rw [harchget]
        by_cases hba : a' = a
        · rw [if_pos hba]
          rw [hba, harch0] at ha2
          cases ha2
          exact ⟨_, rfl, hc2⟩
        · rw [if_neg hba]
          exact ⟨arch2, ha2, hc2⟩
      · rw [herLw] at her2
        cases her2
        rw [hlocL'] at hloc2
        have hpair := Option.some.inj hloc2
        have haa : a = a' := congrArg Prod.fst hpair
        refine ⟨_, hnewrec, a, r, rfl, _, harchA, ?_⟩
        rw [← haa, harch0] at ha2
        cases ha2
        exact hc2
    · -- sparseCompleteOK
      intro i er hi b r' hloc arch' hb c hc hcs
      rw [hstr] at hcs
      by_cases hie : i = e.index
      · rw [hie, hE] at hi
        cases hi
        simp only at hloc
        cases hloc
      · rw [hssJ c i hie]
        rw [harchget] at hb
        rcases hJ i hie with ⟨hsame, hside⟩ | ⟨lastRow0, erL', hlast, hlr0, hiL, herLw, hlocL', hnewrec⟩
        · rw [hsame] at hi
          by_cases hba : b = a
          · rw [if_pos hba] at hb
            cases hb
            rw [hba] at hloc
            exact hsC i er hi a r' hloc arch0 harch0 c hc hcs
          · rw [if_neg hba] at hb
            exact hsC i er hi b r' hloc arch' hb c hc hcs
        · rw [hnewrec] at hi
          cases hi
          simp only at hloc
          cases hloc
          rw [if_pos rfl] at hb
          cases hb
          exact hsC i erL' herLw a (arch0.rows.length - 1) hlocL' arch0 harch0 c hc hcs
    · -- freelistOK
      have hnotin : e.index ∉ w.freelist := by
        intro hmem
        obtain ⟨er2, her2, hloc2⟩ := hfree.2 e.index hmem
        rw [her0] at her2
        cases her2
        rw [hloc0] at hloc2
        cases hloc2
      constructor
      · rw [hffl]
        exact List.nodup_cons.mpr ⟨hnotin, hfree.1⟩
      · intro i hi
        rw [hffl] at hi
        rcases List.mem_cons.mp hi with rfl | hmem
        · exact ⟨_, hE, rfl⟩
        · obtain ⟨er2, her2, hloc2⟩ := hfree.2 i hmem
          have hie : i ≠ e.index := by
            intro hq
            rw [hq, her0] at her2
            cases her2
            rw [hloc0] at hloc2
            cases hloc2
          rcases hJ i hie with ⟨hsame, hside⟩ | ⟨lastRow0, erL', hlast, hlr0, hiL, herLw, hlocL', hnewrec⟩
          · exact ⟨er2, by rw [hsame]; exact her2, hloc2⟩
          · rw [herLw] at her2
            cases her2
            rw [hlocL'] at hloc2
            cases hloc2
  refine ⟨wfin, heq, hwf', hstr, htk, hffl, hlen, ⟨er0, her0, hgen0, hE⟩, ?_, ?_, ?_, ?_, ?_, ?_⟩
  · -- generations of other entities
    intro j hj
    rcases hJ j hj with ⟨hsame, hside⟩ | ⟨lastRow0, erL', hlast, hlr0, hiL, herLw, hlocL', hnewrec⟩
    · rw [hsame]
    · rw [hnewrec, herLw]
      rfl
  · -- liveness of other entities
    intro j hj
    rcases hJ j hj with ⟨hsame, hside⟩ | ⟨lastRow0, erL', hlast, hlr0, hiL, herLw, hlocL', hnewrec⟩
    · unfold World.isLive
      rw [hsame]
    · unfold World.isLive
      rw [hnewrec, herLw]
      simp only [hlocL']
      rfl
  · -- the despawned entity is dead
    unfold World.isLive
    rw [hE]
    rfl
  · -- cells of other entities
    intro j c' hj
    exact getCellInfo_congr w wfin j hstr (hrcJ j hj) (fun c'' => hssJ c'' j hj) c'
  · -- component sets of other entities
    intro j hj
    refine storedComps_congr w wfin j (hrcJ j hj) (fun c'' => hssJ c'' j hj) ?_
    rw [hfsp, hkeysS]
  · -- the despawned entity stores nothing
    have h1 : wfin.rowCellsAt e.index = [] :=
      rowCellsAt_dead wfin e.index _ hE rfl
    unfold World.storedComps
    rw [h1]
    simp only [List.map_nil, List.toFinset_nil, Finset.empty_union]
    unfold World.sparseCompsOf
    rw [Finset.filter_eq_empty_iff]
    intro c _
    rw [hssE0 c]
    simp

end Ecs

namespace Ecs

theorem allocate_spec (w : World) (hwf : w.WF) :
    ∃ wA eA, w.allocate = (wA, eA) ∧ wA.WF ∧
      wA.strategy = w.strategy ∧ wA.tick = w.tick ∧ wA.sparse = w.sparse ∧
      wA.archetypes = w.archetypes ∧
      (∃ erA, wA.ents.get? eA.index = some erA ∧ erA.gen = eA.generation ∧ erA.loc = none) ∧
      (∀ j, j ≠ eA.index → wA.ents.get? j = w.ents.get? j) ∧
      (∀ j, wA.isLive j = w.isLive j) ∧
      (∀ j, wA.rowCellsAt j = w.rowCellsAt j) ∧
      eA.index ∉ wA.freelist ∧
      (∀ i, i ∈ wA.freelist → i ∈ w.freelist) ∧
      (∀ i rest, w.freelist = i :: rest →
        eA.index = i ∧ eA.generation = (w.ents.getD i defaultRec).gen ∧ wA.freelist = rest ∧
          wA.ents = w.ents) ∧
      (w.freelist = [] → eA.index = w.ents.length ∧ eA.generation = 0 ∧ wA.freelist = [] ∧
        wA.ents = w.ents ++ [defaultRec]) := by
  cases hfl : w.freelist with
  | cons i rest =>
    obtain ⟨er1, her1, hloc1⟩ := hwf.2.2.2.2.2.2.2 i (by rw [hfl]; exact List.mem_cons_self _ _)
    have hgetD1 : w.ents.getD i defaultRec = er1 := getD_of_get? her1 _
    have hnd := hwf.2.2.2.2.2.2.1
    rw [hfl] at hnd
    have hnd' := List.nodup_cons.mp hnd
    refine ⟨{ w with freelist := rest }, { index := i, generation := (w.ents.getD i defaultRec).gen },
      ?_, ?_, rfl, rfl, rfl, rfl, ?_, ?_, ?_, ?_, ?_, ?_, ?_, ?_⟩
    · unfold World.allocate
      rw [hfl]
    · obtain ⟨h1, h2, h3, h4, h5, h6, h7⟩ := hwf
      refine ⟨h1, h2, h3, h4, h5, h6, ?_⟩
      constructor
      · exact hnd'.2
      · intro j hj
        exact h7.2 j (by rw [hfl]; exact List.mem_cons_of_mem _ hj)
    · exact ⟨er1, her1, by rw [hgetD1], hloc1⟩
    · intro j _
      rfl
    · intro j
      rfl
    · intro j
      rfl
    · exact hnd'.1
    · intro j hj
      have hj' : j ∈ rest := hj
      exact List.mem_cons_of_mem _ hj'
    · intro i' rest' hfl'
      cases hfl'
      exact ⟨rfl, rfl, rfl, rfl⟩
    · intro h
      cases h
  | nil =>
    have hget : ∀ j, (w.ents ++ [defaultRec]).get? j =
        if j < w.ents.length then w.ents.get? j
        else if j = w.ents.length then some defaultRec else none := by
      intro j
      by_cases hj : j < w.ents.length
      · rw [if_pos hj]
        exact List.get?_append hj
      · rw [if_neg hj]
        by_cases hj' : j = w.ents.length
        · rw [if_pos hj', hj']
          exact List.get?_concat_length _ _
        · rw [if_neg hj']
          rw [List.get?_eq_none]
          simp only [List.length_append, List.length_cons, List.length_nil]
          omega
    refine ⟨{ w with ents := w.ents ++ [defaultRec] },
      { index := w.ents.length, generation := 0 }, ?_, ?_, rfl, rfl, rfl, rfl,
      ?_, ?_, ?_, ?_, ?_, ?_, ?_, ?_⟩
    · unfold World.allocate
      rw [hfl]
    · obtain ⟨h1, h2, h3, h4, h5, h6, h7⟩ := hwf
      refine ⟨?_, ?_, ?_, h4, ?_, ?_, ?_⟩
      · intro arch hmem row hrow
        exact rowOK_strategy rfl (h1 arch hmem row hrow)
      · intro j er hj b r' hloc
        show ∃ arch, w.archetypes.get? b = some arch ∧ _
        rw [show ({ w with ents := w.ents ++ [defaultRec] } : World).ents = w.ents ++ [defaultRec] from rfl] at hj
        rw [hget j] at hj
        by_cases hlt : j < w.ents.length
        · rw [if_pos hlt] at hj
          exact h2 j er hj b r' hloc
        · rw [if_neg hlt] at hj
          by_cases heq : j = w.ents.length
          · rw [if_pos heq] at hj
            cases hj
            cases hloc
          · rw [if_neg heq] at hj
            cases hj
      · intro b arch hb r' row hr
        obtain ⟨er2, her2, hloc2⟩ := h3 b arch hb r' row hr
        refine ⟨er2, ?_, hloc2⟩
        show (w.ents ++ [defaultRec]).get? row.entity = some er2
        rw [hget, if_pos (List.get?_eq_some.mp her2).1]
        exact her2
      · intro p hp
        obtain ⟨hnd0, hall0⟩ := h5 p hp
        refine ⟨hnd0, ?_⟩
        intro en hen
        obtain ⟨er2, her2, a', r', hloc2, arch2, ha2, hc2⟩ := hall0 en hen
        refine ⟨er2, ?_, a', r', hloc2, arch2, ha2, hc2⟩
        show (w.ents ++ [defaultRec]).get? en.entity = some er2
        rw [hget, if_pos (List.get?_eq_some.mp her2).1]
        exact her2
      · intro j er hj b r' hloc arch hb c hc hcs
        rw [show ({ w with ents := w.ents ++ [defaultRec] } : World).ents = w.ents ++ [defaultRec] from rfl] at hj
        rw [hget j] at hj
        by_cases hlt : j < w.ents.length
        · rw [if_pos hlt] at hj
          exact h6 j er hj b r' hloc arch hb c hc hcs
        · rw [if_neg hlt] at hj
          by_cases heq : j = w.ents.length
          · rw [if_pos heq] at hj
            cases hj
            cases hloc
          · rw [if_neg heq] at hj
            cases hj
      · refine ⟨h7.1, ?_⟩
        intro j hj
        have hj' : j ∈ w.freelist := hj
        rw [hfl] at hj'
        exact absurd hj' (List.not_mem_nil j)
    · refine ⟨defaultRec, ?_, rfl, rfl⟩
      show (w.ents ++ [defaultRec]).get? w.ents.length = some defaultRec
      exact List.get?_concat_length _ _
    · intro j hj
      show (w.ents ++ [defaultRec]).get? j = w.ents.get? j
      rw [hget]
      by_cases hlt : j < w.ents.length
      · rw [if_pos hlt]
      · rw [if_neg hlt, if_neg (by simpa using hj)]
        rw [eq_comm, List.get?_eq_none]
        omega
    · intro j
      unfold World.isLive
      show (match (w.ents ++ [defaultRec]).get? j with | some er => er.loc.isSome | none => false) = _
      rw [hget]
      by_cases hlt : j < w.ents.length
      · rw [if_pos hlt]
      · rw [if_neg hlt]
        by_cases heq : j = w.ents.length
        · rw [if_pos heq]
          have : w.ents.get? j = none := by
            rw [List.get?_eq_none]
            omega
          rw [this]
          rfl
        · rw [if_neg heq]
          have : w.ents.get? j = none := by
            rw [List.get?_eq_none]
            omega
          rw [this]
    · intro j
      unfold World.rowCellsAt
      show (match (w.ents ++ [defaultRec]).get? j with
        | some er => match er.loc with
          | some (a, r) => ((w.archetypes.getD a emptyArch).rows.getD r defaultRow).cells
          | none => []
        | none => []) = _
      rw [hget]
      by_cases hlt : j < w.ents.length
      · rw [if_pos hlt]
      · rw [if_neg hlt]
        by_cases heq : j = w.ents.length
        · rw [if_pos heq]
          have : w.ents.get? j = none := by
            rw [List.get?_eq_none]
            omega
          rw [this]
          rfl
        · rw [if_neg heq]
          have : w.ents.get? j = none := by
            rw [List.get?_eq_none]
            omega
          rw [this]
    · intro hmem
      have hmem' : w.ents.length ∈ w.freelist := hmem
      rw [hfl] at hmem'
      exact absurd hmem' (List.not_mem_nil _)
    · intro j hj
      have hj' : j ∈ w.freelist := hj
      rw [hfl] at hj'
      exact hj'
    · intro i' rest' hfl'
      cases hfl'
    · intro _
      exact ⟨rfl, rfl, hfl, rfl⟩

end Ecs

namespace Ecs

theorem spawnEmpty_spec (w : World) (hwf : w.WF) :
    ∃ w' e', w.spawnEmpty = (w', e') ∧ w'.WF ∧
      w'.strategy = w.strategy ∧ w'.tick = w.tick ∧ w'.sparse = w.sparse ∧
      (∃ er', w'.ents.get? e'.index = some er' ∧ er'.gen = e'.generation ∧
        er'.loc.isSome = true) ∧
      w'.isLive e'.index = true ∧
      w.isLive e'.index = false ∧
      w'.storedComps e'.index = ∅ ∧
      (∀ j, j ≠ e'.index → w'.ents.get? j = w.ents.get? j) ∧
      (∀ j, j ≠ e'.index → w'.isLive j = w.isLive j) ∧
      (∀ j c', j ≠ e'.index → w'.getCellInfo j c' = w.getCellInfo j c') ∧
      (∀ j, j ≠ e'.index → w'.storedComps j = w.storedComps j) ∧
      (∀ i rest, w.freelist = i :: rest →
        e'.index = i ∧ e'.generation = (w.ents.getD i defaultRec).gen ∧ w'.freelist = rest ∧
          w'.ents.length = w.ents.length) ∧
      (w.freelist = [] → e'.index = w.ents.length ∧ e'.generation = 0 ∧ w'.freelist = [] ∧
        w'.ents.length = w.ents.length + 1) := by
  obtain ⟨wA, eA, hallo, hwfA, hstrA, htkA, hspA, harchsA, ⟨erA, herA, hgenA, hlocA⟩,
    hJA, hliveA, hrcA, hninA, hsubA, hpopA, hfreshA⟩ := allocate_spec w hwf
  obtain ⟨w2, a0, hgoc⟩ : ∃ w2 a0, wA.getOrCreate ∅ = (w2, a0) := ⟨_, _, rfl⟩
  have hw2 : (wA.getOrCreate ∅).1 = w2 := by rw [hgoc]
  have ha0 : (wA.getOrCreate ∅).2 = a0 := by rw [hgoc]
  have hents2 : w2.ents = wA.ents := by
    rw [← hw2]
    exact (getOrCreate_fields wA _).1
  have hsp2 : w2.sparse = wA.sparse := by
    rw [← hw2]
    exact (getOrCreate_fields wA _).2.1
  have hfree2 : w2.freelist = wA.freelist := by
    rw [← hw2]
    exact (getOrCreate_fields wA _).2.2.1
  have htick2 : w2.tick = wA.tick := by
    rw [← hw2]
    exact (getOrCreate_fields wA _).2.2.2.1
  have hstr2 : w2.strategy = wA.strategy := by
    rw [← hw2]
    exact (getOrCreate_fields wA _).2.2.2.2
  obtain ⟨tarch, ht2, htc, _⟩ := getOrCreate_target wA ∅
  rw [hw2, ha0] at ht2
  have hgetD2 : w2.archetypes.getD a0 emptyArch = tarch := getD_of_get? ht2 _
  have harchOK2 : w2.archRowsOK := by
    rw [← hw2]
    exact getOrCreate_archRowsOK wA _ hwfA.1
  have hfwd2 : w2.locFwd := by
    rw [← hw2]
    exact getOrCreate_locFwd wA _ hwfA.2.1
  have hbwd2 : w2.locBwd := by
    rw [← hw2]
    exact getOrCreate_locBwd wA _ hwfA.2.2.1
  have hkeys2 : w2.sparseKeysOK := by
    unfold World.sparseKeysOK
    rw [hsp2, hstr2]
    exact hwfA.2.2.2.1
  have hss2 : ∀ c i, w2.ssGet c i = wA.ssGet c i := by
    intro c i
    unfold World.ssGet
    rw [hsp2]
  have hssAw : ∀ c i, wA.ssGet c i = w.ssGet c i := by
    intro c i
    unfold World.ssGet
    rw [hspA]
  have hrc2 : ∀ j, w2.rowCellsAt j = wA.rowCellsAt j := by
    intro j
    rw [← hw2]
    exact getOrCreate_rowCellsAt wA _ j
  have harch2lt : ∀ b, b < wA.archetypes.length →
      w2.archetypes.get? b = wA.archetypes.get? b := by
    intro b hb
    rw [← hw2]
    exact getOrCreate_get?_lt wA _ b hb
  have harch2inv : ∀ b arch', w2.archetypes.get? b = some arch' →
      wA.archetypes.get? b = some arch' ∨
        (arch' = { compSet := ∅, rows := [] } ∧ wA.archetypes.get? b = none) := by
    intro b arch' hb
    rw [← hw2] at hb
    exact getOrCreate_get?_inv wA _ b arch' hb
  have hsE2 : w2.sparseEntriesOK := by
    intro p hp
    rw [hsp2] at hp
    obtain ⟨hnd0, hall0⟩ := hwfA.2.2.2.2.1 p hp
    refine ⟨hnd0, ?_⟩
    intro en hen
    obtain ⟨er2, her2, a', r', hloc2, arch2, ha2, hc2⟩ := hall0 en hen
    have halt' : a' < wA.archetypes.length := (List.get?_eq_some.mp ha2).1
    exact ⟨er2, by rw [hents2]; exact her2, a', r', hloc2, arch2,
      by rw [harch2lt a' halt']; exact ha2, hc2⟩
  have hsC2c : w2.sparseCompleteOK := by
    intro i er hi b r' hloc arch' hb c hc hcs
    rw [hents2] at hi
    rw [hstr2] at hcs
    rw [hss2]
    rcases harch2inv b arch' hb with hold | ⟨rfl, hnone⟩
    · exact hwfA.2.2.2.2.2.1 i er hi b r' hloc arch' hold c hc hcs
    · exact absurd hc (Finset.not_mem_empty c)
  have hfreeOK2 : w2.freelistOK := by
    unfold World.freelistOK
    rw [hfree2, hents2]
    exact hwfA.2.2.2.2.2.2
  -- the final world
  set newRow : TableRow := { entity := eA.index, cells := [] } with hnewRowdef
  set w3 : World := w2.setRows a0 (tarch.rows ++ [newRow]) with hw3def
  set wfin : World := w3.setLoc eA.index (some (a0, tarch.rows.length)) with hwfindef
  have heq : w.spawnEmpty = (wfin, eA) := by
    unfold World.spawnEmpty
    simp only [hallo, hgoc, hgetD2]
  have hstrF : wfin.strategy = w.strategy := hstr2.trans hstrA
  have htkF : wfin.tick = w.tick := htick2.trans htkA
  have hspF : wfin.sparse = w.sparse := hsp2.trans hspA
  have hflF : wfin.freelist = wA.freelist := hfree2
  have hssF : ∀ c i, wfin.ssGet c i = w.ssGet c i := by
    intro c i
    unfold World.ssGet
    rw [hspF]
  have hentsF3 : wfin.ents = listModify
      (fun er => { er with loc := some (a0, tarch.rows.length) }) eA.index w2.ents := rfl
  have hE : wfin.ents.get? eA.index =
      some { gen := erA.gen, loc := some (a0, tarch.rows.length) } := by
    rw [hentsF3, get?_listModify_self, hents2, herA]
    rfl
  have hJfin : ∀ j, j ≠ eA.index → wfin.ents.get? j = w.ents.get? j := by
    intro j hj
    rw [hentsF3, get?_listModify_ne _ _ _ _ hj, hents2]
    exact hJA j hj
  have harchgetF : ∀ b, wfin.archetypes.get? b =
      if b = a0 then some { tarch with rows := tarch.rows ++ [newRow] }
      else w2.archetypes.get? b := by
    intro b
    show (w2.setRows a0 (tarch.rows ++ [newRow])).archetypes.get? b = _
    rw [setRows_arch_get?]
    by_cases hb : b = a0
    · rw [if_pos hb, if_pos hb, hb, ht2]
      rfl
    · rw [if_neg hb, if_neg hb]
  have ha0new : wfin.archetypes.get? a0 =
      some { tarch with rows := tarch.rows ++ [newRow] } := by
    rw [harchgetF, if_pos rfl]
  -- the fresh entity was dead before and holds no sparse entries
  have hwdead : w.isLive eA.index = false := by
    rw [← hliveA]
    simp only [World.isLive, herA, hlocA, Option.isSome_none]
  have hssdead : ∀ c, w.ssGet c eA.index = none := by
    intro c
    cases hs : w.ssGet c eA.index with
    | none => rfl
    | some en =>
      exfalso
      rw [ssGet_eq_find] at hs
      cases hf : w.sparse.find? (fun p => p.1 = c) with
      | none =>
        rw [hf] at hs
        cases hs
      | some p =>
        rw [hf] at hs
        simp only [Option.some_bind] at hs
        obtain ⟨henmem, hene⟩ := find?_key_mem SEntry.entity _ hs
        obtain ⟨er2, her2, a', r', hloc2, _⟩ :=
          (hwf.2.2.2.2.1 p (find?_key_mem Prod.fst _ hf).1).2 en henmem
        rw [hene] at her2
        have hlt : w.isLive eA.index = true :=
          (isLive_iff w eA.index).mpr ⟨er2, her2, (a', r'), hloc2⟩
        rw [hwdead] at hlt
        cases hlt
  -- row cells of other entities are untouched
  have hrcF : ∀ j, j ≠ eA.index → wfin.rowCellsAt j = w.rowCellsAt j := by
    intro j hj
    have hwj : w2.ents.get? j = w.ents.get? j := by
      rw [hents2]
      exact hJA j hj
    cases hg : w.ents.get? j with
    | none =>
      have hg' : wfin.ents.get? j = none := by rw [hJfin j hj, hg]
      simp only [World.rowCellsAt, hg', hg]
    | some er =>
      cases hl : er.loc with
      | none =>
        have hg' : wfin.ents.get? j = some er := by rw [hJfin j hj, hg]
        simp only [World.rowCellsAt, hg', hg, hl]
      | some br =>
        obtain ⟨b, r'⟩ := br
        have hg2 : w2.ents.get? j = some er := by rw [hwj, hg]
        obtain ⟨arch2, hb2, row2, hr2, hre2⟩ := hfwd2 j er hg2 b r' hl
        have hg' : wfin.ents.get? j = some er := by rw [hJfin j hj, hg]
        have hrcw : w.rowCellsAt j = row2.cells := by
          rw [← hrcA j, ← hrc2 j]
          exact rowCellsAt_eq w2 j b r' er arch2 row2 hg2 hl hb2 hr2
        rw [hrcw]
        by_cases hba : b = a0
        · subst hba
          rw [hb2] at ht2
          cases ht2
          refine rowCellsAt_eq wfin j b r' er _ row2 hg' hl ha0new ?_
          simp only
          rw [List.get?_append (List.get?_eq_some.mp hr2).1]
          exact hr2
        · refine rowCellsAt_eq wfin j b r' er arch2 row2 hg' hl ?_ hr2
          rw [harchgetF, if_neg hba]
          exact hb2
  -- the invariant
  have hwfF : wfin.WF := by
    refine ⟨?_, ?_, ?_, ?_, ?_, ?_, ?_⟩
    · -- archRowsOK
      intro arch' hmem row' hrowmem
      obtain ⟨b, hb⟩ := List.mem_iff_get?.mp hmem
      rw [harchgetF] at hb
      by_cases hba : b = a0
      · rw [if_pos hba] at hb
        cases hb
        rcases List.mem_append.mp hrowmem with hin | hin
        · exact rowOK_strategy (hstr2.symm ▸ rfl) (harchOK2 tarch (List.get?_mem ht2) row' hin)
        · rcases List.mem_singleton.mp hin with rfl
          constructor
          · simp
          · show (List.map Cell.comp []).toFinset = wfin.tableCompsOf tarch.compSet
            rw [htc]
            unfold World.tableCompsOf
            rw [Finset.filter_empty]
            rfl
      · rw [if_neg hba] at hb
        exact rowOK_strategy rfl (harchOK2 arch' (List.get?_mem hb) row' hrowmem)
    · -- locFwd
      intro i er hi b r' hloc
      by_cases hie : i = eA.index
      · subst hie
        rw [hE] at hi
        cases hi
        simp only at hloc
        cases hloc
        refine ⟨_, ha0new, newRow, ?_, rfl⟩
        simp only
        exact List.get?_concat_length _ _
      · have hi2 : w2.ents.get? i = some er := by
          rw [hents2, hJA i hie, ← hJfin i hie]
          exact hi
        obtain ⟨arch2, hb2, row2, hr2, hre2⟩ := hfwd2 i er hi2 b r' hloc
        by_cases hba : b = a0
        · subst hba
          rw [hb2] at ht2
          cases ht2
          refine ⟨_, ha0new, row2, ?_, hre2⟩
          simp only
          rw [List.get?_append (List.get?_eq_some.mp hr2).1]
          exact hr2
        · refine ⟨arch2, ?_, row2, hr2, hre2⟩
          rw [harchgetF, if_neg hba]
          exact hb2
    · -- locBwd
      intro b arch' hb r' row' hr'
      rw [harchgetF] at hb
      by_cases hba : b = a0
      · rw [if_pos hba] at hb
        cases hb
        simp only at hr'
        have hr'lt : r' < tarch.rows.length + 1 := by
          have := (List.get?_eq_some.mp hr').1
          simpa using this
        by_cases hr'len : r' = tarch.rows.length
        · subst hr'len
          rw [List.get?_concat_length] at hr'
          cases hr'
          rw [hba]
          exact ⟨_, hE, rfl⟩
        · rw [List.get?_append (by omega)] at hr'
          obtain ⟨er2, her2, hloc2⟩ := hbwd2 a0 tarch ht2 r' row' hr'
          have hne : row'.entity ≠ eA.index := by
            intro hq
            rw [hq, hents2, herA] at her2
            cases her2
            rw [hlocA] at hloc2
            cases hloc2
          refine ⟨er2, ?_, ?_⟩
          · rw [hentsF3, get?_listModify_ne _ _ _ _ hne]
            exact her2
          · rw [hba]
            exact hloc2
      · rw [if_neg hba] at hb
        obtain ⟨er2, her2, hloc2⟩ := hbwd2 b arch' hb r' row' hr'
        have hne : row'.entity ≠ eA.index := by
          intro hq
          rw [hq, hents2, herA] at her2
          cases her2
          rw [hlocA] at hloc2
          cases hloc2
        refine ⟨er2, ?_, hloc2⟩
        rw [hentsF3, get?_listModify_ne _ _ _ _ hne]
        exact her2
    · -- sparseKeysOK
      unfold World.sparseKeysOK
      rw [hspF, hstrF]
      exact hwf.2.2.2.1
    · -- sparseEntriesOK
      intro p hp
      rw [hspF] at hp
      obtain ⟨hnd0, hall0⟩ := hwf.2.2.2.2.1 p hp
      refine ⟨hnd0, ?_⟩
      intro en hen
      obtain ⟨er2, her2, a', r', hloc2, arch2, ha2, hc2⟩ := hall0 en hen
      have hne : en.entity ≠ eA.index := by
        intro hq
        rw [hq] at her2
        have hlt : w.isLive eA.index = true :=
          (isLive_iff w eA.index).mpr ⟨er2, her2, (a', r'), hloc2⟩
        rw [hwdead] at hlt
        cases hlt
      refine ⟨er2, by rw [hJfin _ hne]; exact her2, a', r', hloc2, ?_⟩
      have halt' : a' < wA.archetypes.length := by
        rw [harchsA]
        exact (List.get?_eq_some.mp ha2).1
      have ha2' : w2.archetypes.get? a' = some arch2 := by
        rw [harch2lt a' halt', harchsA]
        exact ha2
      by_cases hba : a' = a0
      · subst hba
        rw [ha2'] at ht2
        cases ht2
        exact ⟨_, ha0new, hc2⟩
      · refine ⟨arch2, ?_, hc2⟩
        rw [harchgetF, if_neg hba]
        exact ha2'
    · -- sparseCompleteOK
      intro i er hi b r' hloc arch' hb c hc hcs
      rw [hssF]
      by_cases hie : i = eA.index
      · rw [hie, hE] at hi
        cases hi
        simp only at hloc
        cases hloc
        rw [harchgetF, if_pos rfl] at hb
        cases hb
        simp only at hc
        rw [htc] at hc
        exact absurd hc (Finset.not_mem_empty c)
      · have hi2 : w2.ents.get? i = some er := by
          rw [hents2, hJA i hie, ← hJfin i hie]
          exact hi
        rw [harchgetF] at hb
        by_cases hba : b = a0
        · rw [if_pos hba] at hb
          cases hb
          simp only at hc
          have hcs2 : w2.strategy c = Strategy.sparseSet := by
            rw [hstr2, hstrA, ← hstrF]
            exact hcs
          have := hsC2c i er hi2 b r' hloc tarch (by rw [hba]; exact ht2) c hc hcs2
          rw [hss2, hssAw] at this
          exact this
        · rw [if_neg hba] at hb
          have hcs2 : w2.strategy c = Strategy.sparseSet := by
            rw [hstr2, hstrA, ← hstrF]
            exact hcs
          have := hsC2c i er hi2 b r' hloc arch' hb c hc hcs2
          rw [hss2, hssAw] at this
          exact this
    · -- freelistOK
      constructor
      · rw [hflF]
        exact hwfA.2.2.2.2.2.2.1
      · intro i hi
        rw [hflF] at hi
        obtain ⟨er2, her2, hloc2⟩ := hwfA.2.2.2.2.2.2.2 i hi
        have hne : i ≠ eA.index := by
          intro hq
          rw [hq] at hi
          exact hninA hi
        refine ⟨er2, ?_, hloc2⟩
        rw [hentsF3, get?_listModify_ne _ _ _ _ hne, hents2]
        exact her2
  refine ⟨wfin, eA, heq, hwfF, hstrF, htkF, hspF, ?_, ?_, hwdead, ?_, hJfin, ?_, ?_, ?_, ?_, ?_⟩
  · exact ⟨_, hE, hgenA, rfl⟩
  · unfold World.isLive
    rw [hE]
    rfl
  · -- the fresh entity stores nothing
    have h1 : wfin.rowCellsAt eA.index = [] := by
      refine rowCellsAt_eq wfin eA.index a0 tarch.rows.length _ _ newRow hE rfl ha0new ?_
      simp only
      exact List.get?_concat_length _ _
    unfold World.storedComps
    rw [h1]
    simp only [List.map_nil, List.toFinset_nil, Finset.empty_union]
    unfold World.sparseCompsOf
    rw [Finset.filter_eq_empty_iff]
    intro c _
    rw [hssF, hssdead c]
    simp
  · intro j hj
    unfold World.isLive
    rw [hJfin j hj]
  · intro j c' hj
    exact getCellInfo_congr w wfin j hstrF (hrcF j hj) (fun c'' => hssF c'' j) c'
  · intro j hj
    refine storedComps_congr w wfin j (hrcF j hj) (fun c'' => hssF c'' j) ?_
    rw [hspF]
  · intro i rest hfl
    obtain ⟨h1, h2, h3, h4⟩ := hpopA i rest hfl
    refine ⟨h1, h2, by rw [hflF]; exact h3, ?_⟩
    rw [hentsF3, length_listModify, hents2, h4]
  · intro hfl
    obtain ⟨h1, h2, h3, h4⟩ := hfreshA hfl
    refine ⟨h1, h2, by rw [hflF]; exact h3, ?_⟩
    rw [hentsF3, length_listModify, hents2, h4]
    simp

end Ecs

theorem get?_map_key_listModify {α β : Type} (g : α → β) (f : α → α)
    (hf : ∀ x, g (f x) = g x) (n : Nat) (l : List α) (i : Nat) :
    ((listModify f n l).get? i).map g = (l.get? i).map g := by
  rw [get?_listModify]
  by_cases hi : i = n
  · rw [if_pos hi]
    cases l.get? i with
    | none => rfl
    | some x =>
      simp only [Option.map_some']
      rw [hf]
  · rw [if_neg hi]

namespace Ecs

theorem bind_error {ε α β : Type} (err : ε) (f : α → Except ε β) :
    (Except.error err : Except ε α) >>= f = .error err := rfl

theorem resolve_of_live (w : World) (e : EntityId) (er : EntityRec) (l : Nat × Nat)
    (h : w.ents.get? e.index = some er) (hg : er.gen = e.generation)
    (hl : er.loc = some l) : w.resolve e = .ok l :=
  (resolve_ok_iff w e l).mpr ⟨er, h, hg, hl⟩

theorem insertComponent_error (w : World) (e : EntityId) (c v : Nat) (err : EcsError)
    (hres : w.resolve e = .error err) : w.insertComponent e c v = .error err := by
  unfold World.insertComponent
  rw [hres]
  rfl

theorem removeComponent_error (w : World) (e : EntityId) (c : Nat) (err : EcsError)
    (hres : w.resolve e = .error err) : w.removeComponent e c = .error err := by
  unfold World.removeComponent
  rw [hres]
  rfl

theorem despawn_error (w : World) (e : EntityId) (err : EcsError)
    (hres : w.resolve e = .error err) : w.despawn e = .error err := by
  unfold World.despawn
  rw [hres]
  rfl

theorem init_WF (strategy : Nat → Strategy) : (World.init strategy).WF := by
  refine ⟨?_, ?_, ?_, ⟨?_, ?_⟩, ?_, ?_, ?_⟩
  · intro arch hmem row hrow
    cases hmem
  · intro i er hi b r hloc
    cases hi
  · intro b arch hb r row hr
    cases hb
  · show (([] : List (Nat × List SEntry)).map Prod.fst).Nodup
    simp
  · intro p hp
    cases hp
  · intro p hp
    cases hp
  · intro i er hi b r hloc arch hb c hc hcs
    cases hi
  · constructor
    · show ([] : List Nat).Nodup
      simp
    · intro i hi
      cases hi

theorem advanceTick_WF (w : World) (h : w.WF) : w.advanceTick.WF := h

end Ecs

namespace Ecs

theorem insert_fold_spec (comps : List (Nat × Nat)) (w : World) (e : EntityId)
    (hwf : w.WF) (er : EntityRec) (her : w.ents.get? e.index = some er)
    (hgen : er.gen = e.generation) (hsome : er.loc.isSome = true) :
    ∃ w', comps.foldl (fun wa p =>
        match wa.insertComponent e p.1 p.2 with
        | .ok w2 => w2
        | .error _ => wa) w = w' ∧ w'.WF ∧
      w'.strategy = w.strategy ∧ w'.tick = w.tick ∧ w'.freelist = w.freelist ∧
      w'.ents.length = w.ents.length ∧
      (∀ j, (w'.ents.get? j).map EntityRec.gen = (w.ents.get? j).map EntityRec.gen) ∧
      (∀ j, w'.isLive j = w.isLive j) ∧
      (∀ j, j ≠ e.index → ∀ c', w'.getCellInfo j c' = w.getCellInfo j c') ∧
      (∀ j, j ≠ e.index → w'.storedComps j = w.storedComps j) ∧
      w'.storedComps e.index = (comps.map Prod.fst).toFinset ∪ w.storedComps e.index ∧
      (∃ er', w'.ents.get? e.index = some er' ∧ er'.gen = e.generation ∧
        er'.loc.isSome = true) := by
  induction comps generalizing w er with
  | nil =>
    refine ⟨w, rfl, hwf, rfl, rfl, rfl, rfl, fun j => rfl, fun j => rfl,
      fun j _ c' => rfl, fun j _ => rfl, ?_, er, her, hgen, hsome⟩
    simp
  | cons p rest ih =>
    obtain ⟨l, hl⟩ : ∃ l, er.loc = some l := by
      cases h : er.loc with
      | none =>
        rw [h] at hsome
        cases hsome
      | some l => exact ⟨l, rfl⟩
    obtain ⟨a, r⟩ := l
    have hres : w.resolve e = .ok (a, r) := resolve_of_live w e er (a, r) her hgen hl
    by_cases hc : p.1 ∈ w.storedComps e.index
    · obtain ⟨w1, heq1, hwf1, hents1, htick1, hstr1, hfree1, harchs1, hcellJ1, hcellE1,
        hcellC1, hstored1, hres1⟩ :=
        insertComponent_overwrite_spec w e p.1 p.2 a r hwf hres hc
      have hstep : (p :: rest).foldl (fun wa q =>
          match wa.insertComponent e q.1 q.2 with
          | .ok w2 => w2
          | .error _ => wa) w = rest.foldl (fun wa q =>
          match wa.insertComponent e q.1 q.2 with
          | .ok w2 => w2
          | .error _ => wa) w1 := by
        rw [List.foldl_cons, heq1]
      obtain ⟨w2, heq2, hwf2, hstr2, htick2, hfree2, hlen2, hgen2, hlive2, hcellJ2,
        hstored2, hstoredE2, hliveE2⟩ :=
        ih w1 hwf1 er (by rw [hents1]; exact her) hgen hsome
      rw [hstep, heq2]
      refine ⟨w2, rfl, hwf2, hstr2.trans hstr1, htick2.trans htick1,
        hfree2.trans hfree1, by rw [hlen2, hents1], ?_, ?_, ?_, ?_, ?_, hliveE2⟩
      · intro j
        rw [hgen2 j, hents1]
      · intro j
        rw [hlive2 j]
        unfold World.isLive
        rw [hents1]
      · intro j hj c'
        rw [hcellJ2 j hj c', hcellJ1 j c' hj]
      · intro j hj
        rw [hstored2 j hj, hstored1 j]
      · rw [hstoredE2, hstored1]
        rw [List.map_cons, List.toFinset_cons, Finset.insert_union,
          Finset.insert_eq_self.mpr (Finset.mem_union_right _ hc)]
    · obtain ⟨w1, heq1, hwf1, hfrm1, hstored1, hcellE1, hcellC1, hliveE1⟩ :=
        insertComponent_fresh_spec w e p.1 p.2 a r hwf hres hc
      obtain ⟨hstr1, htick1, hfree1, hlen1, hgen1, hlive1, hcellJ1, hstoredJ1⟩ := hfrm1
      obtain ⟨er1, her1, hgen1', hsome1⟩ := hliveE1
      have hstep : (p :: rest).foldl (fun wa q =>
          match wa.insertComponent e q.1 q.2 with
          | .ok w2 => w2
          | .error _ => wa) w = rest.foldl (fun wa q =>
          match wa.insertComponent e q.1 q.2 with
          | .ok w2 => w2
          | .error _ => wa) w1 := by
        rw [List.foldl_cons, heq1]
      obtain ⟨w2, heq2, hwf2, hstr2, htick2, hfree2, hlen2, hgen2, hlive2, hcellJ2,
        hstored2, hstoredE2, hliveE2⟩ :=
        ih w1 hwf1 er1 her1 hgen1' hsome1
      rw [hstep, heq2]
      refine ⟨w2, rfl, hwf2, hstr2.trans hstr1, htick2.trans htick1,
        hfree2.trans hfree1, hlen2.trans hlen1, ?_, ?_, ?_, ?_, ?_, hliveE2⟩
      · intro j
        rw [hgen2 j, hgen1 j]
      · intro j
        rw [hlive2 j, hlive1 j]
      · intro j hj c'
        rw [hcellJ2 j hj c', hcellJ1 j hj c']
      · intro j hj
        rw [hstored2 j hj, hstoredJ1 j hj]
      · rw [hstoredE2, hstored1]
        rw [List.map_cons, List.toFinset_cons, Finset.insert_union, Finset.union_insert]

end Ecs

namespace Ecs

theorem spawn_spec (w : World) (comps : List (Nat × Nat)) (hwf : w.WF) :
    ∃ w' e', w.spawn comps = (w', e') ∧ w'.WF ∧
      w'.strategy = w.strategy ∧ w'.tick = w.tick ∧
      (∃ er', w'.ents.get? e'.index = some er' ∧ er'.gen = e'.generation ∧
        er'.loc.isSome = true) ∧
      w'.isLive e'.index = true ∧
      w.isLive e'.index = false ∧
      w'.storedComps e'.index = (comps.map Prod.fst).toFinset ∧
      (∀ j, j ≠ e'.index →
        (w'.ents.get? j).map EntityRec.gen = (w.ents.get? j).map EntityRec.gen) ∧
      (∀ j, j ≠ e'.index → w'.isLive j = w.isLive j) ∧
      (∀ j c', j ≠ e'.index → w'.getCellInfo j c' = w.getCellInfo j c') ∧
      (∀ j, j ≠ e'.index → w'.storedComps j = w.storedComps j) ∧
      (∀ i rest, w.freelist = i :: rest → e'.index = i ∧
        e'.generation = (w.ents.getD i defaultRec).gen ∧ w'.freelist = rest ∧
        w'.ents.length = w.ents.length) ∧
      (w.freelist = [] → e'.index = w.ents.length ∧ e'.generation = 0 ∧ w'.freelist = [] ∧
        w'.ents.length = w.ents.length + 1) := by
  obtain ⟨wE, eE, hspE, hwfE, hstrE, htkE, hspaE, ⟨erE, herE, hgenE, hsomeE⟩, hliveE,
    hdeadE, hstoredE, hJE, hliveJE, hcellJE, hstoredJE, hpopE, hfreshE⟩ :=
    spawnEmpty_spec w hwf
  obtain ⟨w2, heq2, hwf2, hstr2, htick2, hfree2, hlen2, hgen2, hlive2, hcellJ2,
    hstored2, hstoredE2, er2, her2, hgen2', hsome2⟩ :=
    insert_fold_spec comps wE eE hwfE erE herE hgenE hsomeE
  have heq : w.spawn comps = (w2, eE) := by
    unfold World.spawn
    rw [hspE]
    simp only [heq2]
  refine ⟨w2, eE, heq, hwf2, hstr2.trans hstrE, htick2.trans htkE,
    ⟨er2, her2, hgen2', hsome2⟩, ?_, hdeadE, ?_, ?_, ?_, ?_, ?_, ?_, ?_⟩
  · obtain ⟨l, hl⟩ : ∃ l, er2.loc = some l := by
      cases h : er2.loc with
      | none =>
        rw [h] at hsome2
        cases hsome2
      | some l => exact ⟨l, rfl⟩
    exact (isLive_iff w2 eE.index).mpr ⟨er2, her2, l, hl⟩
  · rw [hstoredE2, hstoredE, Finset.union_empty]
  · intro j hj
    rw [hgen2 j, hJE j hj]
  · intro j hj
    rw [hlive2 j, hliveJE j hj]
  · intro j c' hj
    rw [hcellJ2 j hj c', hcellJE j c' hj]
  · intro j hj
    rw [hstored2 j hj, hstoredJE j hj]
  · intro i rest hfl
    obtain ⟨h1, h2, h3, h4⟩ := hpopE i rest hfl
    exact ⟨h1, h2, hfree2.trans h3, hlen2.trans h4⟩
  · intro hfl
    obtain ⟨h1, h2, h3, h4⟩ := hfreshE hfl
    exact ⟨h1, h2, hfree2.trans h3, hlen2.trans h4⟩

end Ecs

theorem get?_append_singleton {α : Type} (l : List α) (x : α) (i : Nat) :
    (l ++ [x]).get? i =
      if i < l.length then l.get? i else if i = l.length then some x else none := by
  by_cases hi : i < l.length
  · rw [if_pos hi]
    exact List.get?_append hi
  · rw [if_neg hi]
    by_cases hi' : i = l.length
    · rw [if_pos hi', hi']
      exact List.get?_concat_length _ _
    · rw [if_neg hi']
      rw [List.get?_eq_none]
      simp only [List.length_append, List.length_cons, List.length_nil]
      omega

namespace Ecs

theorem sim_step (w : World) (aw : AWorld) (hsim : simRel w aw) (op : Op) :
    simRel (applyOp w op) (applyAOp aw op) := by
  obtain ⟨hwf, hlen, hgens, hlive, hstored, hfl⟩ := hsim
  have hres_of_valid : ∀ e, aw.validA e = true →
      ∃ er l, w.ents.get? e.index = some er ∧ er.gen = e.generation ∧ er.loc = some l ∧
        w.resolve e = .ok l := by
    intro e hv
    unfold AWorld.validA at hv
    cases har : aw.ents.get? e.index with
    | none =>
      rw [har] at hv
      cases hv
    | some ar =>
      rw [har] at hv
      simp only [Bool.and_eq_true, decide_eq_true_eq] at hv
      obtain ⟨hg, hsome⟩ := hv
      have hl : w.isLive e.index = true := (hlive e.index).mpr ⟨ar, har, hsome⟩
      obtain ⟨er, her, l, hloc⟩ := (isLive_iff w e.index).mp hl
      have hgg := hgens e.index
      rw [her, har] at hgg
      simp only [Option.map_some'] at hgg
      have hergen : er.gen = e.generation := by
        rw [Option.some.inj hgg, hg]
      exact ⟨er, l, her, hergen, hloc, resolve_of_live w e er l her hergen hloc⟩
  have hvalid_of_res : ∀ e l, w.resolve e = .ok l → aw.validA e = true := by
    intro e l hres
    obtain ⟨er, her, hgenr, hloc⟩ := (resolve_ok_iff w e l).mp hres
    obtain ⟨ar, har, hsome⟩ :=
      (hlive e.index).mp ((isLive_iff w e.index).mpr ⟨er, her, l, hloc⟩)
    have hgg := hgens e.index
    rw [her, har] at hgg
    simp only [Option.map_some'] at hgg
    unfold AWorld.validA
    rw [har]
    simp only [Bool.and_eq_true, decide_eq_true_eq]
    refine ⟨?_, hsome⟩
    rw [← Option.some.inj hgg]
    exact hgenr
  have hnotvalid : ∀ e err, w.resolve e = .error err → aw.validA e = false := by
    intro e err hres
    cases hv : aw.validA e with
    | false => rfl
    | true =>
      obtain ⟨er, l, _, _, _, hres'⟩ := hres_of_valid e hv
      rw [hres] at hres'
      cases hres'
  cases op with
  | tickOp =>
    show simRel w.advanceTick aw
    exact ⟨hwf, hlen, hgens, hlive, hstored, hfl⟩
  | insertOp e c v =>
    cases hres : w.resolve e with
    | error err =>
      have h1 : w.insertComponent e c v = .error err := insertComponent_error w e c v err hres
      have hv := hnotvalid e err hres
      have happ : applyOp w (.insertOp e c v) = w := by
        simp only [applyOp, h1]
      have happA : applyAOp aw (.insertOp e c v) = aw := by
        simp only [applyAOp, hv]
        simp
      rw [happ, happA]
      exact ⟨hwf, hlen, hgens, hlive, hstored, hfl⟩
    | ok l =>
      obtain ⟨a, r⟩ := l
      have hv : aw.validA e = true := hvalid_of_res e (a, r) hres
      obtain ⟨er, her, hgenr, hloc⟩ := (resolve_ok_iff w e (a, r)).mp hres
      obtain ⟨ar, har, harsome⟩ := (hlive e.index).mp
        ((isLive_iff w e.index).mpr ⟨er, her, (a, r), hloc⟩)
      obtain ⟨s, hs⟩ : ∃ s, ar.comps = some s := by
        cases h : ar.comps with
        | none =>
          rw [h] at harsome
          cases harsome
        | some s => exact ⟨s, rfl⟩
      have hSold : w.storedComps e.index = s := hstored e.index ar s har hs
      have hAents : (applyAOp aw (.insertOp e c v)).ents =
          listModify (fun ar => { ar with comps := ar.comps.map (fun t => insert c t) })
            e.index aw.ents := by
        simp only [applyAOp, hv]
        simp
      have hAfl : (applyAOp aw (.insertOp e c v)).freelist = aw.freelist := by
        simp only [applyAOp, hv]
        simp
      by_cases hc : c ∈ w.storedComps e.index
      · obtain ⟨w1, heq1, hwf1, hents1, htick1, hstr1, hfree1, harchs1, hcellJ1,
          hcellE1, hcellC1, hstored1, hres1⟩ :=
          insertComponent_overwrite_spec w e c v a r hwf hres hc
        have happ : applyOp w (.insertOp e c v) = w1 := by
          simp only [applyOp, heq1]
        rw [happ]
        refine ⟨hwf1, ?_, ?_, ?_, ?_, ?_⟩
        · rw [hAents, hents1, length_listModify]
          exact hlen
        · intro i
          rw [hAents, hents1, get?_map_key_listModify ARec.gen
            (fun ar => { ar with comps := ar.comps.map (fun t => insert c t) })
            (fun x => rfl) e.index aw.ents i]
          exact hgens i
        · intro i
          have hLeq : w1.isLive i = w.isLive i := by
            unfold World.isLive
            rw [hents1]
          rw [hLeq, hAents]
          by_cases hie : i = e.index
          · subst hie
            rw [get?_listModify_self, har]
            simp only [Option.map_some']
            constructor
            · intro _
              refine ⟨_, rfl, ?_⟩
              show (ar.comps.map _).isSome = true
              rw [hs]
              rfl
            · intro _
              exact (isLive_iff w e.index).mpr ⟨er, her, (a, r), hloc⟩
          · rw [get?_listModify_ne _ _ _ _ hie]
            exact hlive i
        · intro i ar' s' har' hs'
          rw [hAents] at har'
          by_cases hie : i = e.index
          · subst hie
            rw [get?_listModify_self, har] at har'
            simp only [Option.map_some'] at har'
            rw [← Option.some.inj har'] at hs'
            rw [hs] at hs'
            simp only [Option.map_some'] at hs'
            have hs'' : s' = insert c s := (Option.some.inj hs').symm
            rw [hstored1 e.index, hSold, hs'']
            rw [Finset.insert_eq_self.mpr (by rw [← hSold]; exact hc)]
          · rw [get?_listModify_ne _ _ _ _ hie] at har'
            rw [hstored1 i]
            exact hstored i ar' s' har' hs'
        · rw [hAfl, hfree1, hfl]
      · obtain ⟨w1, heq1, hwf1, hfrm1, hstoredE1, hcellC1, hcellO1, hliveE1⟩ :=
          insertComponent_fresh_spec w e c v a r hwf hres hc
        obtain ⟨hstr1, htick1, hfree1, hlen1, hgens1, hlives1, hcellJ1, hstoredJ1⟩ := hfrm1
        have happ : applyOp w (.insertOp e c v) = w1 := by
          simp only [applyOp, heq1]
        rw [happ]
        refine ⟨hwf1, ?_, ?_, ?_, ?_, ?_⟩
        · rw [hAents, hlen1, length_listModify]
          exact hlen
        · intro i
          rw [hAents, hgens1 i, get?_map_key_listModify ARec.gen
            (fun ar => { ar with comps := ar.comps.map (fun t => insert c t) })
            (fun x => rfl) e.index aw.ents i]
          exact hgens i
        · intro i
          rw [hlives1 i, hAents]
          by_cases hie : i = e.index
          · subst hie
            rw [get?_listModify_self, har]
            simp only [Option.map_some']
            constructor
            · intro _
              refine ⟨_, rfl, ?_⟩
              show (ar.comps.map _).isSome = true
              rw [hs]
              rfl
            · intro _
              exact (isLive_iff w e.index).mpr ⟨er, her, (a, r), hloc⟩
          · rw [get?_listModify_ne _ _ _ _ hie]
            exact hlive i
        · intro i ar' s' har' hs'
          rw [hAents] at har'
          by_cases hie : i = e.index
          · subst hie
            rw [get?_listModify_self, har] at har'
            simp only [Option.map_some'] at har'
            rw [← Option.some.inj har'] at hs'
            rw [hs] at hs'
            simp only [Option.map_some'] at hs'
            have hs'' : s' = insert c s := (Option.some.inj hs').symm
            rw [hstoredE1, hSold, hs'']
          · rw [get?_listModify_ne _ _ _ _ hie] at har'
            rw [hstoredJ1 i hie]
            exact hstored i ar' s' har' hs'
        · rw [hAfl, hfree1, hfl]
  | removeOp e c =>
    cases hres : w.resolve e with
    | error err =>
      have h1 : w.removeComponent e c = .error err := removeComponent_error w e c err hres
      have hv := hnotvalid e err hres
      have happ : applyOp w (.removeOp e c) = w := by
        simp only [applyOp, h1]
      have happA : applyAOp aw (.removeOp e c) = aw := by
        simp only [applyAOp, hv]
        simp
      rw [happ, happA]
      exact ⟨hwf, hlen, hgens, hlive, hstored, hfl⟩
    | ok l =>
      obtain ⟨a, r⟩ := l
      have hv : aw.validA e = true := hvalid_of_res e (a, r) hres
      obtain ⟨er, her, hgenr, hloc⟩ := (resolve_ok_iff w e (a, r)).mp hres
      obtain ⟨ar, har, harsome⟩ := (hlive e.index).mp
        ((isLive_iff w e.index).mpr ⟨er, her, (a, r), hloc⟩)
      obtain ⟨s, hs⟩ : ∃ s, ar.comps = some s := by
        cases h : ar.comps with
        | none =>
          rw [h] at harsome
          cases harsome
        | some s => exact ⟨s, rfl⟩
      have hSold : w.storedComps e.index = s := hstored e.index ar s har hs
      have hAents : (applyAOp aw (.removeOp e c)).ents =
          listModify (fun ar => { ar with comps := ar.comps.map (fun t => t.erase c) })
            e.index aw.ents := by
        simp only [applyAOp, hv]
        simp
      have hAfl : (applyAOp aw (.removeOp e c)).freelist = aw.freelist := by
        simp only [applyAOp, hv]
        simp
      by_cases hc : c ∈ w.storedComps e.index
      · obtain ⟨w1, val, heq1, hval1, hwf1, hfrm1, hstoredE1, hcellN1, hcellO1, hliveE1⟩ :=
          removeComponent_present_spec w e c a r hwf hres hc
        obtain ⟨hstr1, htick1, hfree1, hlen1, hgens1, hlives1, hcellJ1, hstoredJ1⟩ := hfrm1
        have happ : applyOp w (.removeOp e c) = w1 := by
          simp only [applyOp, heq1]
        rw [happ]
        refine ⟨hwf1, ?_, ?_, ?_, ?_, ?_⟩
        · rw [hAents, hlen1, length_listModify]
          exact hlen
        · intro i
          rw [hAents, hgens1 i, get?_map_key_listModify ARec.gen
            (fun ar => { ar with comps := ar.comps.map (fun t => t.erase c) })
            (fun x => rfl) e.index aw.ents i]
          exact hgens i
        · intro i
          rw [hlives1 i, hAents]
          by_cases hie : i = e.index
          · subst hie
            rw [get?_listModify_self, har]
            simp only [Option.map_some']
            constructor
            · intro _
              refine ⟨_, rfl, ?_⟩
              show (ar.comps.map _).isSome = true
              rw [hs]
              rfl
            · intro _
              exact (isLive_iff w e.index).mpr ⟨er, her, (a, r), hloc⟩
          · rw [get?_listModify_ne _ _ _ _ hie]
            exact hlive i
        · intro i ar' s' har' hs'
          rw [hAents] at har'
          by_cases hie : i = e.index
          · subst hie
            rw [get?_listModify_self, har] at har'
            simp only [Option.map_some'] at har'
            rw [← Option.some.inj har'] at hs'
            rw [hs] at hs'
            simp only [Option.map_some'] at hs'
            have hs'' : s' = s.erase c := (Option.some.inj hs').symm
            rw [hstoredE1, hSold, hs'']
          · rw [get?_listModify_ne _ _ _ _ hie] at har'
            rw [hstoredJ1 i hie]
            exact hstored i ar' s' har' hs'
        · rw [hAfl, hfree1, hfl]
      · have heq1 : w.removeComponent e c = .ok (w, none) :=
          removeComponent_absent_spec w e c a r hwf hres hc
        have happ : applyOp w (.removeOp e c) = w := by
          simp only [applyOp, heq1]
        rw [happ]
        have hcnot : c ∉ s := by
          rw [← hSold]
          exact hc
        refine ⟨hwf, ?_, ?_, ?_, ?_, ?_⟩
        · rw [hAents, length_listModify]
          exact hlen
        · intro i
          rw [hAents, get?_map_key_listModify ARec.gen
            (fun ar => { ar with comps := ar.comps.map (fun t => t.erase c) })
            (fun x => rfl) e.index aw.ents i]
          exact hgens i
        · intro i
          rw [hAents]
          by_cases hie : i = e.index
          · subst hie
            rw [get?_listModify_self, har]
            simp only [Option.map_some']
            constructor
            · intro _
              refine ⟨_, rfl, ?_⟩
              show (ar.comps.map _).isSome = true
              rw [hs]
              rfl
            · intro _
              exact (isLive_iff w e.index).mpr ⟨er, her, (a, r), hloc⟩
          · rw [get?_listModify_ne _ _ _ _ hie]
            exact hlive i
        · intro i ar' s' har' hs'
          rw [hAents] at har'
          by_cases hie : i = e.index
          · subst hie
            rw [get?_listModify_self, har] at har'
            simp only [Option.map_some'] at har'
            rw [← Option.some.inj har'] at hs'
            rw [hs] at hs'
            simp only [Option.map_some'] at hs'
            have hs'' : s' = s.erase c := (Option.some.inj hs').symm
            rw [hs'', Finset.erase_eq_self.mpr hcnot]
            exact hSold
          · rw [get?_listModify_ne _ _ _ _ hie] at har'
            exact hstored i ar' s' har' hs'
        · rw [hAfl, hfl]
  | despawnOp e =>
    cases hres : w.resolve e with
    | error err =>
      have h1 : w.despawn e = .error err := despawn_error w e err hres
      have hv := hnotvalid e err hres
      have happ : applyOp w (.despawnOp e) = w := by
        simp only [applyOp, h1]
      have happA : applyAOp aw (.despawnOp e) = aw := by
        simp only [applyAOp, hv]
        simp
      rw [happ, happA]
      exact ⟨hwf, hlen, hgens, hlive, hstored, hfl⟩
    | ok l =>
      obtain ⟨a, r⟩ := l
      have hv : aw.validA e = true := hvalid_of_res e (a, r) hres
      obtain ⟨er, her, hgenr, hloc⟩ := (resolve_ok_iff w e (a, r)).mp hres
      obtain ⟨ar, har, harsome⟩ := (hlive e.index).mp
        ((isLive_iff w e.index).mpr ⟨er, her, (a, r), hloc⟩)
      obtain ⟨w1, heq1, hwf1, hstr1, htick1, hfree1, hlen1, ⟨er0, her0, hgen0, hE1⟩,
        hgensJ1, hliveJ1, hliveE1, hcellJ1, hstoredJ1, hstoredE1⟩ :=
        despawn_spec w e a r hwf hres
      have hergg : er0 = er := by
        rw [her0] at her
        exact Option.some.inj her
      have hAents : (applyAOp aw (.despawnOp e)).ents =
          listModify (fun ar => { gen := ar.gen + 1, comps := none }) e.index aw.ents := by
        simp only [applyAOp, hv]
        simp
      have hAfl : (applyAOp aw (.despawnOp e)).freelist = e.index :: aw.freelist := by
        simp only [applyAOp, hv]
        simp
      have happ : applyOp w (.despawnOp e) = w1 := by
        simp only [applyOp, heq1]
      rw [happ]
      have hgg := hgens e.index
      rw [her0, har] at hgg
      simp only [Option.map_some'] at hgg
      have hergen : er0.gen = ar.gen := Option.some.inj hgg
      refine ⟨hwf1, ?_, ?_, ?_, ?_, ?_⟩
      · rw [hAents, hlen1, length_listModify]
        exact hlen
      · intro i
        rw [hAents]
        by_cases hie : i = e.index
        · subst hie
          rw [hE1, get?_listModify_self, har]
          simp only [Option.map_some']
          rw [hergen]
        · rw [hgensJ1 i hie, get?_listModify_ne _ _ _ _ hie]
          exact hgens i
      · intro i
        rw [hAents]
        by_cases hie : i = e.index
        · subst hie
          rw [hliveE1, get?_listModify_self, har]
          simp only [Option.map_some']
          constructor
          · intro h
            cases h
          · rintro ⟨ar', har', hsome'⟩
            rw [← Option.some.inj har'] at hsome'
            cases hsome'
        · rw [hliveJ1 i hie, get?_listModify_ne _ _ _ _ hie]
          exact hlive i
      · intro i ar' s' har' hs'
        rw [hAents] at har'
        by_cases hie : i = e.index
        · subst hie
          rw [get?_listModify_self, har] at har'
          simp only [Option.map_some'] at har'
          rw [← Option.some.inj har'] at hs'
          cases hs'
        · rw [get?_listModify_ne _ _ _ _ hie] at har'
          rw [hstoredJ1 i hie]
          exact hstored i ar' s' har' hs'
      · rw [hAfl, hfree1, hfl]
  | spawnOp comps =>
    obtain ⟨w1, e1, heq1, hwf1, hstr1, htick1, ⟨er1, her1, hgen1, hsome1⟩, hliveE1,
      hdead1, hstoredE1, hgensJ1, hliveJ1, hcellJ1, hstoredJ1, hpop1, hfresh1⟩ :=
      spawn_spec w comps hwf
    have happ : applyOp w (.spawnOp comps) = w1 := by
      simp only [applyOp, heq1]
    rw [happ]
    cases hafl : aw.freelist with
    | cons i0 rest =>
      have hwfl : w.freelist = i0 :: rest := by rw [hfl, hafl]
      obtain ⟨hidx, hgenp, hfl1, hlen1⟩ := hpop1 i0 rest hwfl
      have hAents : (applyAOp aw (.spawnOp comps)).ents =
          listModify (fun ar => { ar with comps := some (comps.map Prod.fst).toFinset })
            i0 aw.ents := by
        simp only [applyAOp, hafl]
      have hAfl : (applyAOp aw (.spawnOp comps)).freelist = rest := by
        simp only [applyAOp, hafl]
      obtain ⟨erD, herD, hlocD⟩ :=
        hwf.2.2.2.2.2.2.2 i0 (by rw [hwfl]; exact List.mem_cons_self _ _)
      obtain ⟨arD, harD⟩ : ∃ arD, aw.ents.get? i0 = some arD := by
        cases h : aw.ents.get? i0 with
        | none =>
          have hgg := hgens i0
          rw [herD, h] at hgg
          cases hgg
        | some arD => exact ⟨arD, rfl⟩
      have hgda : erD.gen = arD.gen := by
        have hgg := hgens i0
        rw [herD, harD] at hgg
        simp only [Option.map_some'] at hgg
        exact Option.some.inj hgg
      have hgetd : w.ents.getD i0 defaultRec = erD := getD_of_get? herD _
      refine ⟨hwf1, ?_, ?_, ?_, ?_, ?_⟩
      · rw [hAents, hlen1, length_listModify]
        exact hlen
      · intro i
        rw [hAents]
        by_cases hie : i = i0
        · subst hie
          have hw1i : w1.ents.get? i = some er1 := by
            rw [← hidx]
            exact her1
          rw [hw1i, get?_listModify_self, harD]
          simp only [Option.map_some']
          rw [hgen1, hgenp, hgetd, hgda]
        · rw [hgensJ1 i (by rw [hidx]; exact hie), get?_listModify_ne _ _ _ _ hie]
          exact hgens i
      · intro i
        rw [hAents]
        by_cases hie : i = i0
        · subst hie
          have hl1 : w1.isLive i = true := by
            rw [← hidx]
            exact hliveE1
          rw [hl1, get?_listModify_self, harD]
          simp only [Option.map_some']
          constructor
          · intro _
            exact ⟨_, rfl, rfl⟩
          · intro _
            trivial
        · rw [hliveJ1 i (by rw [hidx]; exact hie), get?_listModify_ne _ _ _ _ hie]
          exact hlive i
      · intro i ar' s' har' hs'
        rw [hAents] at har'
        by_cases hie : i = i0
        · subst hie
          rw [get?_listModify_self, harD] at har'
          simp only [Option.map_some'] at har'
          rw [← Option.some.inj har'] at hs'
          have hss : s' = (comps.map Prod.fst).toFinset := (Option.some.inj hs').symm
          rw [hss, ← hidx]
          exact hstoredE1
        · rw [get?_listModify_ne _ _ _ _ hie] at har'
          rw [hstoredJ1 i (by rw [hidx]; exact hie)]
          exact hstored i ar' s' har' hs'
      · rw [hAfl]
        exact hfl1
    | nil =>
      have hwfl : w.freelist = [] := by rw [hfl, hafl]
      obtain ⟨hidx, hgenp, hfl1, hlen1⟩ := hfresh1 hwfl
      have hAents : (applyAOp aw (.spawnOp comps)).ents =
          aw.ents ++ [{ gen := 0, comps := some (comps.map Prod.fst).toFinset }] := by
        simp only [applyAOp, hafl]
      have hAfl : (applyAOp aw (.spawnOp comps)).freelist = [] := by
        simp only [applyAOp, hafl]
      have hidxa : e1.index = aw.ents.length := by rw [hidx, hlen]
      refine ⟨hwf1, ?_, ?_, ?_, ?_, ?_⟩
      · rw [hAents, hlen1, hlen]
        simp
      · intro i
        rw [hAents, get?_append_singleton]
        by_cases hlt : i < aw.ents.length
        · rw [if_pos hlt]
          have hie : i ≠ e1.index := by
            rw [hidxa]
            omega
          rw [hgensJ1 i hie]
          exact hgens i
        · rw [if_neg hlt]
          by_cases hieq : i = aw.ents.length
          · rw [if_pos hieq]
            have hw1i : w1.ents.get? i = some er1 := by
              rw [hieq, ← hidxa]
              exact her1
            rw [hw1i]
            simp only [Option.map_some']
            rw [hgen1, hgenp]
          · rw [if_neg hieq]
            have hie : i ≠ e1.index := by
              rw [hidxa]
              omega
            rw [hgensJ1 i hie]
            have hwn : w.ents.get? i = none := by
              rw [List.get?_eq_none, hlen]
              omega
            rw [hwn]
            rfl
      · intro i
        rw [hAents, get?_append_singleton]
        by_cases hlt : i < aw.ents.length
        · rw [if_pos hlt]
          have hie : i ≠ e1.index := by
            rw [hidxa]
            omega
          rw [hliveJ1 i hie]
          exact hlive i
        · rw [if_neg hlt]
          by_cases hieq : i = aw.ents.length
          · rw [if_pos hieq]
            have hl1 : w1.isLive i = true := by
              rw [hieq, ← hidxa]
              exact hliveE1
            rw [hl1]
            constructor
            · intro _
              exact ⟨_, rfl, rfl⟩
            · intro _
              trivial
          · rw [if_neg hieq]
            have hie : i ≠ e1.index := by
              rw [hidxa]
              omega
            rw [hliveJ1 i hie]
            have hwn : w.isLive i = false := by
              unfold World.isLive
              rw [show w.ents.get? i = none by rw [List.get?_eq_none, hlen]; omega]
            rw [hwn]
            constructor
            · intro h
              cases h
            · rintro ⟨ar', har', _⟩
              cases har'
      · intro i ar' s' har' hs'
        rw [hAents, get?_append_singleton] at har'
        by_cases hlt : i < aw.ents.length
        · rw [if_pos hlt] at har'
          have hie : i ≠ e1.index := by
            rw [hidxa]
            omega
          rw [hstoredJ1 i hie]
          exact hstored i ar' s' har' hs'
        · rw [if_neg hlt] at har'
          by_cases hieq : i = aw.ents.length
          · rw [if_pos hieq] at har'
            rw [← Option.some.inj har'] at hs'
            have hss : s' = (comps.map Prod.fst).toFinset := (Option.some.inj hs').symm
            rw [hss, hieq, ← hidxa]
            exact hstoredE1
          · rw [if_neg hieq] at har'
            cases har'
      · rw [hAfl]
        exact hfl1

end Ecs

namespace Ecs

theorem sim_fold (ops : List Op) (w : World) (aw : AWorld) (hsim : simRel w aw) :
    simRel (ops.foldl applyOp w) (ops.foldl applyAOp aw) := by
  induction ops generalizing w aw with
  | nil => exact hsim
  | cons op ops ih => exact ih _ _ (sim_step w aw hsim op)

theorem sim_init (strategy : Nat → Strategy) :
    simRel (World.init strategy) { ents := [], freelist := [] } := by
  refine ⟨init_WF strategy, rfl, fun i => rfl, ?_, ?_, rfl⟩
  · intro i
    constructor
    · intro h
      rw [show (World.init strategy).isLive i = false from rfl] at h
      cases h
    · rintro ⟨ar, har, _⟩
      have h2 : (none : Option ARec) = some ar := har
      cases h2
  · intro i ar s har hs
    have h2 : (none : Option ARec) = some ar := har
    cases h2

theorem runOps_sim (strategy : Nat → Strategy) (ops : List Op) :
    simRel (runOps strategy ops) (runAOps ops) :=
  sim_fold ops _ _ (sim_init strategy)

theorem runOps_WF (strategy : Nat → Strategy) (ops : List Op) :
    (runOps strategy ops).WF :=
  (runOps_sim strategy ops).1

end Ecs

namespace Ecs

theorem mem_queryEntities (w : World) (hwf : w.WF) (req exc : Finset Nat) (i : Nat) :
    i ∈ w.queryEntities req exc ↔
      (w.isLive i = true ∧ req ⊆ w.storedComps i ∧ Disjoint exc (w.storedComps i)) := by
  unfold World.queryEntities
  constructor
  · intro h
    rw [List.mem_flatMap] at h
    obtain ⟨arch, harchf, hient⟩ := h
    rw [List.mem_filter] at harchf
    obtain ⟨harch, hm⟩ := harchf
    obtain ⟨b, hb⟩ := List.mem_iff_get?.mp harch
    obtain ⟨row, hrow, hent⟩ := List.mem_map.mp hient
    obtain ⟨r, hr⟩ := List.mem_iff_get?.mp hrow
    obtain ⟨er, her, hloc⟩ := hwf.2.2.1 b arch hb r row hr
    rw [hent] at her
    have hlv : w.isLive i = true := (isLive_iff w i).mpr ⟨er, her, _, hloc⟩
    have hsc : w.storedComps i = arch.compSet :=
      storedComps_eq_compSet w i b r er arch hwf her hloc hb
    unfold matchesQ at hm
    simp only [decide_eq_true_eq] at hm
    rw [hsc]
    exact ⟨hlv, hm.1, hm.2⟩
  · rintro ⟨hlv, hsub, hdis⟩
    obtain ⟨er, her, l, hloc⟩ := (isLive_iff w i).mp hlv
    obtain ⟨a, r⟩ := l
    obtain ⟨arch, hb, row, hr, hent⟩ := hwf.2.1 i er her a r hloc
    have hsc : w.storedComps i = arch.compSet :=
      storedComps_eq_compSet w i a r er arch hwf her hloc hb
    rw [List.mem_flatMap]
    refine ⟨arch, ?_, ?_⟩
    · rw [List.mem_filter]
      refine ⟨List.get?_mem hb, ?_⟩
      unfold matchesQ
      simp only [decide_eq_true_eq]
      rw [hsc] at hsub hdis
      exact ⟨hsub, hdis⟩
    · exact List.mem_map.mpr ⟨row, List.get?_mem hr, hent⟩

end Ecs

namespace Vis

/-- C9: each of the three visibility toggle methods is an involution (applying
it twice restores any starting value), and each leaves its third variant
(Hidden, Visible, and Inherited respectively) unchanged. -/
theorem C9_visibility_toggle_involutions :
    (∀ v : Visibility, v.toggle_inherited_visible.toggle_inherited_visible = v ∧
      v.toggle_inherited_hidden.toggle_inherited_hidden = v ∧
      v.toggle_visible_hidden.toggle_visible_hidden = v) ∧
    Visibility.Hidden.toggle_inherited_visible = Visibility.Hidden ∧
    Visibility.Visible.toggle_inherited_hidden = Visibility.Visible ∧
    Visibility.Inherited.toggle_visible_hidden = Visibility.Inherited := by
  refine ⟨?_, rfl, rfl, rfl⟩
  intro v
  cases v <;> exact ⟨rfl, rfl, rfl⟩

end Vis

namespace ColorR

/-- C8: `ColorRange<T>::at` for `Range<T>` clamps the interpolation factor at
the endpoints: any factor at most 0 produces the same color as factor 0, and
any factor at least 1 produces the same color as factor 1, for an arbitrary
Mix implementation. -/
theorem C8_color_range_clamps {α : Type} (mix : α → α → ℚ → α) (start stop : α)
    (f : ℚ) :
    (f ≤ 0 → rangeAt mix start stop f = rangeAt mix start stop 0) ∧
    (1 ≤ f → rangeAt mix start stop f = rangeAt mix start stop 1) := by
  unfold rangeAt clampQ
  constructor
  · intro hf
    have h1 : ¬(0 : ℚ) < 0 := lt_irrefl 0
    have h2 : ¬(1 : ℚ) < (0 : ℚ) := by norm_num
    by_cases h0 : f < 0
    · rw [if_pos h0, if_neg h1, if_neg h2]
    · have hf0 : f = 0 := le_antisymm hf (not_lt.mp h0)
      rw [hf0]
  · intro hf
    have h1 : ¬(1 : ℚ) < (0 : ℚ) := by norm_num
    have h2 : ¬(1 : ℚ) < (1 : ℚ) := lt_irrefl 1
    have h3 : ¬f < 0 := by linarith
    by_cases h0 : 1 < f
    · rw [if_neg h3, if_pos h0, if_neg h1, if_neg h2]
    · have hf1 : f = 1 := le_antisymm (not_lt.mp h0) hf
      rw [hf1]

/-- Witness for C8 at the concrete linear Mix, with factors -2 and 2. -/
theorem C8_color_range_clamps_witness :
    rangeAt mixLerp 0 1 (-2) = rangeAt mixLerp 0 1 0 ∧
    rangeAt mixLerp 0 1 2 = rangeAt mixLerp 0 1 1 :=
  ⟨(C8_color_range_clamps mixLerp 0 1 (-2)).1 (by norm_num),
   (C8_color_range_clamps mixLerp 0 1 2).2 (by norm_num)⟩

end ColorR

namespace Capsule

/-- C10 (corrected): the claim as originally stated fails on the program
because every offset is computed in `u32`, which wraps for large parameters
(see `C10_capsule_build_overflow_counterexample`); it holds whenever the
parameters are small enough that no `u32` computation wraps.  For every
capsule mesh builder with `1 ≤ longitudes ≤ 4096`, `4 ≤ latitudes ≤ 4096`
and `rings ≤ 4096`, every vertex-array write lands strictly inside arrays
of length `vert_len` (so the build cannot panic on an out-of-bounds write,
and no `u32` computation overflows), the written position/normal/UV arrays
all keep length `vert_len`, the triangle index buffer has length `fs_len`,
and every triangle index is strictly below `vert_len`. -/
theorem C10_capsule_build_bounds (rings longitudes latitudes : Nat)
    (hlon : 1 ≤ longitudes) (hlat : 4 ≤ latitudes)
    (hr : rings ≤ 4096) (hlon2 : longitudes ≤ 4096) (hlat2 : latitudes ≤ 4096) :
    (∀ x ∈ vertexWriteIndices rings longitudes latitudes,
      x < vert_len rings longitudes latitudes) ∧
    (∀ (α : Type) (f : Nat → α) (d : α),
      (applyWrites f (vertexWriteIndices rings longitudes latitudes)
        (List.replicate (vert_len rings longitudes latitudes) d)).length =
        vert_len rings longitudes latitudes) ∧
    (capsuleTriangles rings longitudes latitudes).length =
      fs_len rings longitudes latitudes ∧
    (∀ x ∈ capsuleTriangles rings longitudes latitudes,
      x < vert_len rings longitudes latitudes) := by
  rw [vertexWriteIndices_eq rings longitudes latitudes hlat hr hlon2 hlat2,
    vert_len_eq rings longitudes latitudes hlat hr hlon2 hlat2,
    capsuleTriangles_eq rings longitudes latitudes hlat hr hlon2 hlat2,
    fs_len_eq rings longitudes latitudes hlat hr hlon2 hlat2]
  refine ⟨vertexWriteIndices_bound rings longitudes latitudes hlat, ?_,
    capsuleTriangles_length rings longitudes latitudes,
    capsuleTriangles_bound rings longitudes latitudes hlat⟩
  intro α f d
  rw [length_applyWrites, List.length_replicate]

/-- Witness for C10 at rings 1, longitudes 2, latitudes 5. -/
theorem C10_capsule_build_bounds_witness :
    (∀ x ∈ vertexWriteIndices 1 2 5, x < vert_len 1 2 5) ∧
    (∀ (α : Type) (f : Nat → α) (d : α),
      (applyWrites f (vertexWriteIndices 1 2 5)
        (List.replicate (vert_len 1 2 5) d)).length = vert_len 1 2 5) ∧
    (capsuleTriangles 1 2 5).length = fs_len 1 2 5 ∧
    (∀ x ∈ capsuleTriangles 1 2 5, x < vert_len 1 2 5) :=
  C10_capsule_build_bounds 1 2 5 (by decide) (by decide) (by decide) (by decide)
    (by decide)

/-- The unbounded form of the C10 claim is refuted by the `u32` semantics:
at `rings = 0`, `longitudes = 65536`, `latitudes = 131072` — parameters
admitted by `longitudes ≥ 1`, `latitudes ≥ 4` — the offset computation
`longitudes + longitudes_p1 * half_latitudes_n1 = 65536 + 65537 * 65535`
exceeds `2^32` and wraps, the vertex arrays get the wrapped length
`vert_len = 262144`, and the hemisphere vertex loop writes index `262147`:
an out-of-bounds write panic in a release build (in a debug build the
wrapping arithmetic itself panics on overflow), so `build()` does not
complete and the index bound fails. -/
theorem C10_capsule_build_overflow_counterexample :
    1 ≤ 65536 ∧ 4 ≤ 131072 ∧
    vert_len 0 65536 131072 = 262144 ∧
    ∃ x ∈ vertexWriteIndices 0 65536 131072, vert_len 0 65536 131072 ≤ x := by
  refine ⟨by decide, by decide, by decide, 262147, ?_, by decide⟩
  unfold vertexWriteIndices
  refine List.mem_append.mpr (Or.inl (List.mem_append.mpr (Or.inr ?_)))
  refine List.mem_flatMap.mpr ⟨3, List.mem_range.mpr (by decide), ?_⟩
  refine List.mem_flatMap.mpr ⟨0, List.mem_range.mpr (by decide), ?_⟩
  decide

end Capsule

namespace Ecs

/-- C2: on any live entity, inserting component `c` with value `v` and then
removing `c` returns `Some v`, leaves every other component of the entity
unchanged, and leaves the stored component values of every other entity
unchanged. -/
theorem C2_insert_remove_roundtrip (w : World) (e : EntityId) (c v : Nat) (a r : Nat)
    (hwf : w.WF) (hres : w.resolve e = .ok (a, r)) :
    ∃ w1 w2, w.insertComponent e c v = .ok w1 ∧
      w1.removeComponent e c = .ok (w2, some v) ∧
      (∀ c', c' ≠ c → w2.getCellInfo e.index c' = w.getCellInfo e.index c') ∧
      (∀ j, j ≠ e.index → ∀ c', w2.getCellInfo j c' = w.getCellInfo j c') := by
  by_cases hc : c ∈ w.storedComps e.index
  · obtain ⟨w1, heq1, hwf1, hents1, htick1, hstr1, hfree1, harchs1, hcellJ1,
      hcellE1, hcellC1, hstored1, hres1⟩ :=
      insertComponent_overwrite_spec w e c v a r hwf hres hc
    have hcin1 : c ∈ w1.storedComps e.index := by
      rw [hstored1]
      exact hc
    obtain ⟨w2, val, heq2, hval2, hwf2, hfrm2, hstored2, hcellN2, hcellO2, hliveE2⟩ :=
      removeComponent_present_spec w1 e c a r hwf1 hres1 hcin1
    obtain ⟨hstr2, htick2, hfree2, hlen2, hgens2, hlives2, hcellJ2, hstoredJ2⟩ := hfrm2
    obtain ⟨info0, hinfo0, hcellnew⟩ := hcellC1
    have hgv : w1.getValue e.index c = some v := by
      unfold World.getValue
      rw [hcellnew]
      rfl
    rw [hgv] at hval2
    have hvv : val = v := (Option.some.inj hval2).symm
    rw [hvv] at heq2
    refine ⟨w1, w2, heq1, heq2, ?_, ?_⟩
    · intro c' hcc
      rw [hcellO2 c' hcc, hcellE1 c' hcc]
    · intro j hj c'
      rw [hcellJ2 j hj c', hcellJ1 j c' hj]
  · obtain ⟨w1, heq1, hwf1, hfrm1, hstored1, hcellC1, hcellO1, hliveE1⟩ :=
      insertComponent_fresh_spec w e c v a r hwf hres hc
    obtain ⟨hstr1, htick1, hfree1, hlen1, hgens1, hlives1, hcellJ1, hstoredJ1⟩ := hfrm1
    obtain ⟨er1, her1, hgen1, hsome1⟩ := hliveE1
    obtain ⟨l1, hl1⟩ : ∃ l1, er1.loc = some l1 := by
      cases h : er1.loc with
      | none =>
        rw [h] at hsome1
        cases hsome1
      | some l1 => exact ⟨l1, rfl⟩
    obtain ⟨a1, r1⟩ := l1
    have hres1 : w1.resolve e = .ok (a1, r1) := resolve_of_live w1 e er1 (a1, r1) her1 hgen1 hl1
    have hcin1 : c ∈ w1.storedComps e.index := by
      rw [hstored1]
      exact Finset.mem_insert_self c _
    obtain ⟨w2, val, heq2, hval2, hwf2, hfrm2, hstored2, hcellN2, hcellO2, hliveE2⟩ :=
      removeComponent_present_spec w1 e c a1 r1 hwf1 hres1 hcin1
    obtain ⟨hstr2, htick2, hfree2, hlen2, hgens2, hlives2, hcellJ2, hstoredJ2⟩ := hfrm2
    have hgv : w1.getValue e.index c = some v := by
      unfold World.getValue
      rw [hcellC1]
      rfl
    rw [hgv] at hval2
    have hvv : val = v := (Option.some.inj hval2).symm
    rw [hvv] at heq2
    refine ⟨w1, w2, heq1, heq2, ?_, ?_⟩
    · intro c' hcc
      rw [hcellO2 c' hcc, hcellO1 c' hcc]
    · intro j hj c'
      rw [hcellJ2 j hj c', hcellJ1 j hj c']

/-- Witness for C2 on a freshly spawned entity holding component 0. -/
theorem C2_insert_remove_roundtrip_witness :
    ∃ w1 w2,
      (runOps stratAB [Op.spawnOp [(0, 7)]]).insertComponent
        { index := 0, generation := 0 } 1 9 = .ok w1 ∧
      w1.removeComponent { index := 0, generation := 0 } 1 = .ok (w2, some 9) ∧
      (∀ c', c' ≠ 1 →
        w2.getCellInfo 0 c' =
          (runOps stratAB [Op.spawnOp [(0, 7)]]).getCellInfo 0 c') ∧
      (∀ j, j ≠ 0 → ∀ c',
        w2.getCellInfo j c' = (runOps stratAB [Op.spawnOp [(0, 7)]]).getCellInfo j c') :=
  C2_insert_remove_roundtrip (runOps stratAB [Op.spawnOp [(0, 7)]])
    { index := 0, generation := 0 } 1 9 1 0
    (runOps_WF stratAB [Op.spawnOp [(0, 7)]]) (by decide)

/-- C3: inserting a component the live entity already has overwrites the value
in place without migration: the Entity Location Index (the `ents` array) is
bit-for-bit unchanged, the entity still resolves to the same archetype id and
row, every archetype keeps its ComponentSet, and the stored value is the new
one. -/
theorem C3_overwrite_in_place (w : World) (e : EntityId) (c v : Nat) (a r : Nat)
    (hwf : w.WF) (hres : w.resolve e = .ok (a, r)) (hc : c ∈ w.storedComps e.index) :
    ∃ w', w.insertComponent e c v = .ok w' ∧
      w'.ents = w.ents ∧
      w'.resolve e = .ok (a, r) ∧
      (∀ b, (w'.archetypes.get? b).map Archetype.compSet =
        (w.archetypes.get? b).map Archetype.compSet) ∧
      w'.getValue e.index c = some v ∧
      w'.storedComps e.index = w.storedComps e.index := by
  obtain ⟨w1, heq1, hwf1, hents1, htick1, hstr1, hfree1, harchs1, hcellJ1,
    hcellE1, hcellC1, hstored1, hres1⟩ :=
    insertComponent_overwrite_spec w e c v a r hwf hres hc
  obtain ⟨info0, hinfo0, hcellnew⟩ := hcellC1
  refine ⟨w1, heq1, hents1, hres1, harchs1, ?_, hstored1 e.index⟩
  unfold World.getValue
  rw [hcellnew]
  rfl

/-- Witness for C3: overwriting component 0 on a freshly spawned entity. -/
theorem C3_overwrite_in_place_witness :
    ∃ w',
      (runOps stratAB [Op.spawnOp [(0, 7)]]).insertComponent
        { index := 0, generation := 0 } 0 9 = .ok w' ∧
      w'.ents = (runOps stratAB [Op.spawnOp [(0, 7)]]).ents ∧
      w'.resolve { index := 0, generation := 0 } = .ok (1, 0) ∧
      (∀ b, (w'.archetypes.get? b).map Archetype.compSet =
        ((runOps stratAB [Op.spawnOp [(0, 7)]]).archetypes.get? b).map Archetype.compSet) ∧
      w'.getValue 0 0 = some 9 ∧
      w'.storedComps 0 = (runOps stratAB [Op.spawnOp [(0, 7)]]).storedComps 0 :=
  C3_overwrite_in_place (runOps stratAB [Op.spawnOp [(0, 7)]])
    { index := 0, generation := 0 } 0 9 1 0
    (runOps_WF stratAB [Op.spawnOp [(0, 7)]]) (by decide) (by decide)

/-- C4: after every sequence of boundary operations, every live entity's
Location Index entry resolves to an archetype whose stored component set is
exactly the reference set of components inserted minus removed (the `comps`
field maintained by the reference world of the spec). -/
theorem C4_location_index_invariant (strategy : Nat → Strategy) (ops : List Op)
    (i : Nat) (hlv : (runOps strategy ops).isLive i = true) :
    ∃ er, (runOps strategy ops).ents.get? i = some er ∧
      ∃ a r, er.loc = some (a, r) ∧
        ∃ arch, (runOps strategy ops).archetypes.get? a = some arch ∧
          ∃ ar s, (runAOps ops).ents.get? i = some ar ∧ ar.comps = some s ∧
            (runOps strategy ops).storedComps i = s ∧ arch.compSet = s := by
  obtain ⟨hwf, hlen, hgens, hlive, hstored, hfl⟩ := runOps_sim strategy ops
  obtain ⟨ar, har, hsome⟩ := (hlive i).mp hlv
  obtain ⟨s, hs⟩ : ∃ s, ar.comps = some s := by
    cases h : ar.comps with
    | none =>
      rw [h] at hsome
      cases hsome
    | some s => exact ⟨s, rfl⟩
  obtain ⟨er, her, l, hloc⟩ := (isLive_iff _ i).mp hlv
  obtain ⟨a, r⟩ := l
  obtain ⟨arch, hb, row, hr, hent⟩ := hwf.2.1 i er her a r hloc
  have hsc : (runOps strategy ops).storedComps i = arch.compSet :=
    storedComps_eq_compSet _ i a r er arch hwf her hloc hb
  have hss : (runOps strategy ops).storedComps i = s := hstored i ar s har hs
  exact ⟨er, her, a, r, hloc, arch, hb, ar, s, har, hs, hss, by rw [← hsc, hss]⟩

/-- Witness for C4 on a three-operation trace. -/
theorem C4_location_index_invariant_witness :
    ∃ er, (runOps stratAB [Op.spawnOp [(0, 7)], Op.insertOp { index := 0, generation := 0 } 1 9,
        Op.removeOp { index := 0, generation := 0 } 1]).ents.get? 0 = some er ∧
      ∃ a r, er.loc = some (a, r) ∧
        ∃ arch, (runOps stratAB [Op.spawnOp [(0, 7)], Op.insertOp { index := 0, generation := 0 } 1 9,
            Op.removeOp { index := 0, generation := 0 } 1]).archetypes.get? a = some arch ∧
          ∃ ar s, (runAOps [Op.spawnOp [(0, 7)], Op.insertOp { index := 0, generation := 0 } 1 9,
              Op.removeOp { index := 0, generation := 0 } 1]).ents.get? 0 = some ar ∧
            ar.comps = some s ∧
            (runOps stratAB [Op.spawnOp [(0, 7)], Op.insertOp { index := 0, generation := 0 } 1 9,
              Op.removeOp { index := 0, generation := 0 } 1]).storedComps 0 = s ∧
            arch.compSet = s :=
  C4_location_index_invariant stratAB
    [Op.spawnOp [(0, 7)], Op.insertOp { index := 0, generation := 0 } 1 9,
      Op.removeOp { index := 0, generation := 0 } 1] 0 (by decide)

/-- C5: despawning a live entity and then spawning again reuses the freed
index under an incremented generation, and every boundary operation invoked
with the stale handle fails with `invalidEntity` instead of touching the new
entity. -/
theorem C5_generation_protects_reuse (w : World) (e : EntityId) (a r : Nat)
    (hwf : w.WF) (hres : w.resolve e = .ok (a, r)) :
    ∃ w1, w.despawn e = .ok w1 ∧
      ∀ comps, ∃ w2 e2, w1.spawn comps = (w2, e2) ∧
        e2.index = e.index ∧ e2.generation = e.generation + 1 ∧
        w2.resolve e = .error .invalidEntity ∧
        (∀ c v, w2.insertComponent e c v = .error .invalidEntity) ∧
        (∀ c, w2.removeComponent e c = .error .invalidEntity) ∧
        w2.despawn e = .error .invalidEntity := by
  obtain ⟨w1, heq1, hwf1, hstr1, htick1, hfree1, hlen1, ⟨er0, her0, hgen0, hE1⟩,
    hgensJ1, hliveJ1, hliveE1, hcellJ1, hstoredJ1, hstoredE1⟩ :=
    despawn_spec w e a r hwf hres
  refine ⟨w1, heq1, ?_⟩
  intro comps
  obtain ⟨w2, e2, heq2, hwf2, hstr2, htick2, ⟨er2, her2, hgen2, hsome2⟩, hliveE2,
    hdead2, hstoredE2, hgensJ2, hliveJ2, hcellJ2, hstoredJ2, hpop2, hfresh2⟩ :=
    spawn_spec w1 comps hwf1
  obtain ⟨hidx, hgen, hfl2, hlen2⟩ := hpop2 e.index w.freelist hfree1
  have hgetd : w1.ents.getD e.index defaultRec = { gen := er0.gen + 1, loc := none } :=
    getD_of_get? hE1 _
  have hgenval : e2.generation = e.generation + 1 := by
    rw [hgen, hgetd, ← hgen0]
  have hstale : w2.ents.get? e.index = some er2 := by
    rw [← hidx]
    exact her2
  have hgenne : er2.gen ≠ e.generation := by
    rw [hgen2, hgenval]
    omega
  have hresStale : w2.resolve e = .error .invalidEntity :=
    resolve_stale w2 e er2 hstale hgenne
  exact ⟨w2, e2, heq2, hidx, hgenval, hresStale,
    fun c v => insertComponent_error w2 e c v _ hresStale,
    fun c => removeComponent_error w2 e c _ hresStale,
    despawn_error w2 e _ hresStale⟩

/-- Witness for C5 on a freshly spawned entity. -/
theorem C5_generation_protects_reuse_witness :
    ∃ w1, (runOps stratAB [Op.spawnOp [(0, 7)]]).despawn
        { index := 0, generation := 0 } = .ok w1 ∧
      ∀ comps, ∃ w2 e2, w1.spawn comps = (w2, e2) ∧
        e2.index = 0 ∧ e2.generation = 1 ∧
        w2.resolve { index := 0, generation := 0 } = .error .invalidEntity ∧
        (∀ c v, w2.insertComponent { index := 0, generation := 0 } c v =
          .error .invalidEntity) ∧
        (∀ c, w2.removeComponent { index := 0, generation := 0 } c =
          .error .invalidEntity) ∧
        w2.despawn { index := 0, generation := 0 } = .error .invalidEntity :=
  C5_generation_protects_reuse (runOps stratAB [Op.spawnOp [(0, 7)]])
    { index := 0, generation := 0 } 1 0
    (runOps_WF stratAB [Op.spawnOp [(0, 7)]]) (by decide)

end Ecs

namespace Ecs

theorem spawnPhase_facts (n : Nat) :
    (runOps stratAB (spawnPhase n)).WF ∧
    (runOps stratAB (spawnPhase n)).strategy = stratAB ∧
    (runOps stratAB (spawnPhase n)).ents.length = n ∧
    (runOps stratAB (spawnPhase n)).freelist = [] ∧
    (∀ i, i < n → (runOps stratAB (spawnPhase n)).isLive i = true ∧
      ((runOps stratAB (spawnPhase n)).ents.get? i).map EntityRec.gen = some 0 ∧
      (runOps stratAB (spawnPhase n)).storedComps i = {0}) ∧
    (∀ i, n ≤ i → (runOps stratAB (spawnPhase n)).isLive i = false) := by
  induction n with
  | zero =>
    refine ⟨init_WF stratAB, rfl, rfl, rfl, ?_, ?_⟩
    · intro i hi
      omega
    · intro i hi
      rfl
  | succ n ih =>
    obtain ⟨hwf, hstrat, hlen, hfl, hlive, hdead⟩ := ih
    have hstep : runOps stratAB (spawnPhase (n + 1)) =
        applyOp (runOps stratAB (spawnPhase n)) (Op.spawnOp [(0, 7)]) := by
      unfold runOps spawnPhase
      rw [List.replicate_succ', List.foldl_append]
      rfl
    obtain ⟨w1, e1, heq1, hwf1, hstr1, htick1, ⟨er1, her1, hgen1, hsome1⟩, hliveE1,
      hdead1, hstoredE1, hgensJ1, hliveJ1, hcellJ1, hstoredJ1, hpop1, hfresh1⟩ :=
      spawn_spec (runOps stratAB (spawnPhase n)) [(0, 7)] hwf
    obtain ⟨hidx, hgenz, hflz, hlenz⟩ := hfresh1 hfl
    have happ : applyOp (runOps stratAB (spawnPhase n)) (Op.spawnOp [(0, 7)]) = w1 := by
      simp only [applyOp, heq1]
    rw [hstep, happ]
    have hidxn : e1.index = n := by rw [hidx, hlen]
    refine ⟨hwf1, hstr1.trans hstrat, by rw [hlenz, hlen], hflz, ?_, ?_⟩
    · intro i hi
      by_cases hie : i = n
      · subst hie
        refine ⟨by rw [← hidxn]; exact hliveE1, ?_, ?_⟩
        · rw [← hidxn, her1]
          simp only [Option.map_some']
          rw [hgen1, hgenz]
        · rw [← hidxn, hstoredE1]
          decide
      · have hie' : i ≠ e1.index := by
          rw [hidxn]
          exact hie
        have hi' : i < n := by omega
        obtain ⟨h1, h2, h3⟩ := hlive i hi'
        exact ⟨by rw [hliveJ1 i hie']; exact h1, by rw [hgensJ1 i hie']; exact h2,
          by rw [hstoredJ1 i hie']; exact h3⟩
    · intro i hi
      have hie' : i ≠ e1.index := by
        rw [hidxn]
        omega
      rw [hliveJ1 i hie']
      exact hdead i (by omega)

theorem insertBPhase_facts (n : Nat) (k : Nat) (hk : k ≤ n) :
    ((insertBPhase k).foldl applyOp (runOps stratAB (spawnPhase n))).WF ∧
    ((insertBPhase k).foldl applyOp (runOps stratAB (spawnPhase n))).strategy = stratAB ∧
    ((insertBPhase k).foldl applyOp (runOps stratAB (spawnPhase n))).ents.length = n ∧
    ((insertBPhase k).foldl applyOp (runOps stratAB (spawnPhase n))).freelist = [] ∧
    (∀ i, i < n →
      ((insertBPhase k).foldl applyOp (runOps stratAB (spawnPhase n))).isLive i = true ∧
      (((insertBPhase k).foldl applyOp (runOps stratAB (spawnPhase n))).ents.get? i).map
        EntityRec.gen = some 0 ∧
      ((insertBPhase k).foldl applyOp (runOps stratAB (spawnPhase n))).storedComps i =
        (if i < k then {0, 1} else {0})) ∧
    (∀ i, n ≤ i →
      ((insertBPhase k).foldl applyOp (runOps stratAB (spawnPhase n))).isLive i = false) := by
  induction k with
  | zero =>
    obtain ⟨hwf, hstrat, hlen, hfl, hlive, hdead⟩ := spawnPhase_facts n
    refine ⟨hwf, hstrat, hlen, hfl, ?_, hdead⟩
    intro i hi
    obtain ⟨h1, h2, h3⟩ := hlive i hi
    refine ⟨h1, h2, ?_⟩
    rw [if_neg (by omega)]
    exact h3
  | succ k ih =>
    obtain ⟨hwf, hstrat, hlen, hfl, hlive, hdead⟩ := ih (by omega)
    set wk := (insertBPhase k).foldl applyOp (runOps stratAB (spawnPhase n)) with hwkdef
    have hstep : (insertBPhase (k + 1)).foldl applyOp (runOps stratAB (spawnPhase n)) =
        applyOp wk (Op.insertOp { index := k, generation := 0 } 1 9) := by
      unfold insertBPhase
      rw [List.range_succ, List.map_append, List.foldl_append]
      rfl
    have hkn : k < n := by omega
    obtain ⟨h1, h2, h3⟩ := hlive k hkn
    obtain ⟨er, her, l, hloc⟩ := (isLive_iff wk k).mp h1
    have hgen : er.gen = 0 := by
      rw [her] at h2
      simp only [Option.map_some'] at h2
      exact Option.some.inj h2
    have hres : wk.resolve { index := k, generation := 0 } = .ok l :=
      resolve_of_live wk { index := k, generation := 0 } er l her hgen hloc
    obtain ⟨a, r⟩ := l
    have hstk : wk.storedComps k = {0} := by
      rw [h3, if_neg (by omega)]
    have hc : (1 : Nat) ∉ wk.storedComps k := by
      rw [hstk]
      decide
    obtain ⟨w1, heq1, hwf1, hfrm1, hstored1, hcellC1, hcellO1, hliveE1⟩ :=
      insertComponent_fresh_spec wk { index := k, generation := 0 } 1 9 a r hwf hres hc
    obtain ⟨hstr1, htick1, hfree1, hlen1, hgens1, hlives1, hcellJ1, hstoredJ1⟩ := hfrm1
    have happ : applyOp wk (Op.insertOp { index := k, generation := 0 } 1 9) = w1 := by
      simp only [applyOp, heq1]
    rw [hstep, happ]
    refine ⟨hwf1, hstr1.trans hstrat, hlen1.trans hlen, hfree1.trans hfl, ?_, ?_⟩
    · intro i hi
      refine ⟨by rw [hlives1 i]; exact (hlive i hi).1,
        by rw [hgens1 i]; exact (hlive i hi).2.1, ?_⟩
      by_cases hie : i = k
      · subst hie
        rw [if_pos (by omega)]
        show w1.storedComps i = _
        rw [hstored1, hstk]
        decide
      · rw [hstoredJ1 i hie, (hlive i hi).2.2]
        by_cases hik : i < k
        · rw [if_pos hik, if_pos (by omega)]
        · rw [if_neg hik, if_neg (by omega)]
    · intro i hi
      rw [hlives1 i]
      exact hdead i hi

theorem removeBPhase_facts (n : Nat) (k : Nat) (hk : k ≤ n) :
    ((removeBPhase k).foldl applyOp ((insertBPhase n).foldl applyOp
      (runOps stratAB (spawnPhase n)))).WF ∧
    ((removeBPhase k).foldl applyOp ((insertBPhase n).foldl applyOp
      (runOps stratAB (spawnPhase n)))).strategy = stratAB ∧
    ((removeBPhase k).foldl applyOp ((insertBPhase n).foldl applyOp
      (runOps stratAB (spawnPhase n)))).ents.length = n ∧
    (∀ i, i < n →
      ((removeBPhase k).foldl applyOp ((insertBPhase n).foldl applyOp
        (runOps stratAB (spawnPhase n)))).isLive i = true ∧
      (((removeBPhase k).foldl applyOp ((insertBPhase n).foldl applyOp
        (runOps stratAB (spawnPhase n)))).ents.get? i).map EntityRec.gen = some 0 ∧
      ((removeBPhase k).foldl applyOp ((insertBPhase n).foldl applyOp
        (runOps stratAB (spawnPhase n)))).storedComps i =
        (if i < k then {0} else {0, 1})) ∧
    (∀ i, n ≤ i →
      ((removeBPhase k).foldl applyOp ((insertBPhase n).foldl applyOp
        (runOps stratAB (spawnPhase n)))).isLive i = false) := by
  induction k with
  | zero =>
    obtain ⟨hwf, hstrat, hlen, hfl, hlive, hdead⟩ := insertBPhase_facts n n (le_refl n)
    refine ⟨hwf, hstrat, hlen, ?_, hdead⟩
    intro i hi
    obtain ⟨h1, h2, h3⟩ := hlive i hi
    refine ⟨h1, h2, ?_⟩
    rw [if_neg (by omega)]
    show ((insertBPhase n).foldl applyOp (runOps stratAB (spawnPhase n))).storedComps i = _
    rw [h3, if_pos hi]
  | succ k ih =>
    obtain ⟨hwf, hstrat, hlen, hlive, hdead⟩ := ih (by omega)
    set wk := (removeBPhase k).foldl applyOp ((insertBPhase n).foldl applyOp
      (runOps stratAB (spawnPhase n))) with hwkdef
    have hstep : (removeBPhase (k + 1)).foldl applyOp ((insertBPhase n).foldl applyOp
        (runOps stratAB (spawnPhase n))) =
        applyOp wk (Op.removeOp { index := k, generation := 0 } 1) := by
      unfold removeBPhase
      rw [List.range_succ, List.map_append, List.foldl_append]
      rfl
    have hkn : k < n := by omega
    obtain ⟨h1, h2, h3⟩ := hlive k hkn
    obtain ⟨er, her, l, hloc⟩ := (isLive_iff wk k).mp h1
    have hgen : er.gen = 0 := by
      rw [her] at h2
      simp only [Option.map_some'] at h2
      exact Option.some.inj h2
    have hres : wk.resolve { index := k, generation := 0 } = .ok l :=
      resolve_of_live wk { index := k, generation := 0 } er l her hgen hloc
    obtain ⟨a, r⟩ := l
    have hstk : wk.storedComps k = {0, 1} := by
      rw [h3, if_neg (by omega)]
    have hc : (1 : Nat) ∈ wk.storedComps k := by
      rw [hstk]
      decide
    obtain ⟨w1, val, heq1, hval1, hwf1, hfrm1, hstored1, hcellN1, hcellO1, hliveE1⟩ :=
      removeComponent_present_spec wk { index := k, generation := 0 } 1 a r hwf hres hc
    obtain ⟨hstr1, htick1, hfree1, hlen1, hgens1, hlives1, hcellJ1, hstoredJ1⟩ := hfrm1
    have happ : applyOp wk (Op.removeOp { index := k, generation := 0 } 1) = w1 := by
      simp only [applyOp, heq1]
    rw [hstep, happ]
    refine ⟨hwf1, hstr1.trans hstrat, hlen1.trans hlen, ?_, ?_⟩
    · intro i hi
      refine ⟨by rw [hlives1 i]; exact (hlive i hi).1,
        by rw [hgens1 i]; exact (hlive i hi).2.1, ?_⟩
      by_cases hie : i = k
      · subst hie
        rw [if_pos (by omega)]
        show w1.storedComps i = _
        rw [hstored1, hstk]
        decide
      · rw [hstoredJ1 i hie, (hlive i hi).2.2]
        by_cases hik : i < k
        · rw [if_pos hik, if_pos (by omega)]
        · rw [if_neg hik, if_neg (by omega)]
    · intro i hi
      rw [hlives1 i]
      exact hdead i hi

end Ecs

namespace Ecs

/-- C6: `matchesQ` is a pure predicate on the archetype's component set —
it holds iff the required set is contained in the archetype's component set
and the excluded set is disjoint from it — and, in any well-formed world,
iterating the query yields exactly the live entities whose stored component
set contains the required components and avoids the excluded ones,
independent of how many non-matching archetypes exist. -/
theorem C6_query_matches_characterization (w : World) (hwf : w.WF) (req exc : Finset Nat) :
    (∀ a : Archetype, matchesQ req exc a = true ↔
      (req ⊆ a.compSet ∧ Disjoint exc a.compSet)) ∧
    (∀ i : Nat, i ∈ w.queryEntities req exc ↔
      (w.isLive i = true ∧ req ⊆ w.storedComps i ∧ Disjoint exc (w.storedComps i))) := by
  refine ⟨?_, fun i => mem_queryEntities w hwf req exc i⟩
  intro a
  unfold matchesQ
  exact decide_eq_true_iff

theorem C6_query_matches_characterization_witness :
    (runOps stratAB (spawnPhase 1)).WF ∧
    ((∀ a : Archetype, matchesQ {0} ∅ a = true ↔
      (({0} : Finset Nat) ⊆ a.compSet ∧ Disjoint (∅ : Finset Nat) a.compSet)) ∧
    (∀ i : Nat, i ∈ (runOps stratAB (spawnPhase 1)).queryEntities {0} ∅ ↔
      ((runOps stratAB (spawnPhase 1)).isLive i = true ∧
        ({0} : Finset Nat) ⊆ (runOps stratAB (spawnPhase 1)).storedComps i ∧
        Disjoint (∅ : Finset Nat) ((runOps stratAB (spawnPhase 1)).storedComps i)))) :=
  ⟨runOps_WF stratAB (spawnPhase 1),
    C6_query_matches_characterization _ (runOps_WF stratAB (spawnPhase 1)) {0} ∅⟩

/-- C7: change detection: spawn an entity with component 0 only, advance the
tick, then insert component 1. A query for component 1 changed since the
pre-insert tick (0) yields the entity; the same query with a since-tick
captured after the insert (1) yields nothing; after advancing the tick and
mutating component 1 again, the query with since-tick 1 yields the entity
once more. -/
theorem C7_change_detection :
    (runOps stratAB [Op.spawnOp [(0, 7)], Op.tickOp,
        Op.insertOp { index := 0, generation := 0 } 1 9]).queryChanged {1} ∅ 1 0 = [0] ∧
    (runOps stratAB [Op.spawnOp [(0, 7)], Op.tickOp,
        Op.insertOp { index := 0, generation := 0 } 1 9]).queryChanged {1} ∅ 1 1 = [] ∧
    (runOps stratAB [Op.spawnOp [(0, 7)], Op.tickOp,
        Op.insertOp { index := 0, generation := 0 } 1 9, Op.tickOp,
        Op.insertOp { index := 0, generation := 0 } 1 10]).queryChanged {1} ∅ 1 1 = [0] := by
  refine ⟨?_, ?_, ?_⟩ <;> decide

end Ecs

namespace Ecs

/-- C1: the add/remove benchmark scenario: with component 0 table-backed and
component 1 sparse-set-backed, spawn 10000 entities each with only component
0, then insert component 1 on every one, then remove component 1 from every
one. After the insert phase all 10000 entities match the query requiring
components 0 and 1; after the remove phase all 10000 match the query
requiring component 0, none match the query requiring components 0 and 1,
and the number of live entities is still exactly 10000. -/
theorem C1_add_remove_benchmark_scenario :
    (∀ i, i < 10000 →
      i ∈ ((insertBPhase 10000).foldl applyOp
        (runOps stratAB (spawnPhase 10000))).queryEntities {0, 1} ∅) ∧
    (∀ i, i < 10000 →
      i ∈ ((removeBPhase 10000).foldl applyOp ((insertBPhase 10000).foldl applyOp
        (runOps stratAB (spawnPhase 10000)))).queryEntities {0} ∅) ∧
    (∀ i, i ∉ ((removeBPhase 10000).foldl applyOp ((insertBPhase 10000).foldl applyOp
      (runOps stratAB (spawnPhase 10000)))).queryEntities {0, 1} ∅) ∧
    ((removeBPhase 10000).foldl applyOp ((insertBPhase 10000).foldl applyOp
      (runOps stratAB (spawnPhase 10000)))).liveCount = 10000 := by
  obtain ⟨hwf2, hstrat2, hlen2, hfl2, hlive2, hdead2⟩ :=
    insertBPhase_facts 10000 10000 (le_refl 10000)
  obtain ⟨hwf3, hstrat3, hlen3, hlive3, hdead3⟩ :=
    removeBPhase_facts 10000 10000 (le_refl 10000)
  refine ⟨?_, ?_, ?_, ?_⟩
  · intro i hi
    rw [mem_queryEntities _ hwf2]
    obtain ⟨h1, h2, h3⟩ := hlive2 i hi
    rw [h3, if_pos hi]
    exact ⟨h1, Finset.Subset.refl _, Finset.disjoint_empty_left _⟩
  · intro i hi
    rw [mem_queryEntities _ hwf3]
    obtain ⟨h1, h2, h3⟩ := hlive3 i hi
    rw [h3, if_pos hi]
    exact ⟨h1, Finset.Subset.refl _, Finset.disjoint_empty_left _⟩
  · intro i hmem
    rw [mem_queryEntities _ hwf3] at hmem
    obtain ⟨h1, hsub, hdisj⟩ := hmem
    by_cases hi : i < 10000
    · obtain ⟨hl1, hl2, hl3⟩ := hlive3 i hi
      rw [hl3, if_pos hi] at hsub
      have h1mem : (1 : Nat) ∈ ({0} : Finset Nat) := hsub (by decide)
      exact absurd h1mem (by decide)
    · rw [hdead3 i (by omega)] at h1
      cases h1
  · have hall : ∀ er ∈ ((removeBPhase 10000).foldl applyOp ((insertBPhase 10000).foldl
        applyOp (runOps stratAB (spawnPhase 10000)))).ents, er.loc.isSome = true := by
      intro er her
      obtain ⟨j, hj⟩ := List.mem_iff_get?.mp her
      obtain ⟨hjl, hjv⟩ := List.get?_eq_some.mp hj
      have hjlt : j < 10000 := by
        rw [← hlen3]
        exact hjl
      have hl := (hlive3 j hjlt).1
      obtain ⟨er2, her2, l, hloc⟩ := (isLive_iff _ j).mp hl
      rw [hj] at her2
      cases Option.some.inj her2
      rw [hloc]
      rfl
    unfold World.liveCount
    rw [List.filter_eq_self.mpr hall]
    exact hlen3

end Ecs
